import Mathlib

/-!
# Verification of the Calendario-de-Obrigacoes reconciliation core

Shallow embedding of the RPA reconciliation backend
(`backend/services/rpa/...`): the locale amount parsers (`parseValor` in
`otimizaTxtParser.js` / `mpdsCsvParser.js` / `mpdsPdfParser.js`), the
comparison engine (`comparador/motor.js`), the account validator
(`validations/accountValidation.js`) and the four format parsers.

Modelling conventions:
* JavaScript strings are lists of characters (`Str`); JavaScript numbers
  are exact rationals.  They are represented by `JQ`, an unnormalised
  numerator/denominator pair (so that every concrete run reduces inside
  the kernel); `JQ.toRat` maps a `JQ` to the rational it denotes, and all
  value-level statements are phrased through `toRat`.  `NaN` is modelled
  by `Option JQ = none` where it can arise (`parseFloat`).
* `parseFloat` is modelled without the exponent form (`1e5`): no string
  reaching it in this code base carries an exponent, all inputs are built
  from digits, separators and sign/marker characters.
-/

namespace CalObr

/-- JavaScript strings, modelled as lists of characters. -/
abbrev Str := List Char

/-- Whitespace characters stripped by JavaScript `String.prototype.trim`
(the ones that can occur in this code base's inputs). -/
def isWS (c : Char) : Bool :=
  c.toNat = 32 || c.toNat = 9 || c.toNat = 10 || c.toNat = 13 || c.toNat = 11 || c.toNat = 12

/-- ASCII decimal digit. -/
def isDigitC (c : Char) : Bool :=
  48 ≤ c.toNat && c.toNat ≤ 57

/-- `String.prototype.trim`. -/
def jsTrim (l : Str) : Str :=
  ((l.dropWhile isWS).reverse.dropWhile isWS).reverse

/-- `s.includes(c)` for a single character. -/
def jsIncludes (c : Char) (l : Str) : Bool :=
  l.any (fun x => x = c)

/-- Index of the last occurrence of `c` in `l` (counted from the left). -/
def lastIdx (c : Char) : Str → Option ℕ
  | [] => none
  | x :: xs =>
    match lastIdx c xs with
    | some i => some (i + 1)
    | none => if x = c then some 0 else none

/-- `s.lastIndexOf(c)`: `-1` when absent. -/
def jsLastIndexOf (c : Char) (l : Str) : ℤ :=
  match lastIdx c l with
  | some i => (i : ℤ)
  | none => -1

/-- `s.replace(/c/g, '')`: remove every occurrence of one character. -/
def removeAll (c : Char) (l : Str) : Str :=
  l.filter (fun x => x ≠ c)

/-- `s.replace(a, b)` for single characters: replace the first occurrence. -/
def replaceFirst (a b : Char) : Str → Str
  | [] => []
  | x :: xs => if x = a then b :: xs else x :: replaceFirst a b xs

/-- `s.split(c)` for a single-character separator. -/
def jsSplit (c : Char) : Str → List Str
  | [] => [[]]
  | x :: xs =>
    if x = c then [] :: jsSplit c xs
    else
      match jsSplit c xs with
      | h :: t => (x :: h) :: t
      | [] => [[x]]

/-- Numeric value of a digit character. -/
def digitVal (c : Char) : ℕ :=
  c.toNat - '0'.toNat

/-- Value of a digit string read in base 10 (the way `parseFloat` reads the
integer part). -/
def digitsVal (l : Str) : ℕ :=
  l.foldl (fun a c => 10 * a + digitVal c) 0

/-- Value of a digit string read as a decimal fraction (the part after the
decimal point). -/
def fracVal (l : Str) : ℚ :=
  (digitsVal l : ℚ) / 10 ^ l.length

/-- An exact JavaScript number: a rational kept as an unnormalised
numerator/denominator pair.  The denominator is stored minus one
(`den1`), so it is positive by construction and the structure carries no
proof field; keeping the pair unnormalised lets every concrete
computation reduce inside the kernel (ℚ's gcd-normalising arithmetic
does not). -/
structure JQ where
  num : ℤ
  den1 : ℕ
deriving DecidableEq

namespace JQ

/-- The denominator, always positive. -/
def den (a : JQ) : ℤ :=
  (a.den1 : ℤ) + 1

/-- The rational a `JQ` denotes. -/
def toRat (a : JQ) : ℚ :=
  (a.num : ℚ) / (a.den : ℚ)

def ofInt (n : ℤ) : JQ :=
  ⟨n, 0⟩

instance : OfNat JQ n :=
  ⟨ofInt n⟩

/-- Build `n / d` for a positive natural denominator `d` (`d = 0` also
maps to denominator 1, but no call site uses it that way). -/
def mk' (n : ℤ) (d : ℕ) : JQ :=
  ⟨n, d - 1⟩

def add (a b : JQ) : JQ :=
  ⟨a.num * b.den + b.num * a.den, a.den1 * b.den1 + a.den1 + b.den1⟩

def neg (a : JQ) : JQ :=
  ⟨-a.num, a.den1⟩

def sub (a b : JQ) : JQ :=
  add a (neg b)

def mul (a b : JQ) : JQ :=
  ⟨a.num * b.num, a.den1 * b.den1 + a.den1 + b.den1⟩

/-- `Math.abs`. -/
def abs (a : JQ) : JQ :=
  ⟨|a.num|, a.den1⟩

/-- Value equality (what `===` means on JavaScript numbers). -/
def eqv (a b : JQ) : Prop :=
  a.num * b.den = b.num * a.den

def le (a b : JQ) : Prop :=
  a.num * b.den ≤ b.num * a.den

def lt (a b : JQ) : Prop :=
  a.num * b.den < b.num * a.den

instance : Add JQ := ⟨add⟩

instance : Neg JQ := ⟨neg⟩

instance : Sub JQ := ⟨sub⟩

instance : Mul JQ := ⟨mul⟩

instance : LE JQ := ⟨le⟩

instance : LT JQ := ⟨lt⟩

instance (a b : JQ) : Decidable (eqv a b) := by
  unfold eqv; infer_instance

instance (a b : JQ) : Decidable (a ≤ b) := by
  show Decidable (le a b); unfold le; infer_instance

instance (a b : JQ) : Decidable (a < b) := by
  show Decidable (lt a b); unfold lt; infer_instance

/-- Division, `none` on a zero divisor (JavaScript produces
`Infinity`/`NaN` there, which never survives the comparisons this code
performs on it). -/
def div? (a b : JQ) : Option JQ :=
  if b.num = 0 then none
  else if 0 < b.num then some ⟨a.num * b.den, a.den1 * (b.num.toNat - 1) + a.den1 + (b.num.toNat - 1)⟩
  else some ⟨-(a.num * b.den), a.den1 * ((-b.num).toNat - 1) + a.den1 + ((-b.num).toNat - 1)⟩

end JQ

/-- Model of JavaScript `parseFloat` (without the exponent form, see the
file header): skip leading whitespace, optional sign, longest prefix
`digits [. digits]`; `none` is `NaN`. -/
def jsParseFloat (l : Str) : Option JQ :=
  let l1 := l.dropWhile isWS
  let sgn : ℤ := if l1.head? = some '-' then -1 else 1
  let l2 := if l1.head? = some '-' ∨ l1.head? = some '+' then l1.drop 1 else l1
  let I := l2.takeWhile isDigitC
  let rest := l2.dropWhile isDigitC
  let F := if rest.head? = some '.' then (rest.drop 1).takeWhile isDigitC else []
  if I = [] ∧ F = [] then none
  else some (JQ.mk' (sgn * ((digitsVal I : ℤ) * 10 ^ F.length + (digitsVal F : ℤ)))
    (10 ^ F.length))

/-- `Math.round` (JavaScript semantics: `⌊x + 1/2⌋`, halves toward `+∞`).
On a `JQ` value `n/d` (`d > 0`) this is the floor of `(2n + d) / (2d)`. -/
def jsRound (a : JQ) : ℤ :=
  Int.fdiv (2 * a.num + a.den) (2 * a.den)

/-!
## The locale amount parser

`parseValor` from `backend/services/rpa/parsers/otimizaTxtParser.js`
(lines 9–52); `mpdsCsvParser.js` lines 46–86 is a character-for-character
copy of the same function (modulo a `String(...)` coercion on the
argument), so a single definition embeds both.

The result is `Option ℚ`: `none` models `NaN` (the `try/catch` around
`parseFloat` in the source is dead code — `parseFloat` never throws — so a
non-numeric residue yields `NaN`, not `0.0`).
-/
/-- The format-disambiguation core of `parseValor`: the string rewriting
applied between sign stripping and `parseFloat`. -/
def parseValorCore (valor : Str) : Str :=
  if jsIncludes ',' valor ∧ jsIncludes '.' valor then
    -- both separators: decide by the right-most one
    if jsLastIndexOf ',' valor > jsLastIndexOf '.' valor then
      replaceFirst ',' '.' (removeAll '.' valor)
    else
      removeAll ',' valor
  else if jsIncludes ',' valor then
    -- comma only: decimal comma iff exactly two parts (`partes = valor.split(',')`,
    -- inlined here) and the second part has at most 2 characters
    if (jsSplit ',' valor).length = 2 ∧ ((jsSplit ',' valor).getD 1 []).length ≤ 2 then
      replaceFirst ',' '.' (removeAll '.' valor)
    else
      removeAll ',' valor
  else
    valor

/-- `parseValor(valorStr)` of `otimizaTxtParser.js` / `mpdsCsvParser.js`. -/
def parseValor (valorStr : Str) : Option JQ :=
  if jsTrim valorStr = [] then some 0
  else
    let valor := jsTrim valorStr
    let negativo := valor.head? = some '-'
    let valor := if negativo then jsTrim (valor.drop 1) else valor
    let num := jsParseFloat (parseValorCore valor)
    if negativo then num.map (fun q => -q) else num

/-!
## The PDF statement parser's amount parser (claim C7)

`parseValor` from `backend/services/rpa/parsers/mpdsPdfParser.js`
(lines 10–63).  This variant strips a currency symbol, honours trailing
`D`/`C` (débito/crédito) markers, assumes the Brazilian convention (all
dots are thousands separators, the first comma is the decimal point) and
returns `0.0` instead of `NaN` on non-numeric residue, applying
`Math.abs` before the sign.
-/
/-- One-character model of `String.prototype.toUpperCase` (ASCII plus the
accented Latin-1 letters this code base can meet). -/
def jsToUpper1 (c : Char) : Char :=
  if 97 ≤ c.toNat ∧ c.toNat ≤ 122 then Char.ofNat (c.toNat - 32)
  else if c.toNat ≤ 127 then c
  else if c = 'á' then 'Á' else if c = 'à' then 'À' else if c = 'â' then 'Â'
  else if c = 'ã' then 'Ã' else if c = 'é' then 'É' else if c = 'ê' then 'Ê'
  else if c = 'í' then 'Í' else if c = 'ó' then 'Ó' else if c = 'ô' then 'Ô'
  else if c = 'õ' then 'Õ' else if c = 'ú' then 'Ú' else if c = 'ü' then 'Ü'
  else if c = 'ç' then 'Ç' else c

/-- `s.endsWith(suffix)`. -/
def jsEndsWith (suffix l : Str) : Bool :=
  suffix.reverse.isPrefixOf l.reverse

/-- Strip trailing whitespace only. -/
def dropTrailingWS (l : Str) : Str :=
  (l.reverse.dropWhile isWS).reverse

/-- The character class kept by `valor.replace(/[^\d.,R$DCdc\s-]/g, '')`. -/
def pdfKeepChar (c : Char) : Bool :=
  isDigitC c || c = '.' || c = ',' || c = 'R' || c = '$' || c = 'D' || c = 'C' ||
    c = 'd' || c = 'c' || isWS c || c = '-'

/-- `valor.replace(/R\$\s*/g, '')`: drop every `R$` together with the
whitespace following it.  The boolean is true while inside the `\s*` of a
match. -/
def removeRSGo : Bool → Str → Str
  | _, [] => []
  | skipWS, c :: rest =>
    if skipWS ∧ isWS c then removeRSGo true rest
    else
      match rest with
      | [] => [c]
      | r1 :: rest2 =>
        if c = 'R' ∧ r1 = '$' then removeRSGo true rest2
        else c :: removeRSGo false (r1 :: rest2)

def removeRS (l : Str) : Str :=
  removeRSGo false l

/-- `valor.replace(/\s*[Mm](word)?\s*$/i, '')` for a marker letter `M`
with an optional tail word (`ébito` / `rédito`). -/
def stripMarkerEnd (m : Char) (word : Str) (l : Str) : Str :=
  let rev := (dropTrailingWS l).reverse
  let revUp := rev.map jsToUpper1
  if ((word.reverse ++ [m]).map jsToUpper1).isPrefixOf revUp then
    ((rev.drop (word.length + 1)).dropWhile isWS).reverse
  else if [jsToUpper1 m].isPrefixOf revUp then
    ((rev.drop 1).dropWhile isWS).reverse
  else l

/-- `valor.replace(/^-+|-+$/g, '')`: strip leading and trailing hyphen
runs. -/
def stripHyphens (l : Str) : Str :=
  let l1 := l.dropWhile (fun c => c = '-')
  (l1.reverse.dropWhile (fun c => c = '-')).reverse

/-- `negativo ? -Math.abs(num) : Math.abs(num)`, with `NaN → 0.0`. -/
def pdfAbsResult (negativo : Bool) : Option JQ → JQ
  | none => 0
  | some q => if negativo then -(JQ.abs q) else JQ.abs q

/-- Dot/comma rewriting of the PDF `parseValor`: strip all dots, then the
first comma becomes the decimal dot. -/
def pdfCleanValor (valor : Str) : Str :=
  let v1 := removeAll '.' valor
  if jsIncludes ',' v1 then replaceFirst ',' '.' v1 else v1

/-- The tail of the PDF `parseValor` after sign/marker detection: strip
dots, first comma becomes the dot, validate `/^[\d.]+$/`, `parseFloat`,
absolute value with the sign applied. -/
def parseValorPdfFinish (negativo : Bool) (valor : Str) : JQ :=
  if pdfCleanValor valor ≠ [] ∧ (pdfCleanValor valor).all (fun c => isDigitC c || c = '.') then
    pdfAbsResult negativo (jsParseFloat (pdfCleanValor valor))
  else 0

/-- `parseValor(valorStr)` of `mpdsPdfParser.js`. -/
def parseValorPdf (valorStr : Str) : JQ :=
  if jsTrim valorStr = [] then 0
  else
    let valor := (jsTrim valorStr).filter pdfKeepChar
    let valor := jsTrim (removeRS valor)
    let valorUp := valor.map jsToUpper1
    if jsEndsWith ['D'] valorUp = true ∨ jsEndsWith ("DÉBITO".data) valorUp = true then
      parseValorPdfFinish true (jsTrim (stripMarkerEnd 'D' ("ébito".data) valor))
    else if jsEndsWith ['-'] valorUp = true ∨ valor.head? = some '-' then
      parseValorPdfFinish true (jsTrim (stripHyphens valor))
    else if jsEndsWith ['C'] valorUp = true ∨ jsEndsWith ("CRÉDITO".data) valorUp = true then
      parseValorPdfFinish false (jsTrim (stripMarkerEnd 'C' ("rédito".data) valor))
    else
      parseValorPdfFinish false valor

/-!
## The account validator (claims C4, C5, C10)

Embedding of `backend/services/rpa/validations/accountValidation.js`.
The SQLite store is modelled as in-memory lists (`Db`): the
`chart_of_accounts` query of `validateAccountExists` becomes a list
lookup, the `account_validation_rules WHERE is_enabled = 1` query of
`findMatchingRules` a filter, and `createAccountValidationResult`
persistence becomes the returned result list.  The four JSON-encoded
allow/block columns are modelled as already-decoded string lists.
-/
/-- `String.prototype.trim` on Lean strings. -/
def jsTrimS (s : String) : String :=
  ⟨jsTrim s.data⟩

/-- `String.prototype.toUpperCase` on Lean strings. -/
def jsToUpperS (s : String) : String :=
  ⟨s.data.map jsToUpper1⟩

/-- `x || dflt` for a string `x` (empty string is falsy). -/
def jsOrStr (o : Option String) (dflt : String) : String :=
  match o with
  | none => dflt
  | some s => if s = "" then dflt else s

/-- The canonical transaction shape used by the comparison engine and the
account validator (`data` is the `yyyy-MM-dd` string form). -/
structure Lancamento where
  data : String
  descricao : String
  documento : Option String
  valor : JQ
  saldo : Option JQ
  conta_contabil : Option String
  origem : String
  account_code : Option String
  event_type : Option String
  category : Option String
  entity_type : Option String

/-- A `chart_of_accounts` row. -/
structure ChartEntry where
  account_code : String
  account_name : String
  source : String
  is_active : Bool

/-- An `account_validation_rules` row (JSON columns pre-decoded). -/
structure Regra where
  id : ℕ
  name : String
  match_field : String
  match_value : String
  allowed_account_prefixes : List String
  allowed_account_codes : List String
  blocked_account_prefixes : List String
  blocked_account_codes : List String
  severity : String
  message : Option String
  is_enabled : Bool

/-- The persistent store visible to the validator. -/
structure Db where
  chart : List ChartEntry
  rules : List Regra

/-- `validateAccountExists(accountCode, source, db)` — only the `exists`
component (the human-readable message carries no logic). -/
def validateAccountExists (accountCode : String) (source : String) (db : Db) : Bool :=
  if jsTrimS accountCode = "" then false
  else
    (db.chart.find? fun e =>
      e.account_code == jsTrimS accountCode && e.source == source && e.is_active).isSome

/-- Dynamic field access `lancamento[regra.match_field]` restricted to the
string-valued fields of the fixed transaction shape (no rule in this code
base matches on the numeric fields). -/
def matchFieldValue (l : Lancamento) (field : String) : Option String :=
  if field = "event_type" then l.event_type
  else if field = "category" then l.category
  else if field = "entity_type" then l.entity_type
  else if field = "data" then some l.data
  else if field = "descricao" then some l.descricao
  else if field = "documento" then l.documento
  else if field = "conta_contabil" then l.conta_contabil
  else if field = "account_code" then l.account_code
  else if field = "origem" then some l.origem
  else none

/-- `findMatchingRules(lancamento, db)`: enabled rules whose match field
equals the rule's match value, case-insensitively, on a truthy field. -/
def findMatchingRules (l : Lancamento) (db : Db) : List Regra :=
  (db.rules.filter fun r => r.is_enabled).filter fun regra =>
    match matchFieldValue l regra.match_field with
    | none => false
    | some v =>
      v ≠ "" ∧ jsToUpperS (jsTrimS v) = jsToUpperS (jsTrimS regra.match_value)

/-- A validation verdict (`expected`/`meta` payloads beyond the rule id
are pure reporting and are not modelled). -/
structure VRes where
  status : String
  reason_code : String
  message : String
  meta_rule_id : Option ℕ
  rules_applied : List ℕ

/-- The `invalid / RULE_VIOLATION` verdict citing one rule. -/
def mkViolation (regra : Regra) (dflt : String) : VRes :=
  ⟨"invalid", "RULE_VIOLATION", jsOrStr regra.message dflt, some regra.id, []⟩

/-- The rule loop of `validateAccountAgainstRules`: blocked codes, then
blocked prefixes, then the allow sets; first failure wins, surviving all
rules is `ok` (the guards `length > 0` of the source are absorbed into
`contains`/`any`, which are false on `[]`). -/
def applyRules (code : String) (all : List Regra) : List Regra → VRes
  | [] => ⟨"ok", "VALID", "Conta validada com sucesso", none, all.map (fun r => r.id)⟩
  | regra :: rest =>
    let allowed :=
      regra.allowed_account_codes.contains code ||
        regra.allowed_account_prefixes.any (fun pfx => code.startsWith pfx)
    if regra.blocked_account_codes.contains code then
      mkViolation regra "Conta bloqueada pela regra"
    else if regra.blocked_account_prefixes.any (fun pfx => code.startsWith pfx) then
      mkViolation regra "Conta bloqueada pela regra (prefixo)"
    else if !allowed then
      mkViolation regra "Conta não está permitida pela regra"
    else
      applyRules code all rest

/-- `validateAccountAgainstRules(accountCode, rules)`. -/
def validateAccountAgainstRules (accountCode : String) (rules : List Regra) : VRes :=
  if jsTrimS accountCode = "" then
    ⟨"unknown", "MISSING_ACCOUNT_CODE", "Código de conta não fornecido", none, []⟩
  else if rules.length = 0 then
    ⟨"unknown", "NO_RULE_MATCH", "Nenhuma regra encontrada para este tipo de lançamento",
      none, []⟩
  else
    applyRules (jsTrimS accountCode) rules rules

/-- The surrogate `lancamento_key` (`date_amount_index`, kept as a tuple
rather than an interpolated string). -/
structure AVKey where
  data : String
  valor : JQ
  idx : ℕ
deriving DecidableEq

/-- A persisted account-validation result row. -/
structure AVResult where
  comparacao_id : ℕ
  lancamento_key : AVKey
  account_code : String
  status : String
  reason_code : String
  message : String

/-- The summary counts returned by `validateLancamentosAccounts`. -/
structure AVSummary where
  total : ℕ
  ok : ℕ
  invalid : ℕ
  unknown : ℕ

/-- `lancamento.account_code || lancamento.conta_contabil` (an empty
string is falsy). -/
def accountCodeOf (l : Lancamento) : Option String :=
  match l.account_code with
  | none => l.conta_contabil
  | some s => if s = "" then l.conta_contabil else some s

/-- `!accountCode || !accountCode.trim()`. -/
def isBlankCode (o : Option String) : Bool :=
  match o with
  | none => true
  | some s => jsTrimS s == ""

/-- The loop body of `validateLancamentosAccounts` for one transaction. -/
def processLancamento (cid : ℕ) (source : String) (db : Db) (idx : ℕ)
    (l : Lancamento) : AVResult :=
  let key : AVKey := ⟨l.data, l.valor, idx⟩
  if isBlankCode (accountCodeOf l) then
    ⟨cid, key, "", "unknown", "MISSING_ACCOUNT_CODE",
      "Código de conta não fornecido no lançamento"⟩
  else
    let accountCodeClean := jsTrimS ((accountCodeOf l).getD "")
    if validateAccountExists accountCodeClean source db = false then
      ⟨cid, key, accountCodeClean, "invalid", "ACCOUNT_NOT_FOUND",
        "Conta não encontrada no plano de contas"⟩
    else
      let vr := validateAccountAgainstRules accountCodeClean (findMatchingRules l db)
      ⟨cid, key, accountCodeClean, vr.status, vr.reason_code, vr.message⟩

/-- The counting loop of `validateLancamentosAccounts`. -/
def valGo (cid : ℕ) (source : String) (db : Db) :
    ℕ → ℕ → ℕ → ℕ → List Lancamento → (ℕ × ℕ × ℕ) × List AVResult
  | ok, inv, unk, _, [] => ((ok, inv, unk), [])
  | ok, inv, unk, idx, l :: rest =>
    let r := processLancamento cid source db idx l
    let next :=
      if r.status = "ok" then valGo cid source db (ok + 1) inv unk (idx + 1) rest
      else if r.status = "invalid" then valGo cid source db ok (inv + 1) unk (idx + 1) rest
      else valGo cid source db ok inv (unk + 1) (idx + 1) rest
    (next.1, r :: next.2)

/-- `validateLancamentosAccounts(comparacaoId, lancamentosOtimiza, source, db)`:
returns the summary and the persisted result rows, in input order. -/
def validateLancamentosAccounts (cid : ℕ) (lancs : List Lancamento) (source : String)
    (db : Db) : AVSummary × List AVResult :=
  let total := lancs.length
  let r := valGo cid source db 0 0 0 0 lancs
  (⟨total, r.1.1, r.1.2.1, r.1.2.2⟩, r.2)

/-- One rule is satisfied: not blocked by its blocked codes/prefixes and
allowed by its allowed codes/prefixes. -/
def satisfiesRule (code : String) (r : Regra) : Bool :=
  !(r.blocked_account_codes.contains code) &&
    !(r.blocked_account_prefixes.any fun pfx => code.startsWith pfx) &&
    (r.allowed_account_codes.contains code ||
      r.allowed_account_prefixes.any fun pfx => code.startsWith pfx)

/-!
## The comparison engine (`backend/services/rpa/comparador/motor.js`)

`normalizarDescricao` lower-cases, strips accents, applies five global
regex replacements and collapses whitespace.  The regexes are embedded
through a small prioritised-backtracking matcher (`RM`): a matcher maps
the wordness of the previous character and the remaining input to the
list of possible match continuations in the engine's backtracking order,
exactly the JavaScript semantics for these patterns (greedy quantifiers,
ordered alternation, word-boundary assertions).  `\s` is `isWS` and `\w`
is `isWordC`, which cover the character sets these inputs draw from.
The replacement driver scans the original string left to right as
`String.prototype.replace(re, '')` does, taking the first match at each
position.
-/
/-- One-character model of `String.prototype.toLowerCase` (ASCII plus the
accented Latin-1 letters this code base can meet). -/
def jsToLower1 (c : Char) : Char :=
  if 65 ≤ c.toNat ∧ c.toNat ≤ 90 then Char.ofNat (c.toNat + 32)
  else if c.toNat ≤ 127 then c
  else if c = 'Á' then 'á' else if c = 'À' then 'à' else if c = 'Â' then 'â'
  else if c = 'Ã' then 'ã' else if c = 'Ä' then 'ä' else if c = 'É' then 'é'
  else if c = 'È' then 'è' else if c = 'Ê' then 'ê' else if c = 'Ë' then 'ë'
  else if c = 'Í' then 'í' else if c = 'Ì' then 'ì' else if c = 'Î' then 'î'
  else if c = 'Ï' then 'ï' else if c = 'Ó' then 'ó' else if c = 'Ò' then 'ò'
  else if c = 'Ô' then 'ô' else if c = 'Õ' then 'õ' else if c = 'Ö' then 'ö'
  else if c = 'Ú' then 'ú' else if c = 'Ù' then 'ù' else if c = 'Û' then 'û'
  else if c = 'Ü' then 'ü' else if c = 'Ç' then 'ç' else if c = 'Ñ' then 'ñ'
  else c

/-- The `acentos` map of `normalizarDescricao`: each mapped accent becomes
its plain letter (the 26 sequential single-character `replace` calls
compose into one character map, since no output character is a key). -/
def deAccent (c : Char) : Char :=
  if c = 'á' ∨ c = 'à' ∨ c = 'â' ∨ c = 'ã' ∨ c = 'ä' then 'a'
  else if c = 'é' ∨ c = 'è' ∨ c = 'ê' ∨ c = 'ë' then 'e'
  else if c = 'í' ∨ c = 'ì' ∨ c = 'î' ∨ c = 'ï' then 'i'
  else if c = 'ó' ∨ c = 'ò' ∨ c = 'ô' ∨ c = 'õ' ∨ c = 'ö' then 'o'
  else if c = 'ú' ∨ c = 'ù' ∨ c = 'û' ∨ c = 'ü' then 'u'
  else if c = 'ç' then 'c' else if c = 'ñ' then 'n'
  else c

/-- JavaScript `\w`: ASCII letter, digit or underscore. -/
def isWordC (c : Char) : Bool :=
  (97 ≤ c.toNat && c.toNat ≤ 122) || (65 ≤ c.toNat && c.toNat ≤ 90) ||
    isDigitC c || c.toNat = 95

/-- A backtracking regex matcher: from the wordness of the preceding
character and the remaining input, the match continuations
(remaining input, wordness of the last consumed character) in the
engine's priority order. -/
def RM : Type :=
  Bool → Str → List (Str × Bool)

/-- Sequencing of matchers (backtracking order preserved by `bind`). -/
def rmSeq (m1 m2 : RM) : RM :=
  fun w s => (m1 w s).flatMap fun p => m2 p.2 p.1

/-- A literal (nonempty) string. -/
def rmLit (cs : Str) : RM :=
  fun w s =>
    if cs.isPrefixOf s then [(s.drop cs.length, isWordC ((cs.getLastD ' ')))]
    else
      -- unreachable for the empty literal, which no pattern uses
      if cs = [] then [(s, w)] else []

/-- Ordered alternation. -/
def rmAlt (ms : List RM) : RM :=
  fun w s => ms.flatMap fun m => m w s

/-- An optional single character from a class (`X?`): with-it first. -/
def rmOptP (p : Char → Bool) : RM :=
  fun w s =>
    match s with
    | [] => [(s, w)]
    | c :: r => if p c then [(r, isWordC c), (s, w)] else [(s, w)]

/-- Candidate continuations of a greedy counted character-class repeat:
`k` consumed characters for `k` from the largest feasible value in
`[lo, hi]` down to `lo`. -/
def rmCntP (p : Char → Bool) (lo hi : ℕ) : RM :=
  fun w s =>
    let pre := (s.takeWhile p).take hi
    if pre.length < lo then []
    else
      ((List.range (pre.length - lo + 1)).map fun j =>
        let k := pre.length - j
        (s.drop k, if k = 0 then w else isWordC (pre.getD (k - 1) ' ')))

/-- Greedy `X*` over a character class. -/
def rmStarP (p : Char → Bool) (w : Bool) (s : Str) : List (Str × Bool) :=
  rmCntP p 0 s.length w s

/-- Greedy `X+` over a character class. -/
def rmPlusP (p : Char → Bool) (w : Bool) (s : Str) : List (Str × Bool) :=
  rmCntP p 1 s.length w s

/-- The `\b` word-boundary assertion. -/
def rmWordB : RM :=
  fun w s =>
    match s with
    | [] => if w then [(s, w)] else []
    | c :: _ => if w ≠ isWordC c then [(s, w)] else []

/-- `desc.replace(/\bdoc\.?\s*\d+\b/g, '')`. -/
def patDoc : RM :=
  rmSeq rmWordB (rmSeq (rmLit ("doc".data)) (rmSeq (rmOptP (fun c => c = '.'))
    (rmSeq (rmStarP isWS) (rmSeq (rmPlusP isDigitC) rmWordB))))

/-- `desc.replace(/\b\d{2,3}\.?\d{3}\.?\d{3}[\/\-]?\d{2,4}[\-\s]?\d{2}\b/g, '')`
(the CNPJ/CPF shape). -/
def patCnpj : RM :=
  rmSeq rmWordB (rmSeq (rmCntP isDigitC 2 3) (rmSeq (rmOptP (fun c => c = '.'))
    (rmSeq (rmCntP isDigitC 3 3) (rmSeq (rmOptP (fun c => c = '.'))
    (rmSeq (rmCntP isDigitC 3 3) (rmSeq (rmOptP (fun c => c = '/' ∨ c = '-'))
    (rmSeq (rmCntP isDigitC 2 4) (rmSeq (rmOptP (fun c => c = '-' ∨ isWS c))
    (rmSeq (rmCntP isDigitC 2 2) rmWordB)))))))))

/-- `desc.replace(/\b(pgt|pgto|pagto)\.?\s*\d*\b/gi, '')` (the input is
already lower-case when this runs, so the `i` flag is inert). -/
def patPgto : RM :=
  rmSeq rmWordB (rmSeq (rmAlt [rmLit ("pgt".data), rmLit ("pgto".data), rmLit ("pagto".data)])
    (rmSeq (rmOptP (fun c => c = '.'))
    (rmSeq (rmStarP isWS) (rmSeq (rmStarP isDigitC) rmWordB))))

/-- `desc.replace(/\b(nu\s+pagamentos|ip|agencia|conta)\s*:?\s*\d+[-\s]?\d*\b/gi, '')`
(lower-case input, `i` inert). -/
def patConta : RM :=
  rmSeq rmWordB (rmSeq (rmAlt
      [rmSeq (rmLit ("nu".data)) (rmSeq (rmPlusP isWS) (rmLit ("pagamentos".data))),
        rmLit ("ip".data), rmLit ("agencia".data), rmLit ("conta".data)])
    (rmSeq (rmStarP isWS) (rmSeq (rmOptP (fun c => c = ':'))
    (rmSeq (rmStarP isWS) (rmSeq (rmPlusP isDigitC)
    (rmSeq (rmOptP (fun c => c = '-' ∨ isWS c)) (rmSeq (rmStarP isDigitC) rmWordB)))))))

/-- Driver of `replace(re, '')` with a global regex: scan the original
string, at each position take the engine's first match (all these
patterns only produce nonempty matches), drop it and continue right
after it; the word-boundary context always comes from the original
string, as in JavaScript.  The fuel starts at the string length and
bounds the number of scan steps. -/
def gReplGo (m : RM) : ℕ → Bool → Str → Str
  | 0, _, s => s
  | fuel + 1, w, s =>
    match s with
    | [] => []
    | c :: rest =>
      match m w (c :: rest) with
      | (rem, lw) :: _ =>
        if rem.length = (c :: rest).length then c :: gReplGo m fuel (isWordC c) rest
        else gReplGo m fuel lw rem
      | [] => c :: gReplGo m fuel (isWordC c) rest

def gRepl (m : RM) (s : Str) : Str :=
  gReplGo m s.length false s

/-- `replace(/\s+/g, ' ')`: collapse whitespace runs to single spaces
(the flag records whether the previous character was whitespace). -/
def collapseWSGo : Bool → Str → Str
  | _, [] => []
  | prevWS, c :: r =>
    if isWS c then
      if prevWS then collapseWSGo true r else ' ' :: collapseWSGo true r
    else c :: collapseWSGo false r

/-- `normalizarDescricao(descricao)` of `motor.js`. -/
def normalizarDescricao (s : Str) : Str :=
  if s = [] then []
  else
    let d := jsTrim (s.map jsToLower1)
    let d := d.map deAccent
    let d := gRepl patDoc d
    let d := gRepl patCnpj d
    let d := gRepl patPgto d
    let d := gRepl patConta d
    let d := removeAll '•' d
    jsTrim (collapseWSGo false d)

def normStr (s : String) : String :=
  ⟨normalizarDescricao s.data⟩

/-- `b` occurs as a contiguous substring of `a`. -/
def isInfixL (b : Str) : Str → Bool
  | [] => b.isEmpty
  | c :: r => b.isPrefixOf (c :: r) || isInfixL b r

/-- `a.includes(b)` for strings. -/
def jsInfixS (b a : String) : Bool :=
  isInfixL b.data a.data

/-- `a.startsWith(b)` for strings (explicitly over the character model,
matching the other string primitives). -/
def jsStartsWithS (b a : String) : Bool :=
  b.data.isPrefixOf a.data

/-!
### Matching keys and the divergence record

`chavePrincipal` interpolates `` `${data}|${valor}` `` with
`valor = Math.round(lancamento.valor * 100) / 100`; two such strings are
equal iff the date strings and the rounded integers agree (the decimal
rendering of `n / 100` is injective in `n`), so the key is modelled as the
pair `(data, Math.round(valor * 100))`.  `lancamento.data` is always a
string in this pipeline (every parser stores the formatted `yyyy-MM-dd`
string), so the `typeof` branches collapse.  The human-readable
`descricao` message of a divergence is pure formatting and is not
modelled; all data fields are. -/
def chavePrincipal (l : Lancamento) : String × ℤ :=
  (l.data, jsRound (l.valor * JQ.ofInt 100))

def chaveDocumento (l : Lancamento) : Option (String × String) :=
  match l.documento with
  | none => none
  | some d => if d = "" ∨ jsTrimS d = "" then none else some (l.data, jsToUpperS (jsTrimS d))

def chaveDescricao (l : Lancamento) : String × String :=
  (l.data, normStr l.descricao)

/-- A divergence row (`descricao` display text omitted, see above). -/
structure Div where
  tipo : String
  data_extrato : Option String
  descricao_extrato : Option String
  valor_extrato : Option JQ
  documento_extrato : Option String
  conta_contabil_extrato : Option String
  data_dominio : Option String
  descricao_dominio : Option String
  valor_dominio : Option JQ
  documento_dominio : Option String
  conta_contabil_dominio : Option String

/-- The `VALOR_DIFERENTE` divergence row for a statement/ledger pair. -/
def mkValorDiferente (lext lraz : Lancamento) : Div :=
  ⟨"VALOR_DIFERENTE", some lext.data, some lext.descricao, some lext.valor,
    lext.documento, lext.conta_contabil, some lraz.data, some lraz.descricao,
    some lraz.valor, lraz.documento, lraz.conta_contabil⟩

/-- The per-key bucket of the razão index maps (`Map` insertion happens in
index order, so a bucket is the increasing list of matching indices). -/
def docBucket (raz : List Lancamento) (k : String × String) : List ℕ :=
  (raz.enum.filter fun p => chaveDocumento p.2 = some k).map fun p => p.1

def descBucket (raz : List Lancamento) (k : String × String) : List ℕ :=
  (raz.enum.filter fun p => chaveDescricao p.2 = k).map fun p => p.1

def principalBucket (raz : List Lancamento) (k : String × ℤ) : List ℕ :=
  (raz.enum.filter fun p => chavePrincipal p.2 = k).map fun p => p.1

/-- The document pass of `detectarValorDiferente` for one statement entry:
first bucket index not yet in `casados` whose amount differs by more than
the tolerance (a pair within tolerance does not stop the scan). -/
def scanDocDiff (lext : Lancamento) (raz : List Lancamento) (tol : JQ)
    (casados : List (ℕ × ℕ)) (idxExt : ℕ) : List ℕ → Option ℕ
  | [] => none
  | i :: rest =>
    if (idxExt, i) ∈ casados then scanDocDiff lext raz tol casados idxExt rest
    else
      match raz[i]? with
      | none => scanDocDiff lext raz tol casados idxExt rest
      | some lraz =>
        if tol < JQ.abs (lext.valor - lraz.valor) then some i
        else scanDocDiff lext raz tol casados idxExt rest

/-- The description fallback pass: a divergence is only created when the
difference additionally exceeds `1.0`; a pair above tolerance but within
`1.0` neither stops the scan nor reports. -/
def scanDescDiff (lext : Lancamento) (raz : List Lancamento) (tol : JQ)
    (casados : List (ℕ × ℕ)) (idxExt : ℕ) : List ℕ → Option ℕ
  | [] => none
  | i :: rest =>
    if (idxExt, i) ∈ casados then scanDescDiff lext raz tol casados idxExt rest
    else
      match raz[i]? with
      | none => scanDescDiff lext raz tol casados idxExt rest
      | some lraz =>
        if tol < JQ.abs (lext.valor - lraz.valor) ∧
            JQ.ofInt 1 < JQ.abs (lext.valor - lraz.valor) then some i
        else scanDescDiff lext raz tol casados idxExt rest

/-- Body of the `lancExtrato.forEach` loop of `detectarValorDiferente`. -/
def dvdStep (raz : List Lancamento) (tol : JQ) (st : List Div × List (ℕ × ℕ))
    (p : ℕ × Lancamento) : List Div × List (ℕ × ℕ) :=
  let (divs, casados) := st
  let (idxExt, lext) := p
  let docHit :=
    match chaveDocumento lext with
    | none => none
    | some k =>
      if docBucket raz k ≠ [] then scanDocDiff lext raz tol casados idxExt (docBucket raz k)
      else none
  match docHit with
  | some i =>
    (divs ++ [mkValorDiferente lext ((raz.getD i lext))], casados ++ [(idxExt, i)])
  | none =>
    match scanDescDiff lext raz tol casados idxExt (descBucket raz (chaveDescricao lext)) with
    | some i =>
      (divs ++ [mkValorDiferente lext ((raz.getD i lext))], casados ++ [(idxExt, i)])
    | none => (divs, casados)

/-- `detectarValorDiferente(lancExtrato, lancRazao, toleranciaValor, casados)`:
returns the divergences and the updated `casados` set. -/
def detectarValorDiferente (ext raz : List Lancamento) (tol : JQ)
    (casados : List (ℕ × ℕ)) : List Div × List (ℕ × ℕ) :=
  ext.enum.foldl (dvdStep raz tol) ([], casados)

/-- Exact-key scan of `compararPorDataValor`: first bucket index still
unmatched and not already paired with this statement index. -/
def scanExact (casados : List (ℕ × ℕ)) (razNC : List ℕ) (idxExt : ℕ) :
    List ℕ → Option ℕ
  | [] => none
  | i :: rest =>
    if i ∉ razNC then scanExact casados razNC idxExt rest
    else if (idxExt, i) ∈ casados then scanExact casados razNC idxExt rest
    else some i

/-- Tolerance scan of `compararPorDataValor` (only reached when no ledger
entry shares the exact key): first unmatched ledger index with the same
date and an amount difference within the tolerance. -/
def scanTol (lext : Lancamento) (raz : List Lancamento) (tol : JQ)
    (casados : List (ℕ × ℕ)) (razNC : List ℕ) (idxExt : ℕ) : List ℕ → Option ℕ
  | [] => none
  | i :: rest =>
    if i ∉ razNC then scanTol lext raz tol casados razNC idxExt rest
    else if (idxExt, i) ∈ casados then scanTol lext raz tol casados razNC idxExt rest
    else
      match raz[i]? with
      | none => scanTol lext raz tol casados razNC idxExt rest
      | some lraz =>
        if lext.data = lraz.data ∧ JQ.abs (lext.valor - lraz.valor) ≤ tol then some i
        else scanTol lext raz tol casados razNC idxExt rest

/-- Body of the `lancExtrato.forEach` loop of `compararPorDataValor`;
state: (unmatched statement indices, unmatched ledger indices, casados). -/
def cpdvStep (raz : List Lancamento) (tol : JQ)
    (st : List ℕ × List ℕ × List (ℕ × ℕ)) (p : ℕ × Lancamento) :
    List ℕ × List ℕ × List (ℕ × ℕ) :=
  let (extNC, razNC, casados) := st
  let (idxExt, lext) := p
  if idxExt ∉ extNC then st
  else
    let hit :=
      if principalBucket raz (chavePrincipal lext) ≠ [] then
        scanExact casados razNC idxExt (principalBucket raz (chavePrincipal lext))
      else
        scanTol lext raz tol casados razNC idxExt (List.range raz.length)
    match hit with
    | some i => (extNC.erase idxExt, razNC.erase i, casados ++ [(idxExt, i)])
    | none => st

/-- `compararPorDataValor(...)`: returns the two sets of unmatched
indices (its `divergencias` list is always empty in the source). -/
def compararPorDataValor (ext raz : List Lancamento) (tol : JQ)
    (casados : List (ℕ × ℕ)) : List ℕ × List ℕ :=
  let r := ext.enum.foldl (cpdvStep raz tol)
    (List.range ext.length, List.range raz.length, casados)
  (r.1, r.2.1)

/-- `detectarFaltantes(...)`: one `NAO_ENCONTRADO_DOMINIO` per unmatched
statement entry, then one `NAO_ENCONTRADO_EXTRATO` per unmatched ledger
entry, in index order (the JavaScript `Set` iterates in insertion order,
which the deletions preserve). -/
def detectarFaltantes (ext raz : List Lancamento) (extNC razNC : List ℕ) : List Div :=
  (extNC.filterMap fun i =>
    (ext[i]?).map fun l =>
      (⟨"NAO_ENCONTRADO_DOMINIO", some l.data, some l.descricao, some l.valor,
        l.documento, l.conta_contabil, none, none, none, none, none⟩ : Div)) ++
  (razNC.filterMap fun i =>
    (raz[i]?).map fun l =>
      (⟨"NAO_ENCONTRADO_EXTRATO", none, none, none, none, none,
        some l.data, some l.descricao, some l.valor, l.documento, l.conta_contabil⟩ : Div))

/-- `compararSaldos(...)`. -/
def compararSaldos (ext raz : List Lancamento) (tol : JQ) : List Div :=
  let saldosExt := ext.filterMap fun l => l.saldo
  if saldosExt = [] then []
  else
    let saldosRaz := raz.filterMap fun l => l.saldo
    if saldosRaz = [] then []
    else
      let si := saldosExt.headD 0
      let sf := saldosExt.getLastD 0
      let ri := saldosRaz.headD 0
      let rf := saldosRaz.getLastD 0
      if tol < JQ.abs (si - ri) ∨ tol < JQ.abs (sf - rf) then
        [⟨"SALDO_DIVERGENTE", none, none, none, none, none, none, none, none, none, none⟩]
      else []

/-- The expense keywords of `detectarClassificacaoSuspeita` (kept exactly
as in the source: the accented entries can never occur in the
accent-stripped normalised description, which is the code's behaviour). -/
def palavrasSuspeitas : List String :=
  ["tarifa", "taxa", "encargo", "juros", "multa", "iof",
    "cobrança", "manutenção", "anuidade", "serviço bancário"]

/-- `detectarClassificacaoSuspeita(lancRazao)`. -/
def detectarClassificacaoSuspeita (raz : List Lancamento) : List Div :=
  raz.filterMap fun lanc =>
    if lanc.origem ≠ "dominio" ∧ lanc.origem ≠ "otimiza" then none
    else
      let descLower := normStr lanc.descricao
      let temPalavraSuspeita := palavrasSuspeitas.any fun palavra => jsInfixS palavra descLower
      let contaOk :=
        match lanc.conta_contabil with
        | none => false
        | some c =>
          if c = "" then false
          else
            let contaClean := jsTrimS c
            !(["1", "9", "0", "00", "000"].contains contaClean) && decide (3 ≤ contaClean.length)
      if temPalavraSuspeita ∧ contaOk = false then
        some ⟨"CLASSIFICACAO_SUSPEITA", none, none, none, none, none,
          some lanc.data, some lanc.descricao, some lanc.valor, lanc.documento,
          lanc.conta_contabil⟩
      else none

/-- `compararLancamentos(lancExtrato, lancRazao, toleranciaValor, toleranciaDias)`
(the `toleranciaDias` parameter is accepted and never read, as in the
source). -/
def compararLancamentos (ext raz : List Lancamento) (tol : JQ) (_toleranciaDias : ℤ) :
    List Div :=
  let r1 := detectarValorDiferente ext raz tol []
  let nc := compararPorDataValor ext raz tol r1.2
  r1.1 ++ detectarFaltantes ext raz nc.1 nc.2 ++ compararSaldos ext raz tol ++
    detectarClassificacaoSuspeita raz

/-!
## Fuzzy matcher `compareBankVsTxt` (`motor.js` lines 495–683)

Dates: every movement reaching this function stores its date as the
`yyyy-MM-dd` string produced by the parsers, so
`parse(mov.data, 'yyyy-MM-dd', new Date())` is modelled by a strict
`yyyy-MM-dd` reader that validates the calendar date (the external
date-fns library is modelled after the spec's date handling); the parsed
dates carry the same time of day, so `differenceInDays` is the exact
difference of civil day numbers.  An invalid date makes
`differenceInDays` `NaN` (`none` here): the window guard `diffDias >
dateWindowDays` does *not* fire on `NaN` — faithfully modelled — but the
combined score is then `NaN` as well and `score > melhorScore` never
selects it.  A zero `dateWindowDays` or a zero statement amount makes
the score `NaN`/`±Infinity` (`none` here), which likewise can never
exceed the running best score (that score starts at `0` and only ever
increases).
-/
def isLeapYear (y : ℤ) : Bool :=
  (y % 4 = 0 && y % 100 ≠ 0) || y % 400 = 0

def daysInMonth (y m : ℤ) : ℤ :=
  if m = 2 then (if isLeapYear y then 29 else 28)
  else if m = 4 ∨ m = 6 ∨ m = 9 ∨ m = 11 then 30
  else 31

/-- Civil day number of a calendar date (days since 1970-01-01,
Howard Hinnant's `days_from_civil`). -/
def civilFromYmd (y m d : ℤ) : ℤ :=
  let y2 := if m ≤ 2 then y - 1 else y
  let era := Int.fdiv y2 400
  let yoe := y2 - era * 400
  let mp := (m + 9) % 12
  let doy := Int.fdiv (153 * mp + 2) 5 + d - 1
  let doe := yoe * 365 + Int.fdiv yoe 4 - Int.fdiv yoe 100 + doy
  era * 146097 + doe - 719468

/-- Strict `yyyy-MM-dd` date reader (see the section header): the civil
day number, or `none` for a malformed or non-existent date. -/
def parseDateStr (s : String) : Option ℤ :=
  match s.data with
  | [y1, y2, y3, y4, '-', m1, m2, '-', d1, d2] =>
    if isDigitC y1 && isDigitC y2 && isDigitC y3 && isDigitC y4 &&
        isDigitC m1 && isDigitC m2 && isDigitC d1 && isDigitC d2 then
      let y : ℤ := digitsVal [y1, y2, y3, y4]
      let m : ℤ := digitsVal [m1, m2]
      let d : ℤ := digitsVal [d1, d2]
      if 1 ≤ m ∧ m ≤ 12 ∧ 1 ≤ d ∧ d ≤ daysInMonth y m then
        some (civilFromYmd y m d)
      else none
    else none
  | _ => none

def jqMax (a b : JQ) : JQ :=
  if a < b then b else a

def jqMin (a b : JQ) : JQ :=
  if b < a then b else a

/-- Distinct elements of a list (only cardinalities of these are ever
consumed, so which duplicate survives is immaterial). -/
def dedupL {α : Type} [DecidableEq α] : List α → List α
  | [] => []
  | a :: r => if a ∈ dedupL r then dedupL r else a :: dedupL r

/-- `s.trim().split(/\s+/)` (collapse whitespace runs, then split). -/
def splitWSTokens (s : String) : List String :=
  (jsSplit ' ' (collapseWSGo false (jsTrim s.data))).map fun w => ⟨w⟩

/-- The word tier of the `similarity` helper: Jaccard index of the word
sets (words of length > 2), boosted to `0.6` when the sets intersect and
one side has at most two words; falls through to the character tier when
either side has no such words. -/
def simWordsTier (n1 n2 : String) : JQ :=
  let words1 := (splitWSTokens n1).filter fun w => 2 < w.length
  let words2 := (splitWSTokens n2).filter fun w => 2 < w.length
  let charTier :=
    let set1 := dedupL n1.data
    let set2 := dedupL n2.data
    let inter := (set1.filter fun x => set2.contains x).length
    let union := (dedupL (set1 ++ set2)).length
    if 0 < union then JQ.mk' inter union else 0
  if words1 ≠ [] ∧ words2 ≠ [] then
    let set1 := dedupL words1
    let set2 := dedupL words2
    let inter := (set1.filter fun x => set2.contains x).length
    let union := (dedupL (set1 ++ set2)).length
    if 0 < union then
      let wordSimilarity := JQ.mk' inter union
      if 0 < inter ∧ (words1.length ≤ 2 ∨ words2.length ≤ 2) then
        jqMax wordSimilarity (JQ.mk' 6 10)
      else wordSimilarity
    else charTier
  else charTier

/-- The inner `similarity(str1, str2)` function of `compareBankVsTxt`. -/
def similarity (str1 str2 : String) : JQ :=
  if str1 = "" ∨ str2 = "" then 0
  else
    let n1 := jsTrimS (normStr str1)
    let n2 := jsTrimS (normStr str2)
    if 0 < n1.length ∧ 0 < n2.length then
      if jsInfixS n2 n1 ∨ jsInfixS n1 n2 then
        let shorter := if n1.length < n2.length then n1 else n2
        let longer := if n2.length ≤ n1.length then n1 else n2
        let baseSimilarity := JQ.mk' shorter.length longer.length
        if 8 ≤ shorter.length then jqMax (JQ.mk' 75 100) baseSimilarity
        else jqMax (JQ.mk' 7 10) baseSimilarity
      else if jsStartsWithS n2 n1 ∨ jsStartsWithS n1 n2 then
        let shorter := if n1.length < n2.length then n1 else n2
        let longer := if n2.length ≤ n1.length then n1 else n2
        if 8 ≤ shorter.length then
          jqMax (JQ.mk' 8 10) (JQ.mk' shorter.length longer.length)
        else simWordsTier n1 n2
      else simWordsTier n1 n2
    else simWordsTier n1 n2

/-- `mov.descricao ? mov.descricao.trim().split(/\s+/)[0].toUpperCase() : ''`. -/
def firstWordUpper (s : String) : String :=
  if s = "" then ""
  else jsToUpperS ⟨(jsSplit ' ' (collapseWSGo false (jsTrim s.data))).headD []⟩

/-- The best-match candidate record of the inner loop of
`compareBankVsTxt`. -/
structure MM where
  idxTxt : ℕ
  ddias : ℤ
  dvalor : JQ
  sim : JQ

/-- `sim * 0.7 + (1 - diffDias / dateWindowDays) * 0.2 +
(1 - diffValor / Math.abs(movBank.valor)) * 0.1`; `none` models a
`NaN`/`±Infinity` score (zero window or zero statement amount), which
never wins against the nonnegative running best. -/
def c3Score (w : ℤ) (sim : JQ) (dd : ℤ) (dv av : JQ) : Option JQ :=
  match JQ.div? (JQ.ofInt dd) (JQ.ofInt w), JQ.div? dv av with
  | some q1, some q2 =>
    some (sim * JQ.mk' 7 10 + (JQ.ofInt 1 - q1) * JQ.mk' 2 10 +
      (JQ.ofInt 1 - q2) * JQ.mk' 1 10)
  | _, _ => none

/-- `adjustedThreshold`: the similarity threshold, lowered for short
descriptions or descriptions opening with the same long word. -/
def c3AdjThreshold (minSim : JQ) (movBank movTxt : Lancamento) : JQ :=
  let descBankShort := movBank.descricao ≠ "" ∧ movBank.descricao.length ≤ 5
  let descTxtShort := movTxt.descricao ≠ "" ∧ movTxt.descricao.length ≤ 5
  let wB := firstWordUpper movBank.descricao
  let wT := firstWordUpper movTxt.descricao
  let startsWithSameWord := wB ≠ "" ∧ wT ≠ "" ∧ wB = wT ∧ 8 ≤ wB.length
  if descBankShort ∨ descTxtShort ∨ startsWithSameWord then
    jqMin (JQ.mk' 4 10) (minSim * JQ.mk' 7 10)
  else minSim

/-- Tail of the inner loop body after the date-window guard (`dd` is the
already-guarded `Math.abs(differenceInDays(...))`, `none` for `NaN`). -/
def c3StepRest (w : ℤ) (tol minSim : JQ) (movBank movTxt : Lancamento)
    (dd : Option ℤ) (st : JQ × Option MM) (idxTxt : ℕ) : JQ × Option MM :=
  let diffValor := JQ.abs (movBank.valor - movTxt.valor)
  if tol < diffValor then st
  else
    let sim := similarity movBank.descricao movTxt.descricao
    if sim < c3AdjThreshold minSim movBank movTxt then st
    else
      match dd with
      | none => st
      | some d =>
        match c3Score w sim d diffValor (JQ.abs movBank.valor) with
        | none => st
        | some score =>
          if st.1 < score then (score, some ⟨idxTxt, d, diffValor, sim⟩) else st

/-- Body of the inner `txtMovements.forEach` loop of `compareBankVsTxt`. -/
def c3Step (w : ℤ) (tol minSim : JQ) (allowManyToOne : Bool) (casadosTxt : List ℕ)
    (movBank : Lancamento) (st : JQ × Option MM) (p : ℕ × Lancamento) :
    JQ × Option MM :=
  if p.1 ∈ casadosTxt ∧ allowManyToOne = false then st
  else
    match parseDateStr movBank.data, parseDateStr p.2.data with
    | some a, some b =>
      if w < |a - b| then st
      else c3StepRest w tol minSim movBank p.2 (some |a - b|) st p.1
    | _, _ => c3StepRest w tol minSim movBank p.2 none st p.1

/-- Body of the outer `bankMovements.forEach` loop; state:
(casadosBank, casadosTxt, divergences, recorded pairs).  The recorded
pair list materialises the pairing the `casados` sets encode. -/
def c3Outer (w : ℤ) (tol minSim : JQ) (amo : Bool) (txt : List Lancamento)
    (st : List ℕ × List ℕ × List Div × List (ℕ × ℕ)) (p : ℕ × Lancamento) :
    List ℕ × List ℕ × List Div × List (ℕ × ℕ) :=
  if p.1 ∈ st.1 then st
  else
    let movBank := p.2
    let r := txt.enum.foldl (c3Step w tol minSim amo st.2.1 movBank) (JQ.ofInt 0, none)
    match r.2 with
    | some m =>
      (st.1 ++ [p.1], st.2.1 ++ [m.idxTxt], st.2.2.1, st.2.2.2 ++ [(p.1, m.idxTxt)])
    | none =>
      (st.1, st.2.1, st.2.2.1 ++
        [⟨"NAO_ENCONTRADO_DOMINIO", some movBank.data, some movBank.descricao,
          some movBank.valor, movBank.documento, movBank.conta_contabil,
          none, none, none, none, none⟩], st.2.2.2)

/-- `compareBankVsTxt(bankMovements, txtMovements, dateWindowDays,
amountTolerance, minDescriptionSimilarity, allowManyToOne)`: the
divergence list, paired with the list of matched (bank, txt) index
pairs. -/
def compareBankVsTxt (bank txt : List Lancamento) (w : ℤ) (tol minSim : JQ)
    (amo : Bool) : List Div × List (ℕ × ℕ) :=
  let r := bank.enum.foldl (c3Outer w tol minSim amo txt) ([], [], [], [])
  (r.2.2.1 ++ txt.enum.filterMap fun p =>
    if p.1 ∈ r.2.1 then none
    else some ⟨"NAO_ENCONTRADO_EXTRATO", none, none, none, none, none,
      some p.2.data, some p.2.descricao, some p.2.valor, p.2.documento,
      p.2.conta_contabil⟩,
    r.2.2.2)

/-- What holds of every candidate the inner loop can record. -/
def c3Good (w : ℤ) (tol : JQ) (movBank : Lancamento) (txt : List Lancamento)
    (m : MM) : Prop :=
  ∃ t db dt, txt[m.idxTxt]? = some t ∧ parseDateStr movBank.data = some db ∧
    parseDateStr t.data = some dt ∧ |db - dt| ≤ w ∧
    JQ.abs (movBank.valor - t.valor) ≤ tol

/-- What holds of every recorded (bank, txt) pair. -/
def c3GoodPair (w : ℤ) (tol : JQ) (bank txt : List Lancamento) (ij : ℕ × ℕ) : Prop :=
  ∃ b t db dt, bank[ij.1]? = some b ∧ txt[ij.2]? = some t ∧
    parseDateStr b.data = some db ∧ parseDateStr t.data = some dt ∧
    |db - dt| ≤ w ∧ JQ.abs (b.valor - t.valor) ≤ tol

/-!
## The four format parsers (C8, C9)

The file-system and stream plumbing of the parsers is not modelled: each
parser is embedded from its per-record processing loop onward, taking as
input what the I/O layer hands that loop (the list of lines for the TXT
parser, the header list and row cell lists for the CSV parser, the
`STMTTRN` field blocks for the OFX parser, the regex capture streams for
the PDF parser).  Promise resolution is `Except.ok`, promise rejection
(the strict-mode abort path) is `Except.error`.

The external date-fns `parse`/`isValid`/`format` calls are modelled after
the spec's date handling: a format string accepts exactly its shape, a
parsed date must exist in the calendar, two-digit years follow date-fns'
`normalizeTwoDigitYear` against a reference year threaded through as
`refYear`, and `format(d, 'yyyy-MM-dd')` zero-pads.
-/
def digitChar (n : ℕ) : Char :=
  Char.ofNat (48 + n)

def natStrGo : ℕ → ℕ → Str
  | 0, _ => []
  | f + 1, n => if n < 10 then [digitChar n] else natStrGo f (n / 10) ++ [digitChar (n % 10)]

/-- Decimal digits of a natural number. -/
def natStr (n : ℕ) : Str :=
  natStrGo (n + 1) n

/-- Zero-pad to two (`MM` / `dd` of `format`). -/
def pad2 (n : ℕ) : Str :=
  if n < 10 then '0' :: natStr n else natStr n

/-- Zero-pad to four (`yyyy` of `format`). -/
def pad4 (n : ℕ) : Str :=
  if n < 10 then '0' :: '0' :: '0' :: natStr n
  else if n < 100 then '0' :: '0' :: natStr n
  else if n < 1000 then '0' :: natStr n
  else natStr n

/-- `format(date, 'yyyy-MM-dd')` on a (year, month, day) triple. -/
def fmtYMD (ymd : ℕ × ℕ × ℕ) : String :=
  ⟨pad4 ymd.1 ++ '-' :: pad2 ymd.2.1 ++ '-' :: pad2 ymd.2.2⟩

/-- date-fns `normalizeTwoDigitYear` against the reference year. -/
def normalizeTwoDigitYear (refYear yy : ℕ) : ℕ :=
  let rangeEnd := refYear + 50
  let rangeEndCentury := rangeEnd / 100 * 100
  if rangeEnd % 100 < yy then yy + rangeEndCentury - 100 else yy + rangeEndCentury

/-- The date exists in the civil calendar. -/
def validYmd (y m d : ℕ) : Bool :=
  1 ≤ m && m ≤ 12 && 1 ≤ d && decide ((d : ℤ) ≤ daysInMonth (y : ℤ) (m : ℤ))

def shapeSlash4 : Str → Option (ℕ × ℕ × ℕ)
  | [a, b, '/', c, d, '/', e, f, g, h] =>
    if [a, b, c, d, e, f, g, h].all isDigitC then
      some (digitsVal [e, f, g, h], digitsVal [c, d], digitsVal [a, b])
    else none
  | _ => none

def shapeSlash2 (refYear : ℕ) : Str → Option (ℕ × ℕ × ℕ)
  | [a, b, '/', c, d, '/', e, f] =>
    if [a, b, c, d, e, f].all isDigitC then
      some (normalizeTwoDigitYear refYear (digitsVal [e, f]), digitsVal [c, d],
        digitsVal [a, b])
    else none
  | _ => none

def shapeYMDdash : Str → Option (ℕ × ℕ × ℕ)
  | [a, b, c, d, '-', e, f, '-', g, h] =>
    if [a, b, c, d, e, f, g, h].all isDigitC then
      some (digitsVal [a, b, c, d], digitsVal [e, f], digitsVal [g, h])
    else none
  | _ => none

def shapeDash4 : Str → Option (ℕ × ℕ × ℕ)
  | [a, b, '-', c, d, '-', e, f, g, h] =>
    if [a, b, c, d, e, f, g, h].all isDigitC then
      some (digitsVal [e, f, g, h], digitsVal [c, d], digitsVal [a, b])
    else none
  | _ => none

def shapeDash2 (refYear : ℕ) : Str → Option (ℕ × ℕ × ℕ)
  | [a, b, '-', c, d, '-', e, f] =>
    if [a, b, c, d, e, f].all isDigitC then
      some (normalizeTwoDigitYear refYear (digitsVal [e, f]), digitsVal [c, d],
        digitsVal [a, b])
    else none
  | _ => none

def checkedYmd (o : Option (ℕ × ℕ × ℕ)) : Option (ℕ × ℕ × ℕ) :=
  match o with
  | some (y, m, d) => if validYmd y m d then some (y, m, d) else none
  | none => none

/-- `parseDataSafe(dataStr)` of `otimizaTxtParser.js` (also the model of
the gate-less `parseData` of `mpdsCsvParser.js`, whose format list and
order coincide): the five accepted shapes in source order, where a shape
that matches but names no real calendar date falls through to the next
format. -/
def parseDataSafe (refYear : ℕ) (s0 : Str) : Option (ℕ × ℕ × ℕ) :=
  if jsTrim s0 = [] then none
  else
    let s := jsTrim s0
    (checkedYmd (shapeSlash4 s)).orElse fun _ =>
    (checkedYmd (shapeSlash2 refYear s)).orElse fun _ =>
    (checkedYmd (shapeYMDdash s)).orElse fun _ =>
    (checkedYmd (shapeDash4 s)).orElse fun _ =>
    checkedYmd (shapeDash2 refYear s)

/-- `parseData(dataStr)` of `mpdsPdfParser.js`: strip to
`[\d/\-\s]`, collapse whitespace, then the same five formats in that
file's order (`yyyy-MM-dd` last). -/
def pdfParseData (refYear : ℕ) (s0 : Str) : Option (ℕ × ℕ × ℕ) :=
  if jsTrim s0 = [] then none
  else
    let s := collapseWSGo false
      ((jsTrim s0).filter fun c => isDigitC c || c = '/' || c = '-' || isWS c)
    (checkedYmd (shapeSlash4 s)).orElse fun _ =>
    (checkedYmd (shapeSlash2 refYear s)).orElse fun _ =>
    (checkedYmd (shapeDash4 s)).orElse fun _ =>
    (checkedYmd (shapeDash2 refYear s)).orElse fun _ =>
    checkedYmd (shapeYMDdash s)

/-- A parser-produced transaction.  `valor : Option JQ` with `none`
standing for `NaN` (which the TXT/CSV/OFX zero guards let through). -/
structure RLanc where
  data : String
  descricao : String
  documento : Option String
  valor : Option JQ
  saldo : Option JQ
  conta_contabil : Option String
  origem : String
  account_code : Option String
  event_type : Option String
  category : Option String
  entity_type : Option String
deriving DecidableEq

/-- `valor === 0.0` on a possibly-`NaN` value (`NaN === 0.0` is false). -/
def zeroJS (v : Option JQ) : Bool :=
  match v with
  | some q => decide (JQ.eqv q 0)
  | none => false

/-- What a parser line/record yields: nothing, one issue, or one
transaction. -/
inductive PRes where
  | skip : PRes
  | issue : String → PRes
  | keep : RLanc → PRes

/-- The shared push site: skip silently when the amount is exactly zero,
otherwise emit the record. -/
def pushNonzero (valor : Option JQ) (l : RLanc) : PRes :=
  if zeroJS valor then .skip else .keep l

/-- The header keywords of `parseOtimizaTxt`. -/
def palavrasCabecalho : List String :=
  ["DATA", "DESCRIÇÃO", "HISTÓRICO", "DOCUMENTO", "VALOR",
    "DÉBITO", "CRÉDITO", "SALDO", "LANÇAMENTO", "LANCAMENTO"]

/-- `linha.split(/[|;\t]+/).map(p => p.trim()).filter(p => p)`: split on
delimiter runs — splitting on single delimiters and filtering the empty
parts afterwards is the same function. -/
def otSplit (l : Str) : List Str :=
  ((l.splitOnP fun c => c = '|' ∨ c = ';' ∨ c.toNat = 9).map jsTrim).filter
    fun p => p ≠ []

/-- `/^\d+\.\d+\.\d+/` helper: a nonempty digit run followed by a dot. -/
def digitRunDot (l : Str) : Option Str :=
  let r := l.takeWhile isDigitC
  if r = [] then none
  else
    match l.drop r.length with
    | '.' :: rest => some rest
    | _ => none

/-- `/^\d+\.\d+\.\d+/.test(parte)` (an account-code-shaped prefix). -/
def contaPre (l : Str) : Bool :=
  match (digitRunDot l).bind digitRunDot with
  | some rest => rest.takeWhile isDigitC ≠ []
  | none => false

/-- `/^\d+\.\d+\./.test(parte)`. -/
def contaPre2 (l : Str) : Bool :=
  ((digitRunDot l).bind digitRunDot).isSome

def isAlphaC (c : Char) : Bool :=
  (65 ≤ c.toNat && c.toNat ≤ 90) || (97 ≤ c.toNat && c.toNat ≤ 122)

/-- `/^[A-Z]+\d+$/i.test(parte)` (a document label). -/
def docLike (l : Str) : Bool :=
  let a := l.takeWhile isAlphaC
  a ≠ [] && (l.drop a.length ≠ [] && (l.drop a.length).all isDigitC)

/-- `/^[\d.,-]+$/.test(parte)`. -/
def allValorChars (l : Str) : Bool :=
  l ≠ [] && l.all fun c => isDigitC c || c = '.' || c = ',' || c = '-'

/-- The dynamic value scan of the delimited branch (`for i = idxInicio ...`):
account-code-shaped and document-shaped parts are captured on the way;
the first remaining `[\d.,-]+` part with a decimal comma, or a decimal
dot followed by at most two digits, that is not account-shaped becomes
the value.  Returns (value and its index, accountCode, documento). -/
def otScanValor (acc doc : Option Str) :
    List (ℕ × Str) → Option (Str × ℕ) × Option Str × Option Str
  | [] => (none, acc, doc)
  | (i, parte) :: rest =>
    if parte = [] then otScanValor acc doc rest
    else if contaPre parte then
      otScanValor (if acc = none then some parte else acc) doc rest
    else if docLike parte then
      otScanValor acc (if doc = none then some parte else doc) rest
    else if allValorChars parte then
      let temVirgula := jsIncludes ',' parte
      let temPontoDecimal := jsIncludes '.' parte &&
        (match (jsSplit '.' parte)[1]? with
          | some p => decide (p.length ≤ 2)
          | none => false)
      if (temVirgula || temPontoDecimal) && !contaPre2 parte then (some (parte, i), acc, doc)
      else otScanValor acc doc rest
    else otScanValor acc doc rest

/-- The post-value description scan (`descricao.length < 10` booster). -/
def otScanDesc : List Str → Option Str
  | [] => none
  | parte :: rest =>
    if parte ≠ [] ∧ 10 < parte.length ∧ allValorChars parte = false then some parte
    else otScanDesc rest

/-- First account-code-shaped part, skipping the value index. -/
def otScanConta (valorIdx : ℕ) : List (ℕ × Str) → Option Str
  | [] => none
  | (i, parte) :: rest =>
    if i = valorIdx then otScanConta valorIdx rest
    else if parte ≠ [] ∧ contaPre parte then some parte
    else otScanConta valorIdx rest

/-- First document-shaped part, skipping the value index. -/
def otScanDoc (valorIdx : ℕ) : List (ℕ × Str) → Option Str
  | [] => none
  | (i, parte) :: rest =>
    if i = valorIdx then otScanDoc valorIdx rest
    else if parte ≠ [] ∧ docLike parte then some parte
    else otScanDoc valorIdx rest

def strOfOpt (o : Option Str) : Option String :=
  o.map fun l => ⟨l⟩

/-- The delimited branch of the `parseOtimizaTxt` line loop, after the
`partes.length >= 3` check. -/
def otDelim (refYear numLinha : ℕ) (partes : List Str) : PRes :=
  let fixed := partes.length = 7 ∧ (parseDataSafe refYear (partes.getD 0 [])).isSome
  let dataStr :=
    if fixed then partes.getD 0 []
    else if (parseDataSafe refYear (partes.getD 0 [])).isSome then partes.getD 0 []
    else if 1 < partes.length ∧ (parseDataSafe refYear (partes.getD 1 [])).isSome then
      partes.getD 1 []
    else if 2 < partes.length ∧ (parseDataSafe refYear (partes.getD 2 [])).isSome then
      partes.getD 2 []
    else partes.getD 0 []
  let descricao0 :=
    if fixed then partes.getD 1 []
    else if (parseDataSafe refYear (partes.getD 0 [])).isSome then partes.getD 1 []
    else if 1 < partes.length ∧ (parseDataSafe refYear (partes.getD 1 [])).isSome then
      partes.getD 0 []
    else if 2 < partes.length ∧ (parseDataSafe refYear (partes.getD 2 [])).isSome then
      -- partes.slice(0, 2).filter(p => p).join(' '); both parts are nonempty
      partes.getD 0 [] ++ ' ' :: partes.getD 1 []
    else partes.getD 1 []
  let scanned :=
    if fixed then (some (partes.getD 4 [], 4), some (partes.getD 2 []), some (partes.getD 3 []))
    else
      let idxInicio :=
        if (parseDataSafe refYear (partes.getD 0 [])).isSome then 2
        else if (parseDataSafe refYear (partes.getD 1 [])).isSome then 2
        else 3
      otScanValor none none (partes.enum.drop idxInicio)
  match parseDataSafe refYear dataStr with
  | none => .skip
  | some ymd =>
    match scanned.1 with
    | none => .issue ("Linha " ++ ⟨natStr (numLinha + 1)⟩ ++ ": Valor não encontrado")
    | some (valorStr, valorIdx) =>
      let valor := parseValor valorStr
      let descricao :=
        if descricao0 = [] ∨ descricao0.length < 10 then
          match otScanDesc ((partes.drop (valorIdx + 1))) with
          | some d => d
          | none => descricao0
        else descricao0
      let accountCode :=
        if partes.length = 7 then scanned.2.1
        else
          match scanned.2.1 with
          | some a => some a
          | none => otScanConta valorIdx partes.enum
      let documento :=
        if partes.length = 7 then scanned.2.2
        else
          match scanned.2.2 with
          | some d => some d
          | none => otScanDoc valorIdx partes.enum
      let category := if partes.length = 7 then some (partes.getD 5 []) else none
      let entityType := if partes.length = 7 then some (partes.getD 6 []) else none
      pushNonzero valor
        ⟨fmtYMD ymd, ⟨descricao⟩, strOfOpt documento, valor, none,
          strOfOpt accountCode, "otimiza", strOfOpt accountCode, none,
          strOfOpt category, strOfOpt entityType⟩

/-- Tail matcher of `padraoDataInicio`
(`\s+([\d.,-]+)\s*(D|C|DEBITO|CREDITO)?$`): mandatory whitespace, the
greedy value class, then optionally a D/C marker before the end.
Deferring to a shorter value run can never rescue a failed match (the
next character would still be a value character), so the greedy scan is
exact. -/
def otTailMatch (t : Str) : Option Str :=
  let w := t.takeWhile isWS
  if w = [] then none
  else
    let t1 := t.drop w.length
    let v := t1.takeWhile fun c => isDigitC c || c = '.' || c = ',' || c = '-'
    if v = [] then none
    else
      let t3 := (t1.drop v.length).dropWhile isWS
      let t3up := t3.map jsToUpper1
      if t3up = [] ∨ t3up = ['D'] ∨ t3up = ['C'] ∨ t3up = "DEBITO".data ∨
          t3up = "CREDITO".data then some v
      else none

/-- The lazy `(.+?)` of `padraoDataInicio`: the earliest nonempty split
of the rest into description and a matching tail. -/
def otFindDesc (acc : Str) : Str → Option (Str × Str)
  | [] => none
  | c :: t =>
    match otTailMatch t with
    | some v => some (acc ++ [c], v)
    | none => otFindDesc (acc ++ [c]) t

/-- `\d{1,2}` directly followed by `/` or `-` (longer digit runs make the
whole anchored pattern fail). -/
def dateSeg (l : Str) : Option (Str × Char × Str) :=
  let r := l.takeWhile isDigitC
  if r = [] ∨ 2 < r.length then none
  else
    match l.drop r.length with
    | c :: rest => if c = '/' ∨ c = '-' then some (r, c, rest) else none
    | [] => none

/-- `padraoDataInicio =
/^(\d{1,2}[\/\-]\d{1,2}[\/\-]\d{2,4})\s+(.+?)\s+([\d.,-]+)\s*(D|C|DEBITO|CREDITO)?$/i`
applied to the whole line: the captures (date, description, value) — the
marker group is captured but never read by the caller.  The year run
must be 2–4 digits directly followed by whitespace. -/
def padraoDataInicio (linha : Str) : Option (Str × Str × Str) :=
  match dateSeg linha with
  | none => none
  | some (r1, c1, rest1) =>
    match dateSeg rest1 with
    | none => none
    | some (r2, c2, rest2) =>
      let r3 := rest2.takeWhile isDigitC
      if r3.length < 2 ∨ 4 < r3.length then none
      else
        let rest3 := rest2.drop r3.length
        let ws := rest3.takeWhile isWS
        if ws = [] then none
        else
          match otFindDesc [] (rest3.drop ws.length) with
          | none => none
          | some (desc, valorStr) =>
            some (r1 ++ c1 :: r2 ++ c2 :: r3, desc, valorStr)

/-- One line of the `parseOtimizaTxt` loop. -/
def otLine (refYear numLinha : ℕ) (linha0 : Str) : PRes :=
  let linha := jsTrim linha0
  if linha = [] then .skip
  else if palavrasCabecalho.any (fun p => isInfixL p.data (linha.map jsToUpper1)) then .skip
  else if jsIncludes '|' linha || jsIncludes ';' linha ||
      jsIncludes (Char.ofNat 9) linha then
    if 3 ≤ (otSplit linha).length then otDelim refYear numLinha (otSplit linha)
    else .skip
  else
    match padraoDataInicio linha with
    | none => .skip
    | some (dataStr, desc, valorStr) =>
      match parseDataSafe refYear dataStr with
      | none => .skip
      | some ymd =>
        pushNonzero (parseValor valorStr)
          ⟨fmtYMD ymd, ⟨jsTrim desc⟩, none, parseValor valorStr, none, none,
            "otimiza", none, none, none, none⟩

/-- The line loop with its accumulators; in strict mode the first issue
aborts the whole parse (the inner `throw` escapes through the re-`throw`
of the surrounding `catch` and rejects the promise). -/
def otGo (refYear : ℕ) (strict : Bool) :
    ℕ → List Str → List RLanc → List String → Except String (List RLanc × List String)
  | _, [], lancs, issues => .ok (lancs, issues)
  | n, linha :: rest, lancs, issues =>
    match otLine refYear n linha with
    | .skip => otGo refYear strict (n + 1) rest lancs issues
    | .keep l => otGo refYear strict (n + 1) rest (lancs ++ [l]) issues
    | .issue msg =>
      if strict then .error msg
      else otGo refYear strict (n + 1) rest lancs (issues ++ [msg])

/-- `parseOtimizaTxt(filePath, strict)` from the line list onward. -/
def parseOtimizaTxt (refYear : ℕ) (linhas : List Str) (strict : Bool) :
    Except String (List RLanc × List String) :=
  otGo refYear strict 0 linhas [] []

/-!
### CSV parser (`mpdsCsvParser.js`)

Embedded from the `end` handler onwards: input is the detected header
list and the per-row cell lists (`rowArray` is rebuilt from the headers
exactly as `headers.map(h => row[h] || '')` does for distinct headers).
`parseData` here is the gate-less five-format reader, modelled by
`parseDataSafe` (same formats, same order).  A `NaN` balance is not
distinguished from an absent one (no downstream consumer reads it).
-/
/-- `normalizeColumnName(col)`: trim, upper-case, strip the eight listed
accents (only those eight — `À`, `Â`, `Ê`, … are left alone, as in the
source). -/
def normalizeColumnName (col : String) : String :=
  ⟨(jsToUpperS (jsTrimS col)).data.map fun c =>
    if c = 'Á' then 'A' else if c = 'É' then 'E' else if c = 'Í' then 'I'
    else if c = 'Ó' then 'O' else if c = 'Ú' then 'U' else if c = 'Ã' then 'A'
    else if c = 'Õ' then 'O' else if c = 'Ç' then 'C' else c⟩

/-- `findColumnIndex(headers, possibleNames)`. -/
def findColumnIndex (headers : List String) (possibleNames : List String) : Option ℕ :=
  (headers.enum.find? fun p =>
    possibleNames.any fun name =>
      jsInfixS (normalizeColumnName name) (normalizeColumnName p.2) ||
        jsInfixS (normalizeColumnName p.2) (normalizeColumnName name)).map
    fun p => p.1

/-- One row of the CSV loop (the seven resolved column indices are
computed once before the loop). -/
def csvRow (refYear : ℕ) (headersLen : ℕ) (colData colDesc : ℕ)
    (colValor colDeb colCred colDoc colSaldo : Option ℕ) (numLinha : ℕ)
    (row : List String) : PRes :=
  let rowArray := (List.range headersLen).map fun i => row.getD i ""
  if rowArray.all fun cell => cell = "" ∨ jsTrimS cell = "" then .skip
  else if headersLen ≤ colData ∨ rowArray.getD colData "" = "" then
    .issue ("Linha " ++ ⟨natStr (numLinha + 2)⟩ ++ ": Data não encontrada")
  else
    match parseDataSafe refYear (rowArray.getD colData "").data with
    | none => .issue ("Linha " ++ ⟨natStr (numLinha + 2)⟩ ++ ": Data inválida")
    | some ymd =>
      if headersLen ≤ colDesc ∨ rowArray.getD colDesc "" = "" then
        .issue ("Linha " ++ ⟨natStr (numLinha + 2)⟩ ++ ": Descrição não encontrada")
      else
        let descricao := jsTrimS (rowArray.getD colDesc "")
        if descricao = "" then .skip
        else
          let valor0 :=
            match colValor with
            | some i => if i < headersLen then parseValor (rowArray.getD i "").data else some 0
            | none => some 0
          let valor :=
            if zeroJS valor0 then
              let debito :=
                match colDeb with
                | some i => if i < headersLen then parseValor (rowArray.getD i "").data else some 0
                | none => some 0
              let credito :=
                match colCred with
                | some i => if i < headersLen then parseValor (rowArray.getD i "").data else some 0
                | none => some 0
              -- `debito !== 0` / `credito !== 0` (true of `NaN` as well)
              if zeroJS debito = false then debito.map fun q => -(JQ.abs q)
              else if zeroJS credito = false then credito.map JQ.abs
              else valor0
            else valor0
          let documento :=
            match colDoc with
            | some i =>
              if i < headersLen ∧ jsTrimS (rowArray.getD i "") ≠ "" then
                some (jsTrimS (rowArray.getD i ""))
              else none
            | none => none
          let saldo :=
            match colSaldo with
            | some i =>
              if i < headersLen ∧ rowArray.getD i "" ≠ "" then
                parseValor (rowArray.getD i "").data
              else none
            | none => none
          pushNonzero valor
            ⟨fmtYMD ymd, descricao, documento, valor, saldo, none, "mpds",
              none, none, none, none⟩

/-- The row loop with strict-mode abort. -/
def csvGo (refYear headersLen colData colDesc : ℕ)
    (colValor colDeb colCred colDoc colSaldo : Option ℕ) (strict : Bool) :
    ℕ → List (List String) → List RLanc → List String →
      Except String (List RLanc × List String)
  | _, [], lancs, issues => .ok (lancs, issues)
  | n, row :: rest, lancs, issues =>
    match csvRow refYear headersLen colData colDesc colValor colDeb colCred colDoc
        colSaldo n row with
    | .skip => csvGo refYear headersLen colData colDesc colValor colDeb colCred colDoc
        colSaldo strict (n + 1) rest lancs issues
    | .keep l => csvGo refYear headersLen colData colDesc colValor colDeb colCred colDoc
        colSaldo strict (n + 1) rest (lancs ++ [l]) issues
    | .issue msg =>
      if strict then .error msg
      else csvGo refYear headersLen colData colDesc colValor colDeb colCred colDoc
        colSaldo strict (n + 1) rest lancs (issues ++ [msg])

def csvDataNames : List String :=
  ["Data", "DATA", "Dt", "DT", "Data Lançamento", "Data Movimento",
    "Date", "DATE", "Data Operação"]

def csvDescNames : List String :=
  ["Descrição", "DESCRIÇÃO", "Histórico", "HISTÓRICO", "Hist", "HIST",
    "Description", "Memo", "MEMO", "Nome", "NOME", "Descrição Operação"]

def csvValorNames : List String :=
  ["Valor", "VALOR", "Val", "VAL", "Amount", "AMOUNT", "Valor Movimento"]

def csvDebNames : List String :=
  ["Débito", "DÉBITO", "Deb", "DEB", "Debit", "DEBIT", "Débito Movimento"]

def csvCredNames : List String :=
  ["Crédito", "CRÉDITO", "Cred", "CRED", "Credit", "CREDIT", "Crédito Movimento"]

def csvDocNames : List String :=
  ["Documento", "DOCUMENTO", "Doc", "DOC", "Nº Doc", "Num Doc", "Número Documento"]

def csvSaldoNames : List String :=
  ["Saldo", "SALDO", "Sld", "SLD", "Balance", "BALANCE"]

/-- `parseMpdsCsv(filePath, strict)` from the `end` handler onwards.
Column-resolution failures reject the promise in *both* modes. -/
def parseMpdsCsv (refYear : ℕ) (headers : List String) (rows : List (List String))
    (strict : Bool) : Except String (List RLanc × List String) :=
  if headers.length = 0 then .error "Arquivo CSV vazio ou sem cabeçalho"
  else
    match findColumnIndex headers csvDataNames with
    | none => .error "Coluna de data não encontrada no CSV"
    | some colData =>
      match findColumnIndex headers csvDescNames with
      | none => .error "Coluna de descrição/histórico não encontrada no CSV"
      | some colDesc =>
        let colValor := findColumnIndex headers csvValorNames
        let colDeb := findColumnIndex headers csvDebNames
        let colCred := findColumnIndex headers csvCredNames
        if colValor = none ∧ colDeb = none ∧ colCred = none then
          .error "Nenhuma coluna de valor encontrada no CSV (Valor, Débito ou Crédito)"
        else
          csvGo refYear headers.length colData colDesc colValor colDeb colCred
            (findColumnIndex headers csvDocNames) (findColumnIndex headers csvSaldoNames)
            strict 0 rows [] []

/-!
### OFX parser (`mpdsOfxParser.js`)

Input: one abstract block per `<STMTTRN>` match, holding the first
capture of each of the five field regexes (`none` when the field regex
does not match).  `new Date(year, month-1, day)` normalises out-of-range
components by rolling (and maps years 0–99 to 1900–1999); a `NaN`
component gives an Invalid Date, which is *truthy* — it passes the
`!data` check and only blows up when `format` throws inside the `try`,
so it surfaces as an `Erro ao processar` issue, and only *after* the
zero-amount guard has had the chance to drop the record silently. -/
structure OfxBlock where
  dtposted : Option String
  trnamt : Option String
  fitid : Option String
  memo : Option String
  name : Option String

/-- `parseInt(s, 10)`: optional sign then a digit prefix. -/
def jsParseInt (l : Str) : Option ℤ :=
  let t := l.dropWhile isWS
  let sgn : ℤ := if t.head? = some '-' then -1 else 1
  let t2 := if t.head? = some '-' ∨ t.head? = some '+' then t.drop 1 else t
  let ds := t2.takeWhile isDigitC
  if ds = [] then none else some (sgn * digitsVal ds)

/-- Inverse of `civilFromYmd` (Howard Hinnant's `civil_from_days`). -/
def civilToYmd (zz : ℤ) : ℤ × ℤ × ℤ :=
  let z := zz + 719468
  let era := Int.fdiv z 146097
  let doe := z - era * 146097
  let yoe := Int.fdiv (doe - Int.fdiv doe 1460 + Int.fdiv doe 36524 - Int.fdiv doe 146096) 365
  let y := yoe + era * 400
  let doy := doe - (365 * yoe + Int.fdiv yoe 4 - Int.fdiv yoe 100)
  let mp := Int.fdiv (5 * doy + 2) 153
  let d := doy - Int.fdiv (153 * mp + 2) 5 + 1
  let m := mp + (if mp < 10 then 3 else -9)
  (if m ≤ 2 then y + 1 else y, m, d)

/-- `new Date(year, month - 1, day)` as a civil (y, m, d) triple. -/
def jsDateRoll (year month day : ℤ) : ℤ × ℤ × ℤ :=
  let y0 := if 0 ≤ year ∧ year ≤ 99 then year + 1900 else year
  let ms := y0 * 12 + (month - 1)
  let y1 := Int.fdiv ms 12
  let m1 := ms % 12 + 1
  civilToYmd (civilFromYmd y1 m1 1 + (day - 1))

/-- `format(d, 'yyyy-MM-dd')` on a signed civil triple. -/
def fmtYmdZ (ymd : ℤ × ℤ × ℤ) : String :=
  ⟨(if ymd.1 < 0 then '-' :: pad4 (-ymd.1).toNat else pad4 ymd.1.toNat) ++
    '-' :: pad2 ymd.2.1.toNat ++ '-' :: pad2 ymd.2.2.toNat⟩

/-- The three-valued outcome of `parseOfxDate`. -/
inductive OfxDate where
  | invalid : OfxDate
  | valid : ℤ × ℤ × ℤ → OfxDate

/-- `parseOfxDate(dateStr)` (`none` = `null`). -/
def parseOfxDate (s : String) : Option OfxDate :=
  if s = "" ∨ jsTrimS s = "" then none
  else
    let d := (jsTrimS s).data
    if 8 ≤ d.length then
      match jsParseInt (d.take 4), jsParseInt ((d.drop 4).take 2),
          jsParseInt ((d.drop 6).take 2) with
      | some y, some mo, some dy => some (.valid (jsDateRoll y mo dy))
      | _, _, _ => some .invalid
    else none

/-- `parseOfxAmount(amountStr)` (`none` = `NaN`). -/
def parseOfxAmount (s : String) : Option JQ :=
  if s = "" ∨ jsTrimS s = "" then some 0
  else jsParseFloat (jsTrimS s).data

/-- One `STMTTRN` block of the loop. -/
def ofxBlock (idx : ℕ) (b : OfxBlock) : PRes :=
  match b.dtposted with
  | none => .issue ("Transação " ++ ⟨natStr (idx + 1)⟩ ++ ": DTPOSTED não encontrado")
  | some ds =>
    match parseOfxDate ds with
    | none => .issue ("Transação " ++ ⟨natStr (idx + 1)⟩ ++ ": Data inválida")
    | some dstate =>
      match b.trnamt with
      | none => .issue ("Transação " ++ ⟨natStr (idx + 1)⟩ ++ ": TRNAMT não encontrado")
      | some amt =>
        let valor := parseOfxAmount amt
        if zeroJS valor then .skip
        else
          match dstate with
          | .invalid =>
            .issue ("Transação " ++ ⟨natStr (idx + 1)⟩ ++ ": Erro ao processar")
          | .valid ymd =>
            let descricao0 :=
              match b.memo with
              | some m => jsTrimS m
              | none =>
                match b.name with
                | some n => jsTrimS n
                | none => ""
            pushNonzero valor
              ⟨fmtYmdZ ymd,
                (if descricao0 = "" then "Transação sem descrição" else descricao0),
                b.fitid.map jsTrimS, valor, none, none, "mpds", none, none, none, none⟩

/-- The transaction loop with strict-mode abort. -/
def ofxGo (strict : Bool) :
    ℕ → List OfxBlock → List RLanc → List String →
      Except String (List RLanc × List String)
  | _, [], lancs, issues => .ok (lancs, issues)
  | n, b :: rest, lancs, issues =>
    match ofxBlock n b with
    | .skip => ofxGo strict (n + 1) rest lancs issues
    | .keep l => ofxGo strict (n + 1) rest (lancs ++ [l]) issues
    | .issue msg =>
      if strict then .error msg
      else ofxGo strict (n + 1) rest lancs (issues ++ [msg])

/-- `parseMpdsOfx(filePath, strict)` over the extracted blocks. -/
def parseMpdsOfx (blocks : List OfxBlock) (strict : Bool) :
    Except String (List RLanc × List String) :=
  ofxGo strict 0 blocks [] []

/-!
### PDF parser (`mpdsPdfParser.js`)

The `pdf-parse` text extraction and the per-pattern regex scans are not
modelled: each pattern's stream of capture tuples is taken as input, and
the per-capture processing — exactly the code between a match and its
`lancamentos.push` — is embedded, including every guard on the parsed
amount.  In the Sicoob per-line fallback (pattern 4) the candidate-value
selection and the description scrubbing (which only shape the chosen
value string and the cleaned description, both taken as inputs here)
are likewise absorbed into the capture record; all amount, length,
account-number and dedup guards that stand between them and the push
are embedded.  Quantifying over all capture streams over-approximates
every concrete run. -/
/-- `desc.trim().replace(/\s+/g, ' ')`. -/
def normalizarDescricaoPdf (s : String) : String :=
  if s = "" then "" else ⟨collapseWSGo false (jsTrim s.data)⟩

/-- `String(x).padStart(2, '0')`. -/
def padStart2 (l : Str) : Str :=
  if l.length = 0 then ['0', '0'] else if l.length = 1 then '0' :: l else l

def intStr (z : ℤ) : Str :=
  if z < 0 then '-' :: natStr (-z).toNat else natStr z.toNat

/-- The `meses` month-abbreviation map (`|| '01'`). -/
def mesNum (m : String) : String :=
  let u := jsToUpperS m
  if u = "JAN" then "01" else if u = "FEV" then "02" else if u = "MAR" then "03"
  else if u = "ABR" then "04" else if u = "MAI" then "05" else if u = "JUN" then "06"
  else if u = "JUL" then "07" else if u = "AGO" then "08" else if u = "SET" then "09"
  else if u = "OUT" then "10" else if u = "NOV" then "11" else if u = "DEZ" then "12"
  else "01"

/-- `descClean.replace(/^Total\s+de\s+(entradas|saídas)\s*[+-]?\s*/i, '')`. -/
def stripTotalDe (s : String) : String :=
  let lo := s.data.map jsToLower1
  let go : Option ℕ :=
    if ("total".data).isPrefixOf lo then
      let t1 := lo.drop 5
      let w1 := t1.takeWhile isWS
      if w1 = [] then none
      else
        let t2 := t1.drop w1.length
        if ("de".data).isPrefixOf t2 then
          let t3 := t2.drop 2
          let w2 := t3.takeWhile isWS
          if w2 = [] then none
          else
            let t4 := t3.drop w2.length
            let alt : Option ℕ :=
              if ("entradas".data).isPrefixOf t4 then some 8
              else if ("saídas".data).isPrefixOf t4 then some 6
              else none
            match alt with
            | none => none
            | some k =>
              let t5 := t4.drop k
              let w3 := t5.takeWhile isWS
              let t6 := t5.drop w3.length
              let sg := if t6.head? = some '+' ∨ t6.head? = some '-' then 1 else 0
              let t7 := t6.drop sg
              let w4 := t7.takeWhile isWS
              some (5 + w1.length + 2 + w2.length + k + w3.length + sg + w4.length)
        else none
    else none
  match go with
  | some n => ⟨s.data.drop n⟩
  | none => s

/-- Nubank pattern-1 captures
(`/(\d{1,2})\s+(JAN|…|DEZ)\s+(\d{4})\s+(.+?)\s+([\d.,-]+)/gi`). -/
structure NbCap1 where
  dia : String
  mes : String
  ano : String
  desc : String
  valorStr : String

/-- Nubank pattern-2 captures
(`/(\d{2}\/\d{2}\/\d{4})\s+(.+?)\s+(R\$\s*[\d.,-]+)/g`). -/
structure NbCap2 where
  dataStr : String
  desc : String
  valorStr : String

def nb1Step (refYear : ℕ) (lancs : List RLanc) (c : NbCap1) : List RLanc :=
  let dataStr : String := ⟨padStart2 c.dia.data ++ '/' :: (mesNum c.mes).data ++ '/' :: c.ano.data⟩
  match pdfParseData refYear dataStr.data with
  | none => lancs
  | some ymd =>
    let valor := parseValorPdf c.valorStr.data
    if JQ.eqv valor 0 then lancs
    else
      lancs ++ [⟨fmtYMD ymd, stripTotalDe (normalizarDescricaoPdf c.desc), none,
        some valor, none, none, "mpds", none, none, none, none⟩]

def nb2Step (refYear : ℕ) (lancs : List RLanc) (c : NbCap2) : List RLanc :=
  match pdfParseData refYear c.dataStr.data with
  | none => lancs
  | some ymd =>
    let valor := parseValorPdf c.valorStr.data
    if JQ.eqv valor 0 then lancs
    else
      lancs ++ [⟨fmtYMD ymd, normalizarDescricaoPdf c.desc, none, some valor, none,
        none, "mpds", none, none, none, none⟩]

/-- `parseNubank(texto)` over the two capture streams (its `issues` list
is always empty: nothing inside the `try` can throw in this total
model). -/
def parseNubank (refYear : ℕ) (caps1 : List NbCap1) (caps2 : List NbCap2) :
    List RLanc × List String :=
  let l1 := caps1.foldl (nb1Step refYear) []
  if l1.length = 0 then (caps2.foldl (nb2Step refYear) [], []) else (l1, [])

/-- A Sicoob pattern-1/2/3 capture tuple: day, month, optional year,
description and value captures plus the full matched text. -/
structure ScCap where
  dia : String
  mes : String
  anoStr : Option String
  desc : String
  valorStr : String
  full : String

/-- The year resolution of the Sicoob patterns (`ano && ano < 100`,
`!ano && anoInferido`, `!ano → new Date().getFullYear()`; a captured
`"00"` is falsy and behaves like an absent year). -/
def scYear (curYear : ℕ) (anoInferido : Option ℕ) (anoStr : Option String) : ℤ :=
  let a1 : Option ℤ :=
    match anoStr with
    | some s =>
      let v : ℤ := digitsVal s.data
      if v = 0 then none else if v < 100 then some (2000 + v) else some v
    | none => none
  match a1 with
  | some v => v
  | none =>
    match anoInferido with
    | some a => if a = 0 then (curYear : ℤ) else (a : ℤ)
    | none => (curYear : ℤ)

/-- `/^(\d)\1{4,}$/` — five or more copies of one digit. -/
def repDigits (l : Str) : Bool :=
  match l with
  | [] => false
  | c :: _ => isDigitC c && decide (5 ≤ l.length) && l.all fun x => x = c

/-- The shared body of the Sicoob pattern-1/2/3 loops; state:
(transactions, `seen` dedup keys). -/
def scStep (refYear curYear : ℕ) (anoInferido : Option ℕ)
    (st : List RLanc × List (String × String × ℤ)) (c : ScCap) :
    List RLanc × List (String × String × ℤ) :=
  let ano := scYear curYear anoInferido c.anoStr
  let dataStr : String := ⟨padStart2 c.dia.data ++ '/' :: padStart2 c.mes.data ++ '/' :: intStr ano⟩
  match pdfParseData refYear dataStr.data with
  | none => st
  | some ymd =>
    let valor := parseValorPdf c.valorStr.data
    if JQ.eqv valor 0 then st
    else
      let vi := JQ.abs valor
      let descN := normalizarDescricaoPdf c.desc
      if JQ.ofInt 10000 ≤ vi ∧ vi < JQ.ofInt 100000 ∧ jsInfixS "," c.valorStr = false ∧
          (jsInfixS "CONTA" (jsToUpperS descN) ∨ jsInfixS "BOLETO" (jsToUpperS descN) ∨
            jsInfixS "CONTA" (jsToUpperS c.full) ∨ jsInfixS "BOLETO" (jsToUpperS c.full) ∨
            repDigits (removeAll '.' c.valorStr.data)) then st
      else if c.desc = "" ∨ descN.length < 10 then st
      else
        let chave := (dataStr, (⟨descN.data.take 50⟩ : String), jsRound (valor * JQ.ofInt 100))
        if chave ∈ st.2 then st
        else
          (st.1 ++ [⟨fmtYMD ymd, descN, none, some valor, none, none, "mpds",
            none, none, none, none⟩], st.2 ++ [chave])

/-- `/TED\s+\d{5}/`-style search: the keyword, mandatory whitespace, then
at least five digits, anywhere in the line. -/
def kwNum5 (kw : Str) : Str → Bool
  | [] => false
  | c :: rest =>
    (kw.isPrefixOf (c :: rest) &&
      (let t := (c :: rest).drop kw.length
       let w := t.takeWhile isWS
       !w.isEmpty && decide (5 ≤ ((t.drop w.length).takeWhile isDigitC).length)))
    || kwNum5 kw rest

/-- `/\d{5}\s*[-]\s*\d/` search. -/
def fiveDashDigit : Str → Bool
  | [] => false
  | c :: rest =>
    ((c :: rest).take 5 |>.all isDigitC) && decide (5 ≤ (c :: rest).length) &&
      (let t := ((c :: rest).drop 5).dropWhile isWS
       match t with
       | '-' :: t2 =>
         match t2.dropWhile isWS with
         | d :: _ => isDigitC d
         | [] => false
       | _ => false)
    || fiveDashDigit rest

/-- A Sicoob pattern-4 line record: the line, the date captures found in
it, the selected candidate value string and the scrubbed description
(see the section header). -/
structure Sc4 where
  linha : String
  dia : String
  mes : String
  anoStr : Option String
  valorStr : String
  descCleaned : String

/-- The keyword-sensitive minimum description length of the Sicoob
pattern-4 guard (`hasKeyword ? 8 : 10`). -/
def sc4MinLen (desc : String) : ℕ :=
  if jsInfixS "TED" (jsToUpperS desc) ∨ jsInfixS "PIX" (jsToUpperS desc) ∨
      jsInfixS "RECEBIMENTO" (jsToUpperS desc) ∨ jsInfixS "PAGAMENTO" (jsToUpperS desc) ∨
      jsInfixS "BOLETO" (jsToUpperS desc) ∨ jsInfixS "TARIFA" (jsToUpperS desc) then 8
  else 10

/-- The Sicoob pattern-4 per-line body from the date/value selection
onward. -/
def sc4Step (refYear curYear : ℕ) (anoInferido : Option ℕ)
    (st : List RLanc × List (String × String × ℤ)) (c : Sc4) :
    List RLanc × List (String × String × ℤ) :=
  let ano := scYear curYear anoInferido c.anoStr
  let dataStr : String := ⟨padStart2 c.dia.data ++ '/' :: padStart2 c.mes.data ++ '/' :: intStr ano⟩
  match pdfParseData refYear dataStr.data with
  | none => st
  | some ymd =>
    let valor := parseValorPdf c.valorStr.data
    if JQ.eqv valor 0 ∨ JQ.abs valor < JQ.mk' 1 100 then st
    else
      let desc := c.descCleaned
      let descU := jsToUpperS desc
      if desc = "" ∨ desc.length < sc4MinLen desc then st
      else
        let vi := JQ.abs valor
        let linhaU := jsToUpperS c.linha
        if JQ.ofInt 10000 ≤ vi ∧ vi < JQ.ofInt 100000 ∧
            jsInfixS "," c.valorStr = false ∧
            (jsInfixS "CONTA" descU ∨ jsInfixS "AGENCIA" descU ∨
              jsInfixS "AGÊNCIA" descU ∨ jsInfixS "CONTA" linhaU ∨
              jsInfixS "BOLETO" linhaU ∨
              repDigits (removeAll '.' c.valorStr.data) ∨
              kwNum5 "TED".data linhaU.data = true ∨
              kwNum5 "BOLETO".data linhaU.data = true ∨ kwNum5 "CONTA".data linhaU.data = true ∨
              fiveDashDigit linhaU.data = true) then st
        else
          let chave := (dataStr,
            jsToUpperS ⟨(normalizarDescricaoPdf desc).data.take 50⟩,
            jsRound (valor * JQ.ofInt 100))
          if chave ∈ st.2 then st
          else
            (st.1 ++ [⟨fmtYMD ymd, normalizarDescricaoPdf desc, none, some valor, none,
              none, "mpds", none, none, none, none⟩], st.2 ++ [chave])

/-- `parseSicoob(texto)` over the four capture streams (the `seen` dedup
set is shared across all four passes; `issues` is always empty in this
total model). -/
def parseSicoob (refYear curYear : ℕ) (anoInferido : Option ℕ)
    (c1 c2 c3 : List ScCap) (c4 : List Sc4) : List RLanc × List String :=
  let s1 := c1.foldl (scStep refYear curYear anoInferido) ([], [])
  let s2 := c2.foldl (scStep refYear curYear anoInferido) s1
  let s3 := c3.foldl (scStep refYear curYear anoInferido) s2
  let s4 := c4.foldl (sc4Step refYear curYear anoInferido) s3
  (s4.1, [])

/-- `parseMpdsPdf(filePath, strict)` after text extraction and bank
detection: the bank choice, `unknown` resolved by whichever parser finds
more transactions (ties go to Nubank). -/
def parseMpdsPdf (banco : String) (refYear curYear : ℕ) (anoInferido : Option ℕ)
    (nu1 : List NbCap1) (nu2 : List NbCap2) (c1 c2 c3 : List ScCap) (c4 : List Sc4) :
    List RLanc × List String :=
  if banco = "nubank" then parseNubank refYear nu1 nu2
  else if banco = "sicoob" then parseSicoob refYear curYear anoInferido c1 c2 c3 c4
  else if (parseSicoob refYear curYear anoInferido c1 c2 c3 c4).1.length ≤
      (parseNubank refYear nu1 nu2).1.length then parseNubank refYear nu1 nu2
  else parseSicoob refYear curYear anoInferido c1 c2 c3 c4

/-!
## Claim C9: no parser ever outputs an exactly-zero amount
-/
/-- The transaction's amount, when it is a number at all, is not exactly
zero. -/
def nzValor (l : RLanc) : Prop :=
  ∀ q, l.valor = some q → ¬ JQ.eqv q 0

instance : DecidableEq (Except String (List RLanc × List String)) := fun a b =>
  match a, b with
  | .ok x, .ok y =>
    if h : x = y then isTrue (by rw [h]) else isFalse (by intro hc; cases hc; exact h rfl)
  | .error x, .error y =>
    if h : x = y then isTrue (by rw [h]) else isFalse (by intro hc; cases hc; exact h rfl)
  | .ok _, .error _ => isFalse (by intro hc; cases hc)
  | .error _, .ok _ => isFalse (by intro hc; cases hc)

/-!
## Claim C8: issue recording vs strict-mode abort
-/
/-- The promise resolved (did not reject). -/
def exceptOk {ε α : Type} : Except ε α → Bool
  | .ok _ => true
  | .error _ => false

/-!
## Theorems
-/

namespace JQ

theorem den_pos (a : JQ) : 0 < a.den := by
  unfold den; omega

theorem den_ne_zero (a : JQ) : ((a.den : ℤ) : ℚ) ≠ 0 := by
  have := a.den_pos
  intro h
  rw [Int.cast_eq_zero] at h
  omega

theorem den_add (a b : JQ) : (add a b).den = a.den * b.den := by
  unfold den add
  push_cast
  ring

theorem den_mul (a b : JQ) : (mul a b).den = a.den * b.den := by
  unfold den mul
  push_cast
  ring

theorem toRat_ofInt (n : ℤ) : toRat (ofInt n) = (n : ℚ) := by
  simp [toRat, ofInt, den]

theorem toRat_mk' (n : ℤ) (d : ℕ) (hd : 0 < d) : toRat (mk' n d) = (n : ℚ) / (d : ℚ) := by
  unfold toRat mk' den
  congr 2
  rw [Nat.cast_sub (by omega : 1 ≤ d)]
  push_cast
  ring

theorem toRat_add (a b : JQ) : toRat (a + b) = toRat a + toRat b := by
  show toRat (add a b) = _
  unfold toRat
  rw [den_add]
  show ((a.num * b.den + b.num * a.den : ℤ) : ℚ) / _ = _
  rw [div_add_div _ _ a.den_ne_zero b.den_ne_zero]
  push_cast
  ring_nf

theorem toRat_neg (a : JQ) : toRat (-a) = -toRat a := by
  show toRat (neg a) = _
  unfold toRat neg den
  push_cast
  ring_nf

theorem toRat_sub (a b : JQ) : toRat (a - b) = toRat a - toRat b := by
  show toRat (sub a b) = _
  unfold sub
  rw [show add a (neg b) = a + (-b) from rfl, toRat_add, toRat_neg]
  ring

theorem toRat_mul (a b : JQ) : toRat (a * b) = toRat a * toRat b := by
  show toRat (mul a b) = _
  unfold toRat
  rw [den_mul]
  show ((a.num * b.num : ℤ) : ℚ) / _ = _
  push_cast
  rw [div_mul_div_comm]

theorem toRat_abs (a : JQ) : toRat (abs a) = |toRat a| := by
  have h1 : toRat (abs a) = ((|a.num| : ℤ) : ℚ) / ((a.den : ℤ) : ℚ) := rfl
  rw [h1, toRat, abs_div, abs_of_pos (show (0 : ℚ) < ((a.den : ℤ) : ℚ) by exact_mod_cast a.den_pos)]
  push_cast
  ring

theorem eqv_iff {a b : JQ} : eqv a b ↔ toRat a = toRat b := by
  unfold eqv toRat
  rw [div_eq_div_iff a.den_ne_zero b.den_ne_zero]
  constructor
  · intro h; exact_mod_cast h
  · intro h; exact_mod_cast h

theorem le_iff {a b : JQ} : a ≤ b ↔ toRat a ≤ toRat b := by
  show le a b ↔ _
  unfold le toRat
  rw [div_le_div_iff₀ (by exact_mod_cast a.den_pos) (by exact_mod_cast b.den_pos)]
  constructor
  · intro h; exact_mod_cast h
  · intro h; exact_mod_cast h

theorem lt_iff {a b : JQ} : a < b ↔ toRat a < toRat b := by
  show lt a b ↔ _
  unfold lt toRat
  rw [div_lt_div_iff₀ (by exact_mod_cast a.den_pos) (by exact_mod_cast b.den_pos)]
  constructor
  · intro h; exact_mod_cast h
  · intro h; exact_mod_cast h

end JQ

theorem JQ.mk'_den_pos (n : ℤ) (d : ℕ) : 0 < (JQ.mk' n d).den := JQ.den_pos _

/-!
## Basic list lemmas about the JavaScript string primitives
-/
theorem not_WS_of_digit {c : Char} (h : isDigitC c = true) : isWS c = false := by
  simp only [isDigitC, Bool.and_eq_true, decide_eq_true_eq] at h
  simp only [isWS, Bool.or_eq_false_iff, decide_eq_false_iff_not]
  omega

theorem ne_of_digit_of_lt {c d : Char} (h : isDigitC c = true) (hd : d.toNat < 48) :
    c ≠ d := by
  rintro rfl
  simp only [isDigitC, Bool.and_eq_true, decide_eq_true_eq] at h
  omega

theorem dropWhile_eq_self_of {p : Char → Bool} {l : Str} (h : ∀ c ∈ l, p c = false) :
    l.dropWhile p = l := by
  cases l with
  | nil => rfl
  | cons x xs => simp [List.dropWhile, h x (by simp)]

theorem jsTrim_eq_self {l : Str} (h : ∀ c ∈ l, isWS c = false) : jsTrim l = l := by
  unfold jsTrim
  rw [dropWhile_eq_self_of h, dropWhile_eq_self_of (by intro c hc; exact h c (by simpa using hc)),
    List.reverse_reverse]

theorem jsIncludes_iff {c : Char} {l : Str} : jsIncludes c l = true ↔ c ∈ l := by
  simp only [jsIncludes, List.any_eq_true, decide_eq_true_eq]
  constructor
  · rintro ⟨x, hx, rfl⟩; exact hx
  · intro h; exact ⟨c, h, rfl⟩

theorem jsIncludes_eq_false {c : Char} {l : Str} (h : c ∉ l) : jsIncludes c l = false := by
  rw [Bool.eq_false_iff]; intro hc; exact h (jsIncludes_iff.mp hc)

theorem lastIdx_eq_none {c : Char} {l : Str} (h : c ∉ l) : lastIdx c l = none := by
  induction l with
  | nil => rfl
  | cons x xs ih =>
    simp only [List.mem_cons, not_or] at h
    simp [lastIdx, ih h.2, h.1, Ne.symm h.1]

theorem lastIdx_append_right {c : Char} {p f : Str} (h : c ∉ f) :
    lastIdx c (p ++ c :: f) = some p.length := by
  induction p with
  | nil => simp [lastIdx, lastIdx_eq_none h]
  | cons x xs ih => simp [lastIdx, ih]

theorem lastIdx_append_of_not_mem {c : Char} {p f : Str} (h : c ∉ f) :
    lastIdx c (p ++ f) = lastIdx c p := by
  induction p with
  | nil => simp [lastIdx, lastIdx_eq_none h]
  | cons x xs ih => simp [lastIdx, ih]

theorem digitsVal_nil : digitsVal [] = 0 := rfl

theorem lastIdx_lt_length {c : Char} {l : Str} {i : ℕ} (h : lastIdx c l = some i) :
    i < l.length := by
  induction l generalizing i with
  | nil => simp [lastIdx] at h
  | cons x xs ih =>
    rcases hx : lastIdx c xs with _ | j
    · have h2 : (if x = c then some 0 else none) = some i := by
        rw [← h]; simp [lastIdx, hx]
      by_cases hxc : x = c
      · rw [if_pos hxc] at h2
        injection h2 with h2
        simp [← h2]
      · rw [if_neg hxc] at h2
        exact absurd h2 (by simp)
    · have h2 : some (j + 1) = some i := by rw [← h]; simp [lastIdx, hx]
      injection h2 with h2
      have := ih hx
      simp only [List.length_cons]
      omega

theorem removeAll_append {c : Char} (p f : Str) :
    removeAll c (p ++ f) = removeAll c p ++ removeAll c f :=
  List.filter_append ..

theorem removeAll_of_not_mem {c : Char} {l : Str} (h : c ∉ l) : removeAll c l = l := by
  unfold removeAll
  rw [List.filter_eq_self]
  intro a ha
  simp only [ne_eq, decide_eq_true_eq]
  rintro rfl
  exact h ha

theorem removeAll_cons_self {c : Char} (l : Str) :
    removeAll c (c :: l) = removeAll c l := by
  simp [removeAll]

theorem replaceFirst_append_of_not_mem {a b : Char} {p f : Str} (h : a ∉ p) :
    replaceFirst a b (p ++ a :: f) = p ++ b :: f := by
  induction p with
  | nil => simp [replaceFirst]
  | cons x xs ih =>
    simp only [List.mem_cons, not_or] at h
    simp [replaceFirst, h.1, Ne.symm h.1, ih h.2]

theorem jsSplit_of_not_mem {c : Char} {l : Str} (h : c ∉ l) : jsSplit c l = [l] := by
  induction l with
  | nil => rfl
  | cons x xs ih =>
    simp only [List.mem_cons, not_or] at h
    simp [jsSplit, Ne.symm h.1, ih h.2]

theorem jsSplit_append {c : Char} {p f : Str} (h : c ∉ p) :
    jsSplit c (p ++ c :: f) = p :: jsSplit c f := by
  induction p with
  | nil => simp [jsSplit]
  | cons x xs ih =>
    simp only [List.mem_cons, not_or] at h
    simp [jsSplit, Ne.symm h.1, ih h.2]

theorem takeWhile_all {p : Char → Bool} {l : Str} (h : ∀ c ∈ l, p c = true) :
    l.takeWhile p = l := by
  induction l with
  | nil => rfl
  | cons x xs ih => simp [List.takeWhile, h x (by simp), ih fun c hc => h c (by simp [hc])]

theorem dropWhile_all {p : Char → Bool} {l : Str} (h : ∀ c ∈ l, p c = true) :
    l.dropWhile p = [] := by
  induction l with
  | nil => rfl
  | cons x xs ih => simp [List.dropWhile, h x (by simp), ih fun c hc => h c (by simp [hc])]

theorem takeWhile_append_neg {p : Char → Bool} {I R : Str} {g : Char}
    (hI : ∀ c ∈ I, p c = true) (hg : p g = false) :
    (I ++ g :: R).takeWhile p = I := by
  induction I with
  | nil => simp [List.takeWhile, hg]
  | cons x xs ih =>
    simp [List.takeWhile, hI x (by simp), ih fun c hc => hI c (by simp [hc])]

theorem dropWhile_append_neg {p : Char → Bool} {I R : Str} {g : Char}
    (hI : ∀ c ∈ I, p c = true) (hg : p g = false) :
    (I ++ g :: R).dropWhile p = g :: R := by
  induction I with
  | nil => simp [List.dropWhile, hg]
  | cons x xs ih =>
    simp [List.dropWhile, hI x (by simp), ih fun c hc => hI c (by simp [hc])]

theorem digitsVal_foldl (init : ℕ) (l : Str) :
    l.foldl (fun a c => 10 * a + digitVal c) init =
      init * 10 ^ l.length + digitsVal l := by
  induction l generalizing init with
  | nil => simp [digitsVal]
  | cons x xs ih =>
    simp only [List.foldl_cons, List.length_cons, digitsVal]
    rw [ih, ih (10 * 0 + digitVal x)]
    ring

theorem digitsVal_append (a b : Str) :
    digitsVal (a ++ b) = digitsVal a * 10 ^ b.length + digitsVal b := by
  calc digitsVal (a ++ b)
      = b.foldl (fun a c => 10 * a + digitVal c) (digitsVal a) := by
        simp [digitsVal, List.foldl_append]
    _ = digitsVal a * 10 ^ b.length + digitsVal b := digitsVal_foldl ..

/-- `parseFloat` on a nonempty digit string. -/
theorem jsParseFloat_digits {I : Str} (hne : I ≠ []) (h : ∀ c ∈ I, isDigitC c = true) :
    jsParseFloat I = some (JQ.ofInt (digitsVal I)) := by
  obtain ⟨d, I', rfl⟩ := List.exists_cons_of_ne_nil hne
  have hd : isDigitC d = true := h d (by simp)
  unfold jsParseFloat
  rw [dropWhile_eq_self_of fun c hc => not_WS_of_digit (h c hc)]
  have hdm : d ≠ '-' := ne_of_digit_of_lt hd (by decide)
  have hdp : d ≠ '+' := ne_of_digit_of_lt hd (by decide)
  simp only [List.head?_cons, Option.some.injEq, hdm, hdp, or_self, if_false]
  rw [takeWhile_all h, dropWhile_all h]
  simp only [List.head?_nil, hne, false_and, if_false]
  rw [if_neg (by simp)]
  congr 1
  simp [JQ.mk', JQ.ofInt, digitsVal_nil]

theorem jsParseFloat_digits_toRat {I : Str} (hne : I ≠ [])
    (h : ∀ c ∈ I, isDigitC c = true) :
    (jsParseFloat I).map JQ.toRat = some ((digitsVal I : ℚ)) := by
  rw [jsParseFloat_digits hne h]
  simp only [Option.map_some']
  rw [JQ.toRat_ofInt]
  norm_cast

/-- `parseFloat` on `digits ++ "." ++ digits` with a nonempty integer part. -/
theorem jsParseFloat_digits_dot {I F : Str} (hne : I ≠ [])
    (hI : ∀ c ∈ I, isDigitC c = true) (hF : ∀ c ∈ F, isDigitC c = true) :
    (jsParseFloat (I ++ '.' :: F)).map JQ.toRat = some ((digitsVal I : ℚ) + fracVal F) := by
  obtain ⟨d, I', rfl⟩ := List.exists_cons_of_ne_nil hne
  have hd : isDigitC d = true := hI d (by simp)
  have hdot : isDigitC '.' = false := by decide
  unfold jsParseFloat
  rw [dropWhile_eq_self_of ?hws]
  case hws =>
    intro c hc
    rcases List.mem_append.mp hc with h1 | h1
    · exact not_WS_of_digit (hI c h1)
    · rcases List.mem_cons.mp h1 with rfl | h2
      · decide
      · exact not_WS_of_digit (hF c h2)
  have hdm : d ≠ '-' := ne_of_digit_of_lt hd (by decide)
  have hdp : d ≠ '+' := ne_of_digit_of_lt hd (by decide)
  simp only [List.cons_append, List.head?_cons, Option.some.injEq, hdm, hdp, or_self, if_false]
  rw [show (d :: (I' ++ '.' :: F)) = ((d :: I') ++ '.' :: F) by simp,
    takeWhile_append_neg hI hdot, dropWhile_append_neg hI hdot]
  simp only [List.head?_cons, List.drop_one, List.tail_cons, if_pos rfl]
  rw [takeWhile_all hF]
  rw [if_neg (by simp [hne])]
  simp only [Option.map_some']
  congr 1
  rw [JQ.toRat_mk' _ _ (by positivity)]
  unfold fracVal
  push_cast
  rw [div_eq_iff (by positivity), add_mul, div_mul_cancel₀ _ (by positivity)]
  ring

theorem jsLastIndexOf_of_lastIdx {c : Char} {l : Str} {i : ℕ} (h : lastIdx c l = some i) :
    jsLastIndexOf c l = (i : ℤ) := by
  simp [jsLastIndexOf, h]

theorem lastIdx_exists_of_mem {c : Char} {l : Str} (h : c ∈ l) :
    ∃ i, lastIdx c l = some i := by
  induction l with
  | nil => simp at h
  | cons x xs ih =>
    rcases hx : lastIdx c xs with _ | j
    · rcases List.mem_cons.mp h with rfl | hm
      · exact ⟨0, by simp [lastIdx, hx]⟩
      · obtain ⟨i, hi⟩ := ih hm
        rw [hi] at hx
        exact absurd hx (by simp)
    · exact ⟨j + 1, by simp [lastIdx, hx]⟩

theorem not_mem_of_digits {l : Str} (h : ∀ c ∈ l, isDigitC c = true) {d : Char}
    (hd : d.toNat < 48) : d ∉ l := by
  intro hm
  have := h d hm
  simp only [isDigitC, Bool.and_eq_true, decide_eq_true_eq] at this
  omega

theorem digit_mem_not_WS {l : Str} (h : ∀ c ∈ l, isDigitC c = true ∨ c = '.' ∨ c = ',') :
    ∀ c ∈ l, isWS c = false := by
  intro c hc
  rcases h c hc with h1 | h1 | h1
  · exact not_WS_of_digit h1
  · subst h1; decide
  · subst h1; decide

/-!
## Behaviour of `parseValor` on the canonical separator shapes (claims C1, C6)
-/
/-- Both separators present, the right-most one a comma (Brazilian shape
`digits[./digits]* , digits`): the comma is the decimal point and the dots
are stripped. -/
theorem parseValor_br {d : Char} {p f : Str} (hd : isDigitC d = true)
    (hp : ∀ c ∈ p, isDigitC c = true ∨ c = '.') ( hdot : '.' ∈ p)
    (hf : ∀ c ∈ f, isDigitC c = true) :
    (parseValor ((d :: p) ++ ',' :: f)).map JQ.toRat
      = some ((digitsVal (removeAll '.' (d :: p)) : ℚ) + fracVal f) := by
  have hcom_p : ',' ∉ d :: p := by
    intro hm
    rcases List.mem_cons.mp hm with h1 | h1
    · exact ne_of_digit_of_lt hd (by decide) h1.symm
    · rcases hp _ h1 with h2 | h2
      · exact ne_of_digit_of_lt h2 (by decide) rfl
      · simp at h2
  have hcom_f : ',' ∉ f := not_mem_of_digits hf (by decide)
  have hdot_f : '.' ∉ f := not_mem_of_digits hf (by decide)
  have hchars : ∀ c ∈ (d :: p) ++ ',' :: f, isDigitC c = true ∨ c = '.' ∨ c = ',' := by
    intro c hc
    rcases List.mem_append.mp hc with h1 | h1
    · rcases List.mem_cons.mp h1 with rfl | h2
      · exact Or.inl hd
      · rcases hp _ h2 with h3 | h3
        · exact Or.inl h3
        · exact Or.inr (Or.inl h3)
    · rcases List.mem_cons.mp h1 with rfl | h2
      · exact Or.inr (Or.inr rfl)
      · exact Or.inl (hf _ h2)
  have htrim : jsTrim ((d :: p) ++ ',' :: f) = (d :: p) ++ ',' :: f :=
    jsTrim_eq_self (digit_mem_not_WS hchars)
  have hne : (d :: p) ++ ',' :: f ≠ [] := by simp
  have hhead : ((d :: p) ++ ',' :: f).head? = some d := by simp
  have hnneg : ¬(((d :: p) ++ ',' :: f).head? = some '-') := by
    rw [hhead]
    simp only [Option.some.injEq]
    exact ne_of_digit_of_lt hd (by decide)
  -- the disambiguation core picks the Brazilian branch
  have hcore : parseValorCore ((d :: p) ++ ',' :: f)
      = removeAll '.' (d :: p) ++ '.' :: f := by
    have hinc1 : jsIncludes ',' ((d :: p) ++ ',' :: f) = true :=
      jsIncludes_iff.mpr (by simp)
    have hinc2 : jsIncludes '.' ((d :: p) ++ ',' :: f) = true :=
      jsIncludes_iff.mpr (by simp [hdot])
    obtain ⟨i, hi⟩ := lastIdx_exists_of_mem (l := d :: p) (c := '.') (by simp [hdot])
    have hlt : i < (d :: p).length := lastIdx_lt_length hi
    have hcmp : jsLastIndexOf ',' ((d :: p) ++ ',' :: f)
        > jsLastIndexOf '.' ((d :: p) ++ ',' :: f) := by
      have h1 : lastIdx ',' ((d :: p) ++ ',' :: f) = some (d :: p).length :=
        lastIdx_append_right hcom_f
      have h2 : lastIdx '.' ((d :: p) ++ ',' :: f) = some i := by
        rw [lastIdx_append_of_not_mem (by simp [hdot_f]), hi]
      rw [jsLastIndexOf_of_lastIdx h1, jsLastIndexOf_of_lastIdx h2]
      exact_mod_cast hlt
    rw [parseValorCore, if_pos ⟨hinc1, hinc2⟩, if_pos hcmp]
    rw [removeAll_append]
    have : removeAll '.' (',' :: f) = ',' :: f :=
      removeAll_of_not_mem (by simp [hdot_f])
    rw [this]
    exact replaceFirst_append_of_not_mem fun hm =>
      hcom_p (List.mem_of_mem_filter hm)
  have hdne : d ≠ '.' := ne_of_digit_of_lt hd (by decide)
  have hIne : removeAll '.' (d :: p) ≠ [] := by
    have : removeAll '.' (d :: p) = d :: removeAll '.' p := by
      simp [removeAll, List.filter_cons, hdne]
    simp [this]
  have hIdig : ∀ c ∈ removeAll '.' (d :: p), isDigitC c = true := by
    intro c hc
    have hcm := List.mem_of_mem_filter hc
    have hcd : c ≠ '.' := by
      have := List.of_mem_filter hc
      simpa using this
    rcases List.mem_cons.mp hcm with rfl | h2
    · exact hd
    · rcases hp _ h2 with h3 | h3
      · exact h3
      · exact absurd h3 hcd
  rw [parseValor]
  rw [htrim, if_neg hne]
  simp only [hnneg, if_false, hcore]
  exact jsParseFloat_digits_dot hIne hIdig hf

/-- Both separators present, the right-most one a dot (US shape): the dot is
the decimal point and the commas are stripped. -/
theorem parseValor_us {d : Char} {p f : Str} (hd : isDigitC d = true)
    (hp : ∀ c ∈ p, isDigitC c = true ∨ c = ',') ( hcom : ',' ∈ p)
    (hf : ∀ c ∈ f, isDigitC c = true) :
    (parseValor ((d :: p) ++ '.' :: f)).map JQ.toRat
      = some ((digitsVal (removeAll ',' (d :: p)) : ℚ) + fracVal f) := by
  have hdot_p : '.' ∉ d :: p := by
    intro hm
    rcases List.mem_cons.mp hm with h1 | h1
    · exact ne_of_digit_of_lt hd (by decide) h1.symm
    · rcases hp _ h1 with h2 | h2
      · exact ne_of_digit_of_lt h2 (by decide) rfl
      · simp at h2
  have hcom_f : ',' ∉ f := not_mem_of_digits hf (by decide)
  have hdot_f : '.' ∉ f := not_mem_of_digits hf (by decide)
  have hchars : ∀ c ∈ (d :: p) ++ '.' :: f, isDigitC c = true ∨ c = '.' ∨ c = ',' := by
    intro c hc
    rcases List.mem_append.mp hc with h1 | h1
    · rcases List.mem_cons.mp h1 with rfl | h2
      · exact Or.inl hd
      · rcases hp _ h2 with h3 | h3
        · exact Or.inl h3
        · exact Or.inr (Or.inr h3)
    · rcases List.mem_cons.mp h1 with rfl | h2
      · exact Or.inr (Or.inl rfl)
      · exact Or.inl (hf _ h2)
  have htrim : jsTrim ((d :: p) ++ '.' :: f) = (d :: p) ++ '.' :: f :=
    jsTrim_eq_self (digit_mem_not_WS hchars)
  have hne : (d :: p) ++ '.' :: f ≠ [] := by simp
  have hnneg : ¬(((d :: p) ++ '.' :: f).head? = some '-') := by
    simp only [List.cons_append, List.head?_cons, Option.some.injEq]
    exact ne_of_digit_of_lt hd (by decide)
  have hcore : parseValorCore ((d :: p) ++ '.' :: f)
      = removeAll ',' (d :: p) ++ '.' :: f := by
    have hinc1 : jsIncludes ',' ((d :: p) ++ '.' :: f) = true :=
      jsIncludes_iff.mpr (by simp [hcom])
    have hinc2 : jsIncludes '.' ((d :: p) ++ '.' :: f) = true :=
      jsIncludes_iff.mpr (by simp)
    obtain ⟨i, hi⟩ := lastIdx_exists_of_mem (l := d :: p) (c := ',') (by simp [hcom])
    have hlt : i < (d :: p).length := lastIdx_lt_length hi
    have hcmp : ¬(jsLastIndexOf ',' ((d :: p) ++ '.' :: f)
        > jsLastIndexOf '.' ((d :: p) ++ '.' :: f)) := by
      have h1 : lastIdx '.' ((d :: p) ++ '.' :: f) = some (d :: p).length :=
        lastIdx_append_right hdot_f
      have h2 : lastIdx ',' ((d :: p) ++ '.' :: f) = some i := by
        rw [lastIdx_append_of_not_mem (by simp [hcom_f]), hi]
      rw [jsLastIndexOf_of_lastIdx h1, jsLastIndexOf_of_lastIdx h2]
      push_neg
      exact_mod_cast hlt.le
    rw [parseValorCore, if_pos ⟨hinc1, hinc2⟩, if_neg hcmp]
    rw [removeAll_append]
    congr 1
    exact removeAll_of_not_mem (by simp [hcom_f])
  have hdne : d ≠ ',' := ne_of_digit_of_lt hd (by decide)
  have hIne : removeAll ',' (d :: p) ≠ [] := by
    have : removeAll ',' (d :: p) = d :: removeAll ',' p := by
      simp [removeAll, List.filter_cons, hdne]
    simp [this]
  have hIdig : ∀ c ∈ removeAll ',' (d :: p), isDigitC c = true := by
    intro c hc
    have hcm := List.mem_of_mem_filter hc
    have hcd : c ≠ ',' := by
      have := List.of_mem_filter hc
      simpa using this
    rcases List.mem_cons.mp hcm with rfl | h2
    · exact hd
    · rcases hp _ h2 with h3 | h3
      · exact h3
      · exact absurd h3 hcd
  rw [parseValor]
  rw [htrim, if_neg hne]
  simp only [hnneg, if_false, hcore]
  exact jsParseFloat_digits_dot hIne hIdig hf

/-- Comma as the only separator: decimal comma iff at most two digits
follow, thousands separator otherwise. -/
theorem parseValor_comma_only {d : Char} {p f : Str} (hd : isDigitC d = true)
    (hp : ∀ c ∈ p, isDigitC c = true) (hf : ∀ c ∈ f, isDigitC c = true) :
    (parseValor ((d :: p) ++ ',' :: f)).map JQ.toRat
      = if f.length ≤ 2
        then some ((digitsVal (d :: p) : ℚ) + fracVal f)
        else some ((digitsVal ((d :: p) ++ f) : ℚ)) := by
  have hpd : ∀ c ∈ d :: p, isDigitC c = true := by
    intro c hc
    rcases List.mem_cons.mp hc with rfl | h2
    · exact hd
    · exact hp _ h2
  have hcom_p : ',' ∉ d :: p := not_mem_of_digits hpd (by decide)
  have hcom_f : ',' ∉ f := not_mem_of_digits hf (by decide)
  have hdot_s : '.' ∉ (d :: p) ++ ',' :: f := by
    intro hm
    rcases List.mem_append.mp hm with h1 | h1
    · exact not_mem_of_digits hpd (d := '.') (by decide) h1
    · rcases List.mem_cons.mp h1 with h2 | h2
      · simp at h2
      · exact not_mem_of_digits hf (d := '.') (by decide) h2
  have hchars : ∀ c ∈ (d :: p) ++ ',' :: f, isDigitC c = true ∨ c = '.' ∨ c = ',' := by
    intro c hc
    rcases List.mem_append.mp hc with h1 | h1
    · exact Or.inl (hpd _ h1)
    · rcases List.mem_cons.mp h1 with rfl | h2
      · exact Or.inr (Or.inr rfl)
      · exact Or.inl (hf _ h2)
  have htrim : jsTrim ((d :: p) ++ ',' :: f) = (d :: p) ++ ',' :: f :=
    jsTrim_eq_self (digit_mem_not_WS hchars)
  have hne : (d :: p) ++ ',' :: f ≠ [] := by simp
  have hnneg : ¬(((d :: p) ++ ',' :: f).head? = some '-') := by
    simp only [List.cons_append, List.head?_cons, Option.some.injEq]
    exact ne_of_digit_of_lt hd (by decide)
  have hinc1 : jsIncludes ',' ((d :: p) ++ ',' :: f) = true :=
    jsIncludes_iff.mpr (by simp)
  have hinc2 : jsIncludes '.' ((d :: p) ++ ',' :: f) = false :=
    jsIncludes_eq_false hdot_s
  have hsplit : jsSplit ',' ((d :: p) ++ ',' :: f) = [d :: p, f] := by
    rw [jsSplit_append hcom_p, jsSplit_of_not_mem hcom_f]
  have hbranch : parseValorCore ((d :: p) ++ ',' :: f)
      = if f.length ≤ 2 then (d :: p) ++ '.' :: f else (d :: p) ++ f := by
    have hinc2n : jsIncludes '.' (d :: (p ++ ',' :: f)) = false := hinc2
    rw [parseValorCore, if_neg (by simp [hinc2n]), if_pos hinc1, hsplit]
    by_cases hfl : f.length ≤ 2
    · rw [if_pos ⟨rfl, hfl⟩, if_pos hfl]
      rw [removeAll_of_not_mem hdot_s]
      exact replaceFirst_append_of_not_mem hcom_p
    · rw [if_neg (fun hcc => hfl hcc.2), if_neg hfl]
      rw [removeAll_append, removeAll_of_not_mem hcom_p, removeAll_cons_self,
        removeAll_of_not_mem hcom_f]
  rw [parseValor]
  rw [htrim, if_neg hne]
  simp only [hnneg, if_false, hbranch]
  by_cases hfl : f.length ≤ 2
  · rw [if_pos hfl, if_pos hfl]
    exact jsParseFloat_digits_dot (by simp) hpd hf
  · rw [if_neg hfl, if_neg hfl]
    refine jsParseFloat_digits_toRat (by simp) ?_
    intro c hc
    rcases List.mem_append.mp hc with h1 | h1
    · exact hpd _ h1
    · exact hf _ h1

/-- Sign handling of `parseValor`: a leading minus negates the result of
parsing the remainder. -/
theorem parseValor_neg {d : Char} {s : Str} (hd : isDigitC d = true)
    (hchars : ∀ c ∈ d :: s, isDigitC c = true ∨ c = '.' ∨ c = ',') :
    parseValor ('-' :: d :: s) = (parseValor (d :: s)).map (fun q => -q) := by
  have hnws : ∀ c ∈ d :: s, isWS c = false := digit_mem_not_WS hchars
  have hnws2 : ∀ c ∈ '-' :: d :: s, isWS c = false := by
    intro c hc
    rcases List.mem_cons.mp hc with rfl | h2
    · decide
    · exact hnws c h2
  have htrim1 : jsTrim ('-' :: d :: s) = '-' :: d :: s := jsTrim_eq_self hnws2
  have htrim2 : jsTrim (d :: s) = d :: s := jsTrim_eq_self hnws
  have hdneg : d ≠ '-' := ne_of_digit_of_lt hd (by decide)
  simp only [parseValor, htrim1, htrim2, List.drop_succ_cons, List.drop_zero,
    List.head?_cons, Option.some.injEq, hdneg]
  simp [htrim2]

/-!
## Claims C1 and C6 about the locale amount parser
-/
/-- C1 (amended): `parseValor` disambiguates the decimal conventions as
follows.  (1) If both `.` and `,` appear and the right-most separator is
the comma (`digits[.digits]* , digits`), the comma is the decimal point
and the dots are thousands separators.  (2) Symmetrically with the dot as
the right-most separator, commas are thousands separators.  (3) If only a
comma appears, it is the decimal point exactly when followed by 1–2
digits, and a thousands separator otherwise.  In particular
`parseValor("1.234,56") = 1234.56` and `parseValor("1,234.56") = 1234.56`.
Amendment forced by the counterexample: `parseValor("1.234")` (no comma)
is `1.234` — a dot-only string undergoes no locale transformation, its dot
is the decimal point — not `1234` as the claim states. -/
theorem C1_parseValor_locale_disambiguation :
    (∀ (d : Char) (p f : Str), isDigitC d = true →
      (∀ c ∈ p, isDigitC c = true ∨ c = '.') → '.' ∈ p →
      (∀ c ∈ f, isDigitC c = true) →
      (parseValor ((d :: p) ++ ',' :: f)).map JQ.toRat
        = some ((digitsVal (removeAll '.' (d :: p)) : ℚ) + fracVal f))
    ∧ (∀ (d : Char) (p f : Str), isDigitC d = true →
      (∀ c ∈ p, isDigitC c = true ∨ c = ',') → ',' ∈ p →
      (∀ c ∈ f, isDigitC c = true) →
      (parseValor ((d :: p) ++ '.' :: f)).map JQ.toRat
        = some ((digitsVal (removeAll ',' (d :: p)) : ℚ) + fracVal f))
    ∧ (∀ (d : Char) (p f : Str), isDigitC d = true →
      (∀ c ∈ p, isDigitC c = true) → (∀ c ∈ f, isDigitC c = true) →
      (parseValor ((d :: p) ++ ',' :: f)).map JQ.toRat
        = if 1 ≤ f.length ∧ f.length ≤ 2
          then some ((digitsVal (d :: p) : ℚ) + fracVal f)
          else some ((digitsVal ((d :: p) ++ f) : ℚ)))
    ∧ (parseValor ("1.234,56".data)).map JQ.toRat = some (123456 / 100)
    ∧ (parseValor ("1,234.56".data)).map JQ.toRat = some (123456 / 100)
    ∧ (parseValor ("1.234".data)).map JQ.toRat = some (1234 / 1000) := by
  refine ⟨?_, ?_, ?_, ?sc1, ?sc2, ?sc3⟩
  case sc1 =>
    rw [show parseValor ("1.234,56".data) = some (JQ.mk' 123456 100) from by decide]
    simp only [Option.map_some']
    rw [JQ.toRat_mk' _ _ (by norm_num)]
    norm_num
  case sc2 =>
    rw [show parseValor ("1,234.56".data) = some (JQ.mk' 123456 100) from by decide]
    simp only [Option.map_some']
    rw [JQ.toRat_mk' _ _ (by norm_num)]
    norm_num
  case sc3 =>
    rw [show parseValor ("1.234".data) = some (JQ.mk' 1234 1000) from by decide]
    simp only [Option.map_some']
    rw [JQ.toRat_mk' _ _ (by norm_num)]
    norm_num
  · intro d p f hd hp hdot hf
    exact parseValor_br hd hp hdot hf
  · intro d p f hd hp hcom hf
    exact parseValor_us hd hp hcom hf
  · intro d p f hd hp hf
    rw [parseValor_comma_only hd hp hf]
    by_cases h0 : f.length ≤ 2
    · rw [if_pos h0]
      by_cases h1 : 1 ≤ f.length
      · rw [if_pos ⟨h1, h0⟩]
      · have hfe : f = [] := List.eq_nil_of_length_eq_zero (by omega)
        subst hfe
        rw [if_neg (by simp)]
        simp [fracVal, digitsVal_nil]
    · rw [if_neg h0, if_neg (fun hc => h0 hc.2)]

/-- C1, counterexample: the claim asserts `parseValor("1.234") = 1234`
(thousands separator); the code returns `1.234` — with no comma present no
locale transformation is applied and `parseFloat` reads the dot as a
decimal point. -/
theorem C1_counterexample :
    (parseValor ("1.234".data)).map JQ.toRat = some (1234 / 1000)
      ∧ (1234 / 1000 : ℚ) ≠ 1234 := by
  constructor
  · rw [show parseValor ("1.234".data) = some (JQ.mk' 1234 1000) from by decide]
    simp only [Option.map_some']
    rw [JQ.toRat_mk' _ _ (by norm_num)]
    norm_num
  · norm_num

/-- C1, witness: the three universally quantified parts of
`C1_parseValor_locale_disambiguation` instantiated at `"12.345,6"`,
`"12,345.6"` and `"1234,567"`. -/
theorem C1_witness :
    ((parseValor (('1' :: "2.345".data) ++ ',' :: "6".data)).map JQ.toRat
      = some ((digitsVal (removeAll '.' ('1' :: "2.345".data)) : ℚ) + fracVal "6".data))
    ∧ ((parseValor (('1' :: "2,345".data) ++ '.' :: "6".data)).map JQ.toRat
      = some ((digitsVal (removeAll ',' ('1' :: "2,345".data)) : ℚ) + fracVal "6".data))
    ∧ ((parseValor (('1' :: "234".data) ++ ',' :: "567".data)).map JQ.toRat
      = if 1 ≤ ("567".data).length ∧ ("567".data).length ≤ 2
        then some ((digitsVal ('1' :: "234".data) : ℚ) + fracVal "567".data)
        else some ((digitsVal (('1' :: "234".data) ++ "567".data) : ℚ))) :=
  ⟨C1_parseValor_locale_disambiguation.1 '1' "2.345".data "6".data
      (by decide) (by decide) (by decide) (by decide),
    C1_parseValor_locale_disambiguation.2.1 '1' "2,345".data "6".data
      (by decide) (by decide) (by decide) (by decide),
    C1_parseValor_locale_disambiguation.2.2.1 '1' "234".data "567".data
      (by decide) (by decide) (by decide)⟩

/-- C6: the amount parser is sign-consistent — for every decimal string
made of a leading digit followed by digits and separators (any string
convertible under either locale convention has this shape),
`parseValor("-" + s)` is the negation of `parseValor(s)`. -/
theorem C6_parseValor_sign_consistent (d : Char) (s : Str) (hd : isDigitC d = true)
    (hchars : ∀ c ∈ d :: s, isDigitC c = true ∨ c = '.' ∨ c = ',') :
    parseValor ('-' :: d :: s) = (parseValor (d :: s)).map (fun q => -q) :=
  parseValor_neg hd hchars

/-- C6, witness: sign consistency at `s = "1.234,56"`. -/
theorem C6_witness :
    parseValor ('-' :: '1' :: ".234,56".data)
      = (parseValor ('1' :: ".234,56".data)).map (fun q => -q) :=
  C6_parseValor_sign_consistent '1' ".234,56".data (by decide) (by decide)

/-!
## Claim C7: trailing debit/credit markers
-/
theorem head?_mem {l : Str} {a : Char} (h : l.head? = some a) : a ∈ l := by
  cases l with
  | nil => simp at h
  | cons x xs =>
    simp only [List.head?_cons, Option.some.injEq] at h
    simp [h]

theorem pdfAbsResult_neg (o : Option JQ) : pdfAbsResult true o = -(pdfAbsResult false o) := by
  cases o with
  | none => decide
  | some q => simp [pdfAbsResult]

theorem parseValorPdfFinish_neg (v : Str) :
    parseValorPdfFinish true v = -(parseValorPdfFinish false v) := by
  unfold parseValorPdfFinish
  split
  next h => exact pdfAbsResult_neg _
  next h => decide

theorem jsToUpper1_id_of_lt {c : Char} (h : c.toNat < 97) : jsToUpper1 c = c := by
  unfold jsToUpper1
  rw [if_neg (by omega), if_pos (by omega)]

theorem class_toNat_facts {c : Char} (h : isDigitC c = true ∨ c = '.' ∨ c = ',') :
    c.toNat = 44 ∨ c.toNat = 46 ∨ (48 ≤ c.toNat ∧ c.toNat ≤ 57) := by
  rcases h with h | h | h
  · simp only [isDigitC, Bool.and_eq_true, decide_eq_true_eq] at h
    omega
  · subst h; right; left; decide
  · subst h; left; decide

theorem class_ne {c d : Char} (h : isDigitC c = true ∨ c = '.' ∨ c = ',')
    (hd : d.toNat < 44 ∨ d.toNat = 45 ∨ d.toNat = 47 ∨ 57 < d.toNat) : c ≠ d := by
  rintro rfl
  rcases class_toNat_facts h with h1 | h1 | h1 <;> omega

theorem map_up_id {l : Str} (h : ∀ c ∈ l, isDigitC c = true ∨ c = '.' ∨ c = ',') :
    l.map jsToUpper1 = l := by
  induction l with
  | nil => rfl
  | cons c rest ih =>
    have hc : jsToUpper1 c = c := by
      refine jsToUpper1_id_of_lt ?_
      rcases class_toNat_facts (h c (by simp)) with h1 | h1 | h1 <;> omega
    simp only [List.map_cons, hc, ih fun c hc => h c (by simp [hc])]

theorem jsEndsWith_last (a : Char) (init : Str) (lst : Char) :
    jsEndsWith [a] (init ++ [lst]) = (a == lst) := by
  simp [jsEndsWith, List.isPrefixOf]

theorem jsEndsWith_word_last {word init : Str} {lst w0 : Char} {wr : Str}
    (hw : word.reverse = w0 :: wr) (h : w0 ≠ lst) :
    jsEndsWith word (init ++ [lst]) = false := by
  simp [jsEndsWith, hw, List.isPrefixOf, beq_eq_false_iff_ne.mpr h]

theorem dropTrailingWS_of {l : Str} (h : ∀ c ∈ l, isWS c = false) :
    dropTrailingWS l = l := by
  unfold dropTrailingWS
  rw [dropWhile_eq_self_of (by intro c hc; exact h c (by simpa using hc)), List.reverse_reverse]

theorem removeRSGo_false_id {l : Str} (h : 'R' ∉ l) : removeRSGo false l = l := by
  induction l with
  | nil => rfl
  | cons c rest ih =>
    simp only [List.mem_cons, not_or] at h
    have hco : ¬(c = 'R') := fun hh => h.1 hh.symm
    cases rest with
    | nil => rw [removeRSGo, if_neg (by simp)]
    | cons r1 rest2 =>
      rw [removeRSGo, if_neg (by simp), if_neg (by simp [hco])]
      rw [ih h.2]

theorem removeRS_id {l : Str} (h : 'R' ∉ l) : removeRS l = l :=
  removeRSGo_false_id h

/-- Shared preprocessing of the PDF `parseValor` on a separator-digit
string `s` optionally followed by a single marker letter: the trim,
character filter and `R$` removal all leave it unchanged. -/
theorem pdf_pre_id {s : Str} (hchars : ∀ c ∈ s, isDigitC c = true ∨ c = '.' ∨ c = ',')
    {t : Str} (hts : t = s ∨ ∃ x, (x = 'D' ∨ x = 'C') ∧ t = s ++ [x]) :
    jsTrim (removeRS ((jsTrim t).filter pdfKeepChar)) = t := by
  have hkeep : ∀ c ∈ t, pdfKeepChar c = true := by
    intro c hc
    have hc2 : (isDigitC c = true ∨ c = '.' ∨ c = ',') ∨ c = 'D' ∨ c = 'C' := by
      rcases hts with rfl | ⟨x, hx, rfl⟩
      · exact Or.inl (hchars c hc)
      · rcases List.mem_append.mp hc with h1 | h1
        · exact Or.inl (hchars c h1)
        · rcases hx with rfl | rfl <;> simp_all
    rcases hc2 with (h1 | h1 | h1) | h1 | h1 <;>
      simp [pdfKeepChar, h1]
  have hnws : ∀ c ∈ t, isWS c = false := by
    intro c hc
    have hc2 : (isDigitC c = true ∨ c = '.' ∨ c = ',') ∨ c = 'D' ∨ c = 'C' := by
      rcases hts with rfl | ⟨x, hx, rfl⟩
      · exact Or.inl (hchars c hc)
      · rcases List.mem_append.mp hc with h1 | h1
        · exact Or.inl (hchars c h1)
        · rcases hx with rfl | rfl <;> simp_all
    rcases hc2 with h1 | h1 | h1
    · exact digit_mem_not_WS (l := [c]) (by simpa using h1) c (by simp)
    · subst h1; decide
    · subst h1; decide
  have hR : 'R' ∉ t := by
    intro hm
    have hc2 : (isDigitC 'R' = true ∨ 'R' = '.' ∨ 'R' = ',') ∨ 'R' = 'D' ∨ 'R' = 'C' := by
      rcases hts with rfl | ⟨x, hx, rfl⟩
      · exact Or.inl (hchars _ hm)
      · rcases List.mem_append.mp hm with h1 | h1
        · exact Or.inl (hchars _ h1)
        · rcases hx with rfl | rfl <;> simp_all
    rcases hc2 with (h1 | h1 | h1) | h1 | h1 <;> simp_all [isDigitC]
  rw [jsTrim_eq_self hnws, List.filter_eq_self.mpr hkeep, removeRS_id hR,
    jsTrim_eq_self hnws]

/-- The marker stripper removes exactly an appended marker letter when the
preceding string has no whitespace and no letters. -/
theorem stripMarkerEnd_append {init : Str} {lst : Char} (m : Char) (word : Str)
    (hchars : ∀ c ∈ init ++ [lst], isDigitC c = true ∨ c = '.' ∨ c = ',')
    (hm : jsToUpper1 m = m) (hmws : isWS m = false)
    (hw : ∀ w0 wr, (word.reverse ++ [m]).map jsToUpper1 = w0 :: wr → (w0 == m) = false) :
    stripMarkerEnd m word ((init ++ [lst]) ++ [m]) = init ++ [lst] := by
  have hnws : ∀ c ∈ init ++ [lst], isWS c = false := digit_mem_not_WS hchars
  have hnwsM : ∀ c ∈ (init ++ [lst]) ++ [m], isWS c = false := by
    intro c hc
    rcases List.mem_append.mp hc with h1 | h1
    · exact hnws c h1
    · simp only [List.mem_singleton] at h1
      subst h1
      exact hmws
  have hrev : ((init ++ [lst]) ++ [m]).reverse = m :: (init ++ [lst]).reverse := by
    simp
  have huprev : (init ++ [lst]).reverse.map jsToUpper1 = (init ++ [lst]).reverse :=
    map_up_id (by intro c hc; exact hchars c (List.mem_reverse.mp hc))
  have hnwsrev : ∀ c ∈ (init ++ [lst]).reverse, isWS c = false := by
    intro c hc
    exact hnws c (List.mem_reverse.mp hc)
  have hne1 : (word.reverse ++ [m]).map jsToUpper1 ≠ [] := by simp
  obtain ⟨w0, wr, hw0⟩ := List.exists_cons_of_ne_nil hne1
  simp only [stripMarkerEnd]
  rw [dropTrailingWS_of hnwsM, hrev, List.map_cons, hm, huprev, hw0]
  rw [if_neg ?c1]
  case c1 =>
    simp only [List.isPrefixOf, Bool.and_eq_true]
    rw [hw w0 wr hw0]
    simp
  rw [if_pos (by simp [List.isPrefixOf])]
  simp only [List.drop_succ_cons, List.drop_zero]
  rw [dropWhile_eq_self_of hnwsrev, List.reverse_reverse]

/-- C7 (amended): the PDF statement parser's amount parser honours
trailing markers — for every decimal string `s` (digits with `.`/`,`
separators), a trailing `'D'` negates the parsed value and a trailing
`'C'` is a no-op.  (The ledger-text parser's `parseValor` does not handle
markers at all — see the counterexample.) -/
theorem C7_pdf_marker_semantics (s : Str) (hne : s ≠ [])
    (hchars : ∀ c ∈ s, isDigitC c = true ∨ c = '.' ∨ c = ',') :
    parseValorPdf (s ++ ['D']) = -(parseValorPdf s) ∧
      parseValorPdf (s ++ ['C']) = parseValorPdf s := by
  rcases List.eq_nil_or_concat s with rfl | ⟨init, lst, rfl⟩
  · exact absurd rfl hne
  rw [List.concat_eq_append] at hne hchars ⊢
  have hlst : isDigitC lst = true ∨ lst = '.' ∨ lst = ',' := hchars lst (by simp)
  have hnws : ∀ c ∈ init ++ [lst], isWS c = false := digit_mem_not_WS hchars
  have htrim : jsTrim (init ++ [lst]) = init ++ [lst] := jsTrim_eq_self hnws
  have hup : (init ++ [lst]).map jsToUpper1 = init ++ [lst] := map_up_id hchars
  -- facts used by the marker-free run: every branch test fails
  have hDlast : jsEndsWith ['D'] (init ++ [lst]) = false := by
    rw [jsEndsWith_last]
    exact beq_eq_false_iff_ne.mpr (Ne.symm (class_ne hlst (by decide)))
  have hDebRev : ("DÉBITO".data).reverse = 'O' :: ['T', 'I', 'B', 'É', 'D'] := by decide
  have hCredRev : ("CRÉDITO".data).reverse = 'O' :: ['T', 'I', 'D', 'É', 'R', 'C'] := by decide
  have hDebLast : jsEndsWith ("DÉBITO".data) (init ++ [lst]) = false :=
    jsEndsWith_word_last hDebRev (Ne.symm (class_ne hlst (by decide)))
  have hdashLast : jsEndsWith ['-'] (init ++ [lst]) = false := by
    rw [jsEndsWith_last]
    exact beq_eq_false_iff_ne.mpr (Ne.symm (class_ne hlst (by decide)))
  have hClast : jsEndsWith ['C'] (init ++ [lst]) = false := by
    rw [jsEndsWith_last]
    exact beq_eq_false_iff_ne.mpr (Ne.symm (class_ne hlst (by decide)))
  have hCredLast : jsEndsWith ("CRÉDITO".data) (init ++ [lst]) = false :=
    jsEndsWith_word_last hCredRev (Ne.symm (class_ne hlst (by decide)))
  have hhd : ¬((init ++ [lst]).head? = some '-') := by
    intro h
    rcases hchars '-' (head?_mem h) with h1 | h1 | h1
    · exact absurd h1 (by decide)
    · exact absurd h1 (by decide)
    · exact absurd h1 (by decide)
  have hpre : jsTrim (removeRS ((jsTrim (init ++ [lst])).filter pdfKeepChar))
      = init ++ [lst] := pdf_pre_id hchars (Or.inl rfl)
  have hbase : parseValorPdf (init ++ [lst]) = parseValorPdfFinish false (init ++ [lst]) := by
    simp only [parseValorPdf]
    rw [hpre, htrim, if_neg (by simp), hup]
    rw [if_neg (by simp [hDlast, hDebLast])]
    rw [if_neg (fun hcc => hcc.elim (fun h1 => by simp [hdashLast] at h1) hhd)]
    rw [if_neg (by simp [hClast, hCredLast])]
  -- the marker runs
  have hD : parseValorPdf ((init ++ [lst]) ++ ['D']) = parseValorPdfFinish true (init ++ [lst]) := by
    have hnwsD : ∀ c ∈ (init ++ [lst]) ++ ['D'], isWS c = false := by
      intro c hc
      rcases List.mem_append.mp hc with h1 | h1
      · exact hnws c h1
      · simp only [List.mem_singleton] at h1; subst h1; decide
    have htrimD : jsTrim ((init ++ [lst]) ++ ['D']) = (init ++ [lst]) ++ ['D'] :=
      jsTrim_eq_self hnwsD
    have hpreD : jsTrim (removeRS ((jsTrim ((init ++ [lst]) ++ ['D'])).filter pdfKeepChar))
        = (init ++ [lst]) ++ ['D'] := pdf_pre_id hchars (Or.inr ⟨'D', Or.inl rfl, rfl⟩)
    have hupD : ((init ++ [lst]) ++ ['D']).map jsToUpper1 = (init ++ [lst]) ++ ['D'] := by
      rw [List.map_append, hup]
      rfl
    have hendD : jsEndsWith ['D'] ((init ++ [lst]) ++ ['D']) = true := by
      rw [jsEndsWith_last]
      simp
    have hstripD : stripMarkerEnd 'D' ("ébito".data) ((init ++ [lst]) ++ ['D'])
        = init ++ [lst] := by
      refine stripMarkerEnd_append 'D' _ hchars (by decide) (by decide) ?_
      intro w0 wr h
      rw [show (("ébito".data.reverse ++ ['D']).map jsToUpper1)
        = 'O' :: ['T', 'I', 'B', 'É', 'D'] from by decide] at h
      injection h with h1 h2
      subst h1
      decide
    simp only [parseValorPdf]
    rw [hpreD, htrimD, if_neg (by simp), hupD]
    rw [if_pos (Or.inl hendD), hstripD, htrim]
  have hC : parseValorPdf ((init ++ [lst]) ++ ['C']) = parseValorPdfFinish false (init ++ [lst]) := by
    have hnwsC : ∀ c ∈ (init ++ [lst]) ++ ['C'], isWS c = false := by
      intro c hc
      rcases List.mem_append.mp hc with h1 | h1
      · exact hnws c h1
      · simp only [List.mem_singleton] at h1; subst h1; decide
    have htrimC : jsTrim ((init ++ [lst]) ++ ['C']) = (init ++ [lst]) ++ ['C'] :=
      jsTrim_eq_self hnwsC
    have hpreC : jsTrim (removeRS ((jsTrim ((init ++ [lst]) ++ ['C'])).filter pdfKeepChar))
        = (init ++ [lst]) ++ ['C'] := pdf_pre_id hchars (Or.inr ⟨'C', Or.inr rfl, rfl⟩)
    have hupC : ((init ++ [lst]) ++ ['C']).map jsToUpper1 = (init ++ [lst]) ++ ['C'] := by
      rw [List.map_append, hup]
      rfl
    have hendDC : jsEndsWith ['D'] ((init ++ [lst]) ++ ['C']) = false := by
      rw [jsEndsWith_last]
      decide
    have hendDebC : jsEndsWith ("DÉBITO".data) ((init ++ [lst]) ++ ['C']) = false :=
      jsEndsWith_word_last hDebRev (by decide)
    have hendDashC : jsEndsWith ['-'] ((init ++ [lst]) ++ ['C']) = false := by
      rw [jsEndsWith_last]
      decide
    have hhdC : ¬(((init ++ [lst]) ++ ['C']).head? = some '-') := by
      intro h
      have hm := head?_mem h
      rcases List.mem_append.mp hm with h1 | h1
      · rcases hchars '-' h1 with h2 | h2 | h2
        · exact absurd h2 (by decide)
        · exact absurd h2 (by decide)
        · exact absurd h2 (by decide)
      · simp at h1
    have hendC : jsEndsWith ['C'] ((init ++ [lst]) ++ ['C']) = true := by
      rw [jsEndsWith_last]
      simp
    have hstripC : stripMarkerEnd 'C' ("rédito".data) ((init ++ [lst]) ++ ['C'])
        = init ++ [lst] := by
      refine stripMarkerEnd_append 'C' _ hchars (by decide) (by decide) ?_
      intro w0 wr h
      rw [show (("rédito".data.reverse ++ ['C']).map jsToUpper1)
        = 'O' :: ['T', 'I', 'D', 'É', 'R', 'C'] from by decide] at h
      injection h with h1 h2
      subst h1
      decide
    simp only [parseValorPdf]
    rw [hpreC, htrimC, if_neg (by simp), hupC]
    rw [if_neg (fun hcc => hcc.elim
      (fun h1 => absurd h1 (by rw [hendDC]; simp))
      (fun h1 => absurd h1 (by rw [hendDebC]; simp)))]
    rw [if_neg (fun hcc => hcc.elim
      (fun h1 => absurd h1 (by rw [hendDashC]; simp)) hhdC)]
    rw [if_pos (Or.inl hendC), hstripC, htrim]
  exact ⟨by rw [hD, hbase, parseValorPdfFinish_neg], by rw [hC, hbase]⟩

/-- C7, counterexample: the ledger-text parser's `parseValor` (also cited
by the claim) does not implement marker handling — `parseValor("100.50D")`
is `100.5`, not `-100.5`; a trailing `D` neither negates nor errors, the
`D` is simply ignored by `parseFloat`. -/
theorem C7_counterexample :
    parseValor ("100.50D".data) = some (JQ.mk' 10050 100)
      ∧ (parseValor ("100.50".data)).map (fun q => -q) = some (JQ.mk' (-10050) 100)
      ∧ parseValor ("100.50D".data) ≠ (parseValor ("100.50".data)).map (fun q => -q)
      ∧ (JQ.mk' 10050 100).toRat = 201 / 2 := by
  refine ⟨by decide, by decide, by decide, ?_⟩
  rw [JQ.toRat_mk' _ _ (by norm_num)]
  norm_num

/-- C7, witness: marker semantics of the PDF parser at `s = "1.234,56"`. -/
theorem C7_witness :
    parseValorPdf ("1.234,56".data ++ ['D']) = -(parseValorPdf ("1.234,56".data)) ∧
      parseValorPdf ("1.234,56".data ++ ['C']) = parseValorPdf ("1.234,56".data) :=
  C7_pdf_marker_semantics ("1.234,56".data) (by decide) (by decide)

/-!
## Claims C4, C5 and C10 about the account validator
-/
theorem applyRules_all_sat {code : String} {all : List Regra} :
    ∀ {rules : List Regra}, (∀ r ∈ rules, satisfiesRule code r = true) →
      applyRules code all rules
        = ⟨"ok", "VALID", "Conta validada com sucesso", none, all.map fun r => r.id⟩ := by
  intro rules h
  induction rules with
  | nil => rfl
  | cons regra rest ih =>
    have hr := h regra (by simp)
    simp only [satisfiesRule, Bool.and_eq_true, Bool.not_eq_true'] at hr
    obtain ⟨⟨h1, h2⟩, h3⟩ := hr
    simp only [applyRules]
    rw [if_neg (by rw [h1]; simp), if_neg (by rw [h2]; simp),
      if_neg (by rw [Bool.not_eq_true', h3]; simp)]
    exact ih fun r hrr => h r (by simp [hrr])

theorem applyRules_viol {code : String} {all : List Regra} :
    ∀ {rules : List Regra}, (∃ r ∈ rules, satisfiesRule code r = false) →
      (applyRules code all rules).status = "invalid"
        ∧ (applyRules code all rules).reason_code = "RULE_VIOLATION" := by
  intro rules h
  induction rules with
  | nil => simp at h
  | cons regra rest ih =>
    by_cases hr : satisfiesRule code regra = true
    · have hrest : ∃ r ∈ rest, satisfiesRule code r = false := by
        obtain ⟨r, hrm, hrf⟩ := h
        rcases List.mem_cons.mp hrm with rfl | hm
        · rw [hr] at hrf
          simp at hrf
        · exact ⟨r, hm, hrf⟩
      have hr2 := hr
      simp only [satisfiesRule, Bool.and_eq_true, Bool.not_eq_true'] at hr2
      obtain ⟨⟨h1, h2⟩, h3⟩ := hr2
      simp only [applyRules]
      rw [if_neg (by rw [h1]; simp), if_neg (by rw [h2]; simp),
        if_neg (by rw [Bool.not_eq_true', h3]; simp)]
      exact ih hrest
    · simp only [applyRules]
      by_cases hbc : regra.blocked_account_codes.contains code = true
      · rw [if_pos hbc]
        exact ⟨rfl, rfl⟩
      · rw [if_neg hbc]
        by_cases hbp : (regra.blocked_account_prefixes.any fun pfx => code.startsWith pfx) = true
        · rw [if_pos hbp]
          exact ⟨rfl, rfl⟩
        · rw [if_neg hbp]
          have hal : (regra.allowed_account_codes.contains code ||
              regra.allowed_account_prefixes.any fun pfx => code.startsWith pfx) = false := by
            cases hAll : (regra.allowed_account_codes.contains code ||
                regra.allowed_account_prefixes.any fun pfx => code.startsWith pfx) with
            | false => rfl
            | true =>
              exfalso
              exact hr (by
                simp only [satisfiesRule, Bool.and_eq_true, Bool.not_eq_true']
                exact ⟨⟨by simpa using hbc, by simpa using hbp⟩, hAll⟩)
          rw [if_pos (by rw [Bool.not_eq_true', hal])]
          exact ⟨rfl, rfl⟩

/-- C4: account-rule validation is a conjunction over all matching rules —
with a non-blank code and `N > 0` matching rules, the verdict is `ok` iff
the code satisfies every rule, and any single violated rule forces
`invalid` with reason `RULE_VIOLATION`. -/
theorem C4_account_rule_conjunction (code : String) (rules : List Regra)
    (hcode : jsTrimS code ≠ "") (hrules : rules ≠ []) :
    ((validateAccountAgainstRules code rules).status = "ok"
      ↔ ∀ r ∈ rules, satisfiesRule (jsTrimS code) r = true)
    ∧ ((∃ r ∈ rules, satisfiesRule (jsTrimS code) r = false)
      → (validateAccountAgainstRules code rules).status = "invalid"
        ∧ (validateAccountAgainstRules code rules).reason_code = "RULE_VIOLATION") := by
  have hv : validateAccountAgainstRules code rules = applyRules (jsTrimS code) rules rules := by
    rw [validateAccountAgainstRules, if_neg hcode, if_neg (by simp [hrules])]
  rw [hv]
  constructor
  · constructor
    · intro hok
      by_contra hc
      push_neg at hc
      obtain ⟨r, hm, hf⟩ := hc
      have hviol := @applyRules_viol (jsTrimS code) rules rules ⟨r, hm, by simpa using hf⟩
      rw [hviol.1] at hok
      exact absurd hok (by decide)
    · intro hall
      rw [applyRules_all_sat hall]
  · exact applyRules_viol

/-- C4, witness: code `"1.1.9"` against two matching rules, the first
satisfied (allowed prefix `1.`), the second violated (blocked prefix
`1.1.`): the verdict is `invalid / RULE_VIOLATION`. -/
theorem C4_witness :
    ((validateAccountAgainstRules "1.1.9"
        [⟨1, "r1", "event_type", "PAGAMENTO", ["1."], [], [], [], "error", none, true⟩,
         ⟨2, "r2", "event_type", "PAGAMENTO", ["1."], [], ["1.1."], [], "error", none, true⟩]).status = "ok"
      ↔ ∀ r ∈ [(⟨1, "r1", "event_type", "PAGAMENTO", ["1."], [], [], [], "error", none, true⟩ : Regra),
         ⟨2, "r2", "event_type", "PAGAMENTO", ["1."], [], ["1.1."], [], "error", none, true⟩],
          satisfiesRule (jsTrimS "1.1.9") r = true)
    ∧ ((∃ r ∈ [(⟨1, "r1", "event_type", "PAGAMENTO", ["1."], [], [], [], "error", none, true⟩ : Regra),
         ⟨2, "r2", "event_type", "PAGAMENTO", ["1."], [], ["1.1."], [], "error", none, true⟩],
          satisfiesRule (jsTrimS "1.1.9") r = false)
      → (validateAccountAgainstRules "1.1.9"
          [⟨1, "r1", "event_type", "PAGAMENTO", ["1."], [], [], [], "error", none, true⟩,
           ⟨2, "r2", "event_type", "PAGAMENTO", ["1."], [], ["1.1."], [], "error", none, true⟩]).status = "invalid"
        ∧ (validateAccountAgainstRules "1.1.9"
          [⟨1, "r1", "event_type", "PAGAMENTO", ["1."], [], [], [], "error", none, true⟩,
           ⟨2, "r2", "event_type", "PAGAMENTO", ["1."], [], ["1.1."], [], "error", none, true⟩]).reason_code
            = "RULE_VIOLATION") :=
  C4_account_rule_conjunction "1.1.9" _ (by decide) (by simp)

theorem dropWhile_head_not {p : Char → Bool} :
    ∀ {l : Str} {a : Char}, (l.dropWhile p).head? = some a → p a = false := by
  intro l
  induction l with
  | nil => intro a h; simp [List.dropWhile] at h
  | cons x xs ih =>
    intro a h
    by_cases hx : p x = true
    · rw [List.dropWhile_cons, if_pos hx] at h
      exact ih h
    · rw [List.dropWhile_cons, if_neg hx] at h
      simp only [List.head?_cons, Option.some.injEq] at h
      subst h
      simpa using hx

theorem dropWhile_eq_self_of_head {p : Char → Bool} {l : Str}
    (h : ∀ a, l.head? = some a → p a = false) : l.dropWhile p = l := by
  cases l with
  | nil => rfl
  | cons x xs => rw [List.dropWhile_cons, if_neg (by simp [h x rfl])]

theorem getLast?_dropWhile {p : Char → Bool} :
    ∀ {l : Str}, l.dropWhile p ≠ [] → (l.dropWhile p).getLast? = l.getLast? := by
  intro l
  induction l with
  | nil => intro h; simp [List.dropWhile] at h
  | cons x xs ih =>
    intro h
    by_cases hx : p x = true
    · rw [List.dropWhile_cons, if_pos hx] at h ⊢
      rw [ih h]
      have hxs : xs ≠ [] := by
        intro he
        subst he
        simp [List.dropWhile] at h
      rcases xs with _ | ⟨y, ys⟩
      · exact absurd rfl hxs
      · rw [List.getLast?_cons_cons]
    · rw [List.dropWhile_cons, if_neg hx]

theorem jsTrim_head_false {l : Str} {a : Char} (h : (jsTrim l).head? = some a) :
    isWS a = false := by
  unfold jsTrim at h
  rw [List.head?_reverse] at h
  have hne : (l.dropWhile isWS).reverse.dropWhile isWS ≠ [] := by
    intro he
    rw [he] at h
    simp at h
  rw [getLast?_dropWhile hne, List.getLast?_reverse] at h
  exact dropWhile_head_not h

theorem jsTrim_last_false {l : Str} {a : Char} (h : (jsTrim l).getLast? = some a) :
    isWS a = false := by
  unfold jsTrim at h
  rw [List.getLast?_reverse] at h
  exact dropWhile_head_not h

theorem jsTrim_idem (l : Str) : jsTrim (jsTrim l) = jsTrim l := by
  conv_lhs => rw [jsTrim]
  rw [dropWhile_eq_self_of_head fun a ha => jsTrim_head_false ha]
  rw [dropWhile_eq_self_of_head fun a ha =>
    jsTrim_last_false (by rw [List.head?_reverse] at ha; exact ha)]
  rw [List.reverse_reverse]

theorem jsTrimS_idem (s : String) : jsTrimS (jsTrimS s) = jsTrimS s := by
  unfold jsTrimS
  rw [show (⟨jsTrim s.data⟩ : String).data = jsTrim s.data from rfl, jsTrim_idem]

/-- Each result row of the validator loop is the loop body applied to the
transaction at the same position. -/
theorem valGo_result_get (cid : ℕ) (source : String) (db : Db) :
    ∀ (lancs : List Lancamento) (j ok inv unk idx : ℕ),
      ((valGo cid source db ok inv unk idx lancs).2)[j]?
        = (lancs[j]?).map fun l => processLancamento cid source db (idx + j) l := by
  intro lancs
  induction lancs with
  | nil => intro j ok inv unk idx; simp [valGo]
  | cons l rest ih =>
    intro j ok inv unk idx
    simp only [valGo]
    cases j with
    | zero => simp
    | succ j2 =>
      simp only [List.getElem?_cons_succ]
      have harith : idx + 1 + j2 = idx + (j2 + 1) := by omega
      split_ifs <;> rw [ih, harith]

/-- C5: per-transaction classification of `validateLancamentosAccounts` —
a blank account code yields `unknown / MISSING_ACCOUNT_CODE`; a non-blank
code absent from the active chart of accounts for the given source yields
`invalid / ACCOUNT_NOT_FOUND`; a found code with no matching enabled rule
yields `unknown / NO_RULE_MATCH`. -/
theorem C5_validator_classification (cid : ℕ) (lancs : List Lancamento) (source : String)
    (db : Db) (j : ℕ) (l : Lancamento) (r : AVResult)
    (hl : lancs[j]? = some l)
    (hr : ((validateLancamentosAccounts cid lancs source db).2)[j]? = some r) :
    (isBlankCode (accountCodeOf l) = true →
      r.status = "unknown" ∧ r.reason_code = "MISSING_ACCOUNT_CODE")
    ∧ (isBlankCode (accountCodeOf l) = false →
      validateAccountExists (jsTrimS ((accountCodeOf l).getD "")) source db = false →
      r.status = "invalid" ∧ r.reason_code = "ACCOUNT_NOT_FOUND")
    ∧ (isBlankCode (accountCodeOf l) = false →
      validateAccountExists (jsTrimS ((accountCodeOf l).getD "")) source db = true →
      findMatchingRules l db = [] →
      r.status = "unknown" ∧ r.reason_code = "NO_RULE_MATCH") := by
  have hres : r = processLancamento cid source db j l := by
    have hv := valGo_result_get cid source db lancs j 0 0 0 0
    rw [validateLancamentosAccounts] at hr
    simp only at hr
    rw [hv, hl] at hr
    simp only [Option.map_some', Option.some.injEq, Nat.zero_add] at hr
    exact hr.symm
  subst hres
  refine ⟨?_, ?_, ?_⟩
  · intro hb
    simp only [processLancamento]
    rw [if_pos hb]
    exact ⟨rfl, rfl⟩
  · intro hb hex
    simp only [processLancamento]
    rw [if_neg (by rw [hb]; simp), if_pos hex]
    exact ⟨rfl, rfl⟩
  · intro hb hex hrule
    simp only [processLancamento]
    rw [if_neg (by rw [hb]; simp), if_neg (by rw [hex]; simp), hrule]
    have hcode : jsTrimS (jsTrimS ((accountCodeOf l).getD "")) ≠ "" := by
      rcases hao : accountCodeOf l with _ | s
      · rw [hao] at hb
        simp [isBlankCode] at hb
      · rw [hao] at hb
        simp only [isBlankCode, beq_eq_false_iff_ne, ne_eq] at hb
        simpa [jsTrimS_idem] using hb
    rw [validateAccountAgainstRules, if_neg hcode,
      if_pos (show ([] : List Regra).length = 0 from rfl)]
    exact ⟨rfl, rfl⟩

/-- C5, witness: a ledger transaction with code `"9.9.9"` against a chart
lacking that code is classified `invalid / ACCOUNT_NOT_FOUND`. -/
theorem C5_witness :
    ((((validateLancamentosAccounts 7
        [⟨"2024-03-01", "aluguel", none, JQ.mk' (-15000) 100, none, none, "otimiza",
          some "9.9.9", none, none, none⟩] "otimiza"
        ⟨[⟨"1.1.1", "Caixa", "otimiza", true⟩], []⟩).2).getD 0
          ⟨0, ⟨"", JQ.mk' 0 1, 0⟩, "", "", "", ""⟩).status = "invalid")
    ∧ ((((validateLancamentosAccounts 7
        [⟨"2024-03-01", "aluguel", none, JQ.mk' (-15000) 100, none, none, "otimiza",
          some "9.9.9", none, none, none⟩] "otimiza"
        ⟨[⟨"1.1.1", "Caixa", "otimiza", true⟩], []⟩).2).getD 0
          ⟨0, ⟨"", JQ.mk' 0 1, 0⟩, "", "", "", ""⟩).reason_code = "ACCOUNT_NOT_FOUND") :=
  (C5_validator_classification 7
    [⟨"2024-03-01", "aluguel", none, JQ.mk' (-15000) 100, none, none, "otimiza",
      some "9.9.9", none, none, none⟩] "otimiza"
    ⟨[⟨"1.1.1", "Caixa", "otimiza", true⟩], []⟩ 0
    ⟨"2024-03-01", "aluguel", none, JQ.mk' (-15000) 100, none, none, "otimiza",
      some "9.9.9", none, none, none⟩
    (((validateLancamentosAccounts 7
      [⟨"2024-03-01", "aluguel", none, JQ.mk' (-15000) 100, none, none, "otimiza",
        some "9.9.9", none, none, none⟩] "otimiza"
      ⟨[⟨"1.1.1", "Caixa", "otimiza", true⟩], []⟩).2).getD 0
        ⟨0, ⟨"", JQ.mk' 0 1, 0⟩, "", "", "", ""⟩)
    (by rfl) (by rfl)).2.1 (by decide) (by decide)

/-- The counters of the validator loop partition the processed
transactions, and one result row is emitted per transaction. -/
theorem valGo_counts (cid : ℕ) (source : String) (db : Db) :
    ∀ (lancs : List Lancamento) (ok inv unk idx : ℕ),
      (valGo cid source db ok inv unk idx lancs).1.1
          + (valGo cid source db ok inv unk idx lancs).1.2.1
          + (valGo cid source db ok inv unk idx lancs).1.2.2
        = ok + inv + unk + lancs.length
      ∧ (valGo cid source db ok inv unk idx lancs).2.length = lancs.length := by
  intro lancs
  induction lancs with
  | nil => intro ok inv unk idx; simp [valGo]
  | cons l rest ih =>
    intro ok inv unk idx
    simp only [valGo, List.length_cons]
    split_ifs <;>
      · obtain ⟨hc, hl⟩ := ih _ _ _ (idx + 1)
        constructor
        · rw [hc]; omega
        · simp [hl]

/-- C10: `validateLancamentosAccounts` classifies each transaction into
exactly one status — the summary satisfies `total = |input|` and
`ok + invalid + unknown = total`, and exactly one validation result is
persisted per input transaction. -/
theorem C10_validator_partition (cid : ℕ) (lancs : List Lancamento) (source : String)
    (db : Db) :
    (validateLancamentosAccounts cid lancs source db).1.total = lancs.length
    ∧ (validateLancamentosAccounts cid lancs source db).1.ok
        + (validateLancamentosAccounts cid lancs source db).1.invalid
        + (validateLancamentosAccounts cid lancs source db).1.unknown
      = (validateLancamentosAccounts cid lancs source db).1.total
    ∧ ((validateLancamentosAccounts cid lancs source db).2).length = lancs.length := by
  obtain ⟨hc, hl⟩ := valGo_counts cid source db lancs 0 0 0 0
  refine ⟨rfl, ?_, ?_⟩
  · simpa using hc
  · simpa using hl

/-!
## Claim C2: strict reconciliation double-reports a mismatched pair

`detectarValorDiferente` records the pair in its own `casados` set, but
`compararPorDataValor` seeds its not-yet-matched index sets with *all*
indices and only consults `casados` to skip candidate pairings — it never
removes the members of an already-reported pair from those sets.  A pair
reported as `VALOR_DIFERENTE` therefore additionally surfaces as one
`NAO_ENCONTRADO_DOMINIO` and one `NAO_ENCONTRADO_EXTRATO` divergence.
-/
/-- C2: on the spec's own scenario — statement
`{2024-03-01, "NF100", -155.00}` against ledger
`{2024-03-01, "NF100", -150.00}` with tolerance `0.01` —
`compararLancamentos` emits the `VALOR_DIFERENTE` divergence (with a
difference of exactly `5.00`) **and** a missing-in-ledger and a
missing-in-statement divergence for the same two transactions, refuting
the claim that a pair reported as a value mismatch is consumed and
appears in no further divergence. -/
theorem C2_pair_reported_three_times :
    ((compararLancamentos
        [⟨"2024-03-01", "pagamento fornecedor", some "NF100", JQ.mk' (-15500) 100,
          none, none, "mpds", none, none, none, none⟩]
        [⟨"2024-03-01", "pagamento fornecedor", some "NF100", JQ.mk' (-15000) 100,
          none, none, "dominio", none, none, none, none⟩]
        (JQ.mk' 1 100) 0).map (fun d => d.tipo)
      = ["VALOR_DIFERENTE", "NAO_ENCONTRADO_DOMINIO", "NAO_ENCONTRADO_EXTRATO"])
    ∧ ((compararLancamentos
        [⟨"2024-03-01", "pagamento fornecedor", some "NF100", JQ.mk' (-15500) 100,
          none, none, "mpds", none, none, none, none⟩]
        [⟨"2024-03-01", "pagamento fornecedor", some "NF100", JQ.mk' (-15000) 100,
          none, none, "dominio", none, none, none, none⟩]
        (JQ.mk' 1 100) 0).map (fun d => (d.valor_extrato, d.valor_dominio))
      = [(some (JQ.mk' (-15500) 100), some (JQ.mk' (-15000) 100)),
          (some (JQ.mk' (-15500) 100), none),
          (none, some (JQ.mk' (-15000) 100))])
    ∧ JQ.eqv (JQ.abs (JQ.mk' (-15500) 100 - JQ.mk' (-15000) 100)) (JQ.ofInt 5) :=
  ⟨rfl, rfl, by decide⟩

/-!
## Claim C3: the fuzzy matcher respects the date window and tolerance
-/
theorem JQ.not_lt {a b : JQ} : ¬ a < b ↔ b ≤ a := by
  show ¬ JQ.lt a b ↔ JQ.le b a
  unfold JQ.lt JQ.le
  omega

theorem c3StepRest_cases (w : ℤ) (tol minSim : JQ) (movBank movTxt : Lancamento)
    (dd : Option ℤ) (st : JQ × Option MM) (idxTxt : ℕ) :
    (c3StepRest w tol minSim movBank movTxt dd st idxTxt).2 = st.2 ∨
    (∃ d, dd = some d ∧
      (∃ s, (c3StepRest w tol minSim movBank movTxt dd st idxTxt).2 =
        some ⟨idxTxt, d, JQ.abs (movBank.valor - movTxt.valor), s⟩) ∧
      JQ.abs (movBank.valor - movTxt.valor) ≤ tol) := by
  simp only [c3StepRest]
  split
  · exact Or.inl rfl
  next h1 =>
    split
    · exact Or.inl rfl
    cases dd with
    | none => exact Or.inl rfl
    | some d =>
      cases hsc : c3Score w (similarity movBank.descricao movTxt.descricao) d
          (JQ.abs (movBank.valor - movTxt.valor)) (JQ.abs movBank.valor) with
      | none => simp [hsc]
      | some score =>
        simp only [hsc]
        split
        · exact Or.inr ⟨d, rfl, ⟨_, rfl⟩, JQ.not_lt.mp h1⟩
        · exact Or.inl rfl

theorem c3Step_cases (w : ℤ) (tol minSim : JQ) (amo : Bool) (casT : List ℕ)
    (movBank : Lancamento) (st : JQ × Option MM) (p : ℕ × Lancamento) :
    (c3Step w tol minSim amo casT movBank st p).2 = st.2 ∨
    (∃ a b, parseDateStr movBank.data = some a ∧ parseDateStr p.2.data = some b ∧
      |a - b| ≤ w ∧
      (∃ m, (c3Step w tol minSim amo casT movBank st p).2 = some m ∧ m.idxTxt = p.1) ∧
      JQ.abs (movBank.valor - p.2.valor) ≤ tol) := by
  simp only [c3Step]
  split
  · exact Or.inl rfl
  cases ha : parseDateStr movBank.data with
  | none =>
    simp only [ha]
    rcases c3StepRest_cases w tol minSim movBank p.2 none st p.1 with h | ⟨d, hd, _⟩
    · exact Or.inl h
    · exact absurd hd (by simp)
  | some a =>
    cases hb : parseDateStr p.2.data with
    | none =>
      simp only [ha, hb]
      rcases c3StepRest_cases w tol minSim movBank p.2 none st p.1 with h | ⟨d, hd, _⟩
      · exact Or.inl h
      · exact absurd hd (by simp)
    | some b =>
      simp only [ha, hb]
      split
      · exact Or.inl rfl
      next hw =>
        rcases c3StepRest_cases w tol minSim movBank p.2 (some |a - b|) st p.1 with
          h | ⟨d, hd, ⟨s, hm⟩, htol⟩
        · exact Or.inl h
        · refine Or.inr ⟨a, b, rfl, rfl, Int.not_lt.mp hw, ⟨_, hm, ?_⟩, htol⟩
          cases hd
          rfl

theorem c3Fold_good (w : ℤ) (tol minSim : JQ) (amo : Bool) (casT : List ℕ)
    (movBank : Lancamento) (txt : List Lancamento) :
    ∀ (ps : List (ℕ × Lancamento)) (st : JQ × Option MM),
      (∀ q ∈ ps, txt[q.1]? = some q.2) →
      (∀ m, st.2 = some m → c3Good w tol movBank txt m) →
      ∀ m, (ps.foldl (c3Step w tol minSim amo casT movBank) st).2 = some m →
        c3Good w tol movBank txt m
  | [], st, _, hst, m, hm => hst m hm
  | q :: ps, st, hq, hst, m, hm => by
    refine c3Fold_good w tol minSim amo casT movBank txt ps
      (c3Step w tol minSim amo casT movBank st q)
      (fun r hr => hq r (List.mem_cons_of_mem _ hr)) ?_ m hm
    intro m' hm'
    rcases c3Step_cases w tol minSim amo casT movBank st q with h | h
    · exact hst m' (h ▸ hm')
    · rcases h with ⟨a, b, hpa, hpb, hab, ⟨m'', hm'', hidx⟩, htol⟩
      rw [hm'] at hm''
      cases hm''
      exact ⟨q.2, a, b, by rw [hidx]; exact hq q (List.mem_cons_self q ps), hpa, hpb,
        hab, htol⟩

theorem c3OuterFold_good (w : ℤ) (tol minSim : JQ) (amo : Bool)
    (bank txt : List Lancamento) :
    ∀ (ps : List (ℕ × Lancamento))
      (st : List ℕ × List ℕ × List Div × List (ℕ × ℕ)),
      (∀ q ∈ ps, bank[q.1]? = some q.2) →
      (∀ ij ∈ st.2.2.2, c3GoodPair w tol bank txt ij) →
      ∀ ij ∈ (ps.foldl (c3Outer w tol minSim amo txt) st).2.2.2,
        c3GoodPair w tol bank txt ij
  | [], st, _, hst, ij, hij => hst ij hij
  | q :: ps, st, hq, hst, ij, hij => by
    refine c3OuterFold_good w tol minSim amo bank txt ps
      (c3Outer w tol minSim amo txt st q)
      (fun r hr => hq r (List.mem_cons_of_mem _ hr)) ?_ ij hij
    intro ij' hij'
    revert hij'
    simp only [c3Outer]
    split
    · exact fun h => hst ij' h
    cases hfold : (txt.enum.foldl (c3Step w tol minSim amo st.2.1 q.2)
        (JQ.ofInt 0, none)).2 with
    | none => exact fun h => hst ij' h
    | some m =>
      intro h
      rcases List.mem_append.mp h with h' | h'
      · exact hst ij' h'
      · have hgood : c3Good w tol q.2 txt m :=
          c3Fold_good w tol minSim amo st.2.1 q.2 txt txt.enum (JQ.ofInt 0, none)
            (fun r hr => List.mem_enum_iff_getElem?.mp hr)
            (fun m' hm' => absurd hm' (by simp)) m hfold
        rcases List.mem_singleton.mp h' with rfl
        rcases hgood with ⟨t, db, dt, ht, hdb, hdt, hab, htol⟩
        exact ⟨q.2, t, db, dt, hq q (List.mem_cons_self q ps), ht, hdb, hdt, hab, htol⟩

/-- C3: `compareBankVsTxt` never pairs a bank movement with a TXT
movement whose date distance exceeds `dateWindowDays` or whose amount
distance exceeds `amountTolerance` — every recorded pair `(i, j)` points
at movements whose dates both parse, whose civil-day distance is within
the window and whose amount difference is within the tolerance,
whatever the description similarity. -/
theorem C3_fuzzy_match_respects_windows (bank txt : List Lancamento) (w : ℤ)
    (tol minSim : JQ) (amo : Bool) (i j : ℕ)
    (h : (i, j) ∈ (compareBankVsTxt bank txt w tol minSim amo).2) :
    ∃ b t db dt, bank[i]? = some b ∧ txt[j]? = some t ∧
      parseDateStr b.data = some db ∧ parseDateStr t.data = some dt ∧
      |db - dt| ≤ w ∧ (JQ.abs (b.valor - t.valor)).toRat ≤ tol.toRat := by
  have h' : (i, j) ∈ (bank.enum.foldl (c3Outer w tol minSim amo txt)
      ([], [], [], [])).2.2.2 := h
  have := c3OuterFold_good w tol minSim amo bank txt bank.enum ([], [], [], [])
    (fun r hr => List.mem_enum_iff_getElem?.mp hr) (fun ij hij => absurd hij (by simp))
    (i, j) h'
  rcases this with ⟨b, t, db, dt, hb, ht, hdb, hdt, hab, htol⟩
  exact ⟨b, t, db, dt, hb, ht, hdb, hdt, hab, JQ.le_iff.mp htol⟩

/-- C3, witness: a one-against-one run with equal descriptions, dates one
day apart inside the window and equal amounts records the pair `(0, 0)`,
and the theorem's bounds hold there. -/
theorem C3_witness :
    ((0, 0) ∈ (compareBankVsTxt
      [⟨"2024-03-01", "recebimento cliente", none, JQ.mk' 10000 100, none, none,
        "mpds", none, none, none, none⟩]
      [⟨"2024-03-02", "recebimento cliente", none, JQ.mk' 10000 100, none, none,
        "otimiza", none, none, none, none⟩]
      2 (JQ.mk' 1 100) (JQ.mk' 55 100) true).2)
    ∧ (∃ b t db dt,
        ([⟨"2024-03-01", "recebimento cliente", none, JQ.mk' 10000 100, none, none,
          "mpds", none, none, none, none⟩] : List Lancamento)[0]? = some b ∧
        ([⟨"2024-03-02", "recebimento cliente", none, JQ.mk' 10000 100, none, none,
          "otimiza", none, none, none, none⟩] : List Lancamento)[0]? = some t ∧
        parseDateStr b.data = some db ∧ parseDateStr t.data = some dt ∧
        |db - dt| ≤ 2 ∧ (JQ.abs (b.valor - t.valor)).toRat ≤ (JQ.mk' 1 100).toRat) :=
  ⟨by decide,
    C3_fuzzy_match_respects_windows
      [⟨"2024-03-01", "recebimento cliente", none, JQ.mk' 10000 100, none, none,
        "mpds", none, none, none, none⟩]
      [⟨"2024-03-02", "recebimento cliente", none, JQ.mk' 10000 100, none, none,
        "otimiza", none, none, none, none⟩]
      2 (JQ.mk' 1 100) (JQ.mk' 55 100) true 0 0 (by decide)⟩

theorem pushNonzero_keep {v : Option JQ} {l0 l : RLanc}
    (h : pushNonzero v l0 = .keep l) : l = l0 ∧ zeroJS v = false := by
  unfold pushNonzero at h
  split at h
  · cases h
  · next hnz =>
      cases h
      exact ⟨rfl, Bool.eq_false_iff.mpr hnz⟩

theorem zeroJS_false {v : Option JQ} (h : zeroJS v = false) :
    ∀ q, v = some q → ¬ JQ.eqv q 0 := by
  intro q hq
  subst hq
  simpa [zeroJS] using h

theorem pushNonzero_keep_valor {v : Option JQ} {l0 l : RLanc}
    (h : pushNonzero v l0 = .keep l) (hv : l0.valor = v) : nzValor l := by
  obtain ⟨rfl, hz⟩ := pushNonzero_keep h
  intro q hq
  exact zeroJS_false hz q (hv ▸ hq)

theorem otDelim_keep {refYear numLinha : ℕ} {partes : List Str} {l : RLanc}
    (h : otDelim refYear numLinha partes = .keep l) : nzValor l := by
  unfold otDelim at h
  simp only [] at h
  split at h
  · cases h
  split at h
  · cases h
  exact pushNonzero_keep_valor h rfl

theorem otLine_keep {refYear numLinha : ℕ} {linha : Str} {l : RLanc}
    (h : otLine refYear numLinha linha = .keep l) : nzValor l := by
  unfold otLine at h
  simp only [] at h
  split at h
  · cases h
  split at h
  · cases h
  split at h
  · split at h
    · exact otDelim_keep h
    · cases h
  · split at h
    · cases h
    split at h
    · cases h
    exact pushNonzero_keep_valor h rfl

theorem otGo_nz (refYear : ℕ) (strict : Bool) :
    ∀ (ls : List Str) (n : ℕ) (lancs : List RLanc) (iss : List String)
      (L : List RLanc) (I : List String),
      (∀ l ∈ lancs, nzValor l) →
      otGo refYear strict n ls lancs iss = .ok (L, I) → ∀ l ∈ L, nzValor l
  | [], n, lancs, iss, L, I, hinv, h, l, hl => by
    cases h
    exact hinv l hl
  | linha :: rest, n, lancs, iss, L, I, hinv, h, l, hl => by
    rw [otGo] at h
    cases hline : otLine refYear n linha with
    | skip =>
      simp only [hline] at h
      exact otGo_nz refYear strict rest (n + 1) lancs iss L I hinv h l hl
    | keep l0 =>
      simp only [hline] at h
      refine otGo_nz refYear strict rest (n + 1) (lancs ++ [l0]) iss L I ?_ h l hl
      intro x hx
      rcases List.mem_append.mp hx with hx | hx
      · exact hinv x hx
      · rcases List.mem_singleton.mp hx with rfl
        exact otLine_keep hline
    | issue msg =>
      simp only [hline] at h
      split at h
      · cases h
      · exact otGo_nz refYear strict rest (n + 1) lancs (iss ++ [msg]) L I hinv h l hl

theorem csvRow_keep {refYear headersLen colData colDesc : ℕ}
    {colValor colDeb colCred colDoc colSaldo : Option ℕ} {numLinha : ℕ}
    {row : List String} {l : RLanc}
    (h : csvRow refYear headersLen colData colDesc colValor colDeb colCred colDoc
      colSaldo numLinha row = .keep l) : nzValor l := by
  unfold csvRow at h
  simp only [] at h
  split at h
  · cases h
  split at h
  · cases h
  split at h
  · cases h
  split at h
  · cases h
  split at h
  · cases h
  exact pushNonzero_keep_valor h rfl

theorem csvGo_nz (refYear headersLen colData colDesc : ℕ)
    (colValor colDeb colCred colDoc colSaldo : Option ℕ) (strict : Bool) :
    ∀ (rows : List (List String)) (n : ℕ) (lancs : List RLanc) (iss : List String)
      (L : List RLanc) (I : List String),
      (∀ l ∈ lancs, nzValor l) →
      csvGo refYear headersLen colData colDesc colValor colDeb colCred colDoc colSaldo
        strict n rows lancs iss = .ok (L, I) → ∀ l ∈ L, nzValor l
  | [], n, lancs, iss, L, I, hinv, h, l, hl => by
    cases h
    exact hinv l hl
  | row :: rest, n, lancs, iss, L, I, hinv, h, l, hl => by
    rw [csvGo] at h
    cases hline : csvRow refYear headersLen colData colDesc colValor colDeb colCred
        colDoc colSaldo n row with
    | skip =>
      simp only [hline] at h
      exact csvGo_nz refYear headersLen colData colDesc colValor colDeb colCred colDoc
        colSaldo strict rest (n + 1) lancs iss L I hinv h l hl
    | keep l0 =>
      simp only [hline] at h
      refine csvGo_nz refYear headersLen colData colDesc colValor colDeb colCred colDoc
        colSaldo strict rest (n + 1) (lancs ++ [l0]) iss L I ?_ h l hl
      intro x hx
      rcases List.mem_append.mp hx with hx | hx
      · exact hinv x hx
      · rcases List.mem_singleton.mp hx with rfl
        exact csvRow_keep hline
    | issue msg =>
      simp only [hline] at h
      split at h
      · cases h
      · exact csvGo_nz refYear headersLen colData colDesc colValor colDeb colCred colDoc
          colSaldo strict rest (n + 1) lancs (iss ++ [msg]) L I hinv h l hl

theorem parseMpdsCsv_nz {refYear : ℕ} {headers : List String}
    {rows : List (List String)} {strict : Bool} {L : List RLanc} {I : List String}
    (h : parseMpdsCsv refYear headers rows strict = .ok (L, I)) :
    ∀ l ∈ L, nzValor l := by
  unfold parseMpdsCsv at h
  split at h
  · cases h
  split at h
  · cases h
  split at h
  · cases h
  simp only [] at h
  split at h
  · cases h
  exact csvGo_nz _ _ _ _ _ _ _ _ _ _ rows 0 [] [] L I (by simp) h

theorem ofxBlock_keep {idx : ℕ} {b : OfxBlock} {l : RLanc}
    (h : ofxBlock idx b = .keep l) : nzValor l := by
  unfold ofxBlock at h
  simp only [] at h
  split at h
  · cases h
  split at h
  · cases h
  split at h
  · cases h
  split at h
  · cases h
  split at h
  · cases h
  exact pushNonzero_keep_valor h rfl

theorem ofxGo_nz (strict : Bool) :
    ∀ (blocks : List OfxBlock) (n : ℕ) (lancs : List RLanc) (iss : List String)
      (L : List RLanc) (I : List String),
      (∀ l ∈ lancs, nzValor l) →
      ofxGo strict n blocks lancs iss = .ok (L, I) → ∀ l ∈ L, nzValor l
  | [], n, lancs, iss, L, I, hinv, h, l, hl => by
    cases h
    exact hinv l hl
  | b :: rest, n, lancs, iss, L, I, hinv, h, l, hl => by
    rw [ofxGo] at h
    cases hline : ofxBlock n b with
    | skip =>
      simp only [hline] at h
      exact ofxGo_nz strict rest (n + 1) lancs iss L I hinv h l hl
    | keep l0 =>
      simp only [hline] at h
      refine ofxGo_nz strict rest (n + 1) (lancs ++ [l0]) iss L I ?_ h l hl
      intro x hx
      rcases List.mem_append.mp hx with hx | hx
      · exact hinv x hx
      · rcases List.mem_singleton.mp hx with rfl
        exact ofxBlock_keep hline
    | issue msg =>
      simp only [hline] at h
      split at h
      · cases h
      · exact ofxGo_nz strict rest (n + 1) lancs (iss ++ [msg]) L I hinv h l hl

/-- Fold preservation of a state invariant. -/
theorem foldlPreserve {α σ : Type} {f : σ → α → σ} {P : σ → Prop}
    (hstep : ∀ s a, P s → P (f s a)) :
    ∀ (xs : List α) (s : σ), P s → P (xs.foldl f s)
  | [], _, hs => hs
  | x :: xs, s, hs => foldlPreserve hstep xs (f s x) (hstep s x hs)

theorem nb1Step_nz {refYear : ℕ} {lancs : List RLanc} {c : NbCap1}
    (hinv : ∀ l ∈ lancs, nzValor l) : ∀ l ∈ nb1Step refYear lancs c, nzValor l := by
  unfold nb1Step
  simp only []
  split
  · exact hinv
  split
  · exact hinv
  next hz =>
    intro l hl
    rcases List.mem_append.mp hl with hl | hl
    · exact hinv l hl
    · rcases List.mem_singleton.mp hl with rfl
      intro q hq
      cases hq
      exact hz

theorem nb2Step_nz {refYear : ℕ} {lancs : List RLanc} {c : NbCap2}
    (hinv : ∀ l ∈ lancs, nzValor l) : ∀ l ∈ nb2Step refYear lancs c, nzValor l := by
  unfold nb2Step
  simp only []
  split
  · exact hinv
  split
  · exact hinv
  next hz =>
    intro l hl
    rcases List.mem_append.mp hl with hl | hl
    · exact hinv l hl
    · rcases List.mem_singleton.mp hl with rfl
      intro q hq
      cases hq
      exact hz

theorem parseNubank_nz (refYear : ℕ) (caps1 : List NbCap1) (caps2 : List NbCap2) :
    ∀ l ∈ (parseNubank refYear caps1 caps2).1, nzValor l := by
  unfold parseNubank
  simp only []
  split
  · exact @foldlPreserve NbCap2 (List RLanc) (nb2Step refYear)
      (fun s => ∀ l ∈ s, nzValor l) (fun s a hs => nb2Step_nz hs) caps2 [] (by simp)
  · exact @foldlPreserve NbCap1 (List RLanc) (nb1Step refYear)
      (fun s => ∀ l ∈ s, nzValor l) (fun s a hs => nb1Step_nz hs) caps1 [] (by simp)

theorem scStep_nz {refYear curYear : ℕ} {anoInferido : Option ℕ}
    {st : List RLanc × List (String × String × ℤ)} {c : ScCap}
    (hinv : ∀ l ∈ st.1, nzValor l) :
    ∀ l ∈ (scStep refYear curYear anoInferido st c).1, nzValor l := by
  unfold scStep
  simp only []
  split
  · exact hinv
  split
  · exact hinv
  next hz =>
    split
    · exact hinv
    split
    · exact hinv
    split
    · exact hinv
    intro l hl
    rcases List.mem_append.mp hl with hl | hl
    · exact hinv l hl
    · rcases List.mem_singleton.mp hl with rfl
      intro q hq
      cases hq
      exact hz

theorem sc4Step_nz {refYear curYear : ℕ} {anoInferido : Option ℕ}
    {st : List RLanc × List (String × String × ℤ)} {c : Sc4}
    (hinv : ∀ l ∈ st.1, nzValor l) :
    ∀ l ∈ (sc4Step refYear curYear anoInferido st c).1, nzValor l := by
  unfold sc4Step
  simp only []
  split
  · exact hinv
  split
  next hz => exact hinv
  next hz =>
    split
    · exact hinv
    split
    · exact hinv
    split
    · exact hinv
    intro l hl
    rcases List.mem_append.mp hl with hl | hl
    · exact hinv l hl
    · rcases List.mem_singleton.mp hl with rfl
      intro q hq
      cases hq
      intro habs
      exact hz (Or.inl habs)

theorem parseSicoob_nz (refYear curYear : ℕ) (anoInferido : Option ℕ)
    (c1 c2 c3 : List ScCap) (c4 : List Sc4) :
    ∀ l ∈ (parseSicoob refYear curYear anoInferido c1 c2 c3 c4).1, nzValor l := by
  unfold parseSicoob
  exact @foldlPreserve Sc4 (List RLanc × List (String × String × ℤ))
    (sc4Step refYear curYear anoInferido) (fun s => ∀ l ∈ s.1, nzValor l)
    (fun s a hs => sc4Step_nz hs) c4 _
    (@foldlPreserve ScCap _ (scStep refYear curYear anoInferido)
      (fun s => ∀ l ∈ s.1, nzValor l) (fun s a hs => scStep_nz hs) c3 _
      (@foldlPreserve ScCap _ (scStep refYear curYear anoInferido)
        (fun s => ∀ l ∈ s.1, nzValor l) (fun s a hs => scStep_nz hs) c2 _
        (@foldlPreserve ScCap _ (scStep refYear curYear anoInferido)
          (fun s => ∀ l ∈ s.1, nzValor l) (fun s a hs => scStep_nz hs) c1 ([], [])
          (by simp))))

/-- C9: every transaction any of the four format parsers outputs has an
amount that is not exactly zero, whatever the input and the strict flag —
and zero-amount records are dropped silently: the two closing runs feed a
parser one zero-amount record and get back no transaction and an empty
issues list. -/
theorem C9_no_zero_amounts :
    (∀ refYear linhas strict L I,
      parseOtimizaTxt refYear linhas strict = .ok (L, I) →
        ∀ l ∈ L, ∀ q, l.valor = some q → ¬ JQ.eqv q 0)
    ∧ (∀ refYear headers rows strict L I,
      parseMpdsCsv refYear headers rows strict = .ok (L, I) →
        ∀ l ∈ L, ∀ q, l.valor = some q → ¬ JQ.eqv q 0)
    ∧ (∀ blocks strict L I,
      parseMpdsOfx blocks strict = .ok (L, I) →
        ∀ l ∈ L, ∀ q, l.valor = some q → ¬ JQ.eqv q 0)
    ∧ (∀ banco refYear curYear anoInferido nu1 nu2 c1 c2 c3 c4,
      ∀ l ∈ (parseMpdsPdf banco refYear curYear anoInferido nu1 nu2 c1 c2 c3 c4).1,
        ∀ q, l.valor = some q → ¬ JQ.eqv q 0)
    ∧ parseOtimizaTxt 2025 ["01/03/2024|pagamento teste|0,00".data] false = .ok ([], [])
    ∧ parseMpdsOfx [⟨some "20240301", some "0.00", none, none, none⟩] false
        = .ok ([], []) := by
  refine ⟨?_, ?_, ?_, ?_, rfl, rfl⟩
  · intro refYear linhas strict L I h
    exact otGo_nz refYear strict linhas 0 [] [] L I (by simp) h
  · intro refYear headers rows strict L I h
    exact parseMpdsCsv_nz h
  · intro blocks strict L I h
    exact ofxGo_nz strict blocks 0 [] [] L I (by simp) h
  · intro banco refYear curYear anoInferido nu1 nu2 c1 c2 c3 c4
    unfold parseMpdsPdf
    split
    · exact parseNubank_nz refYear nu1 nu2
    split
    · exact parseSicoob_nz refYear curYear anoInferido c1 c2 c3 c4
    split
    · exact parseNubank_nz refYear nu1 nu2
    · exact parseSicoob_nz refYear curYear anoInferido c1 c2 c3 c4

/-- C9, witness: concrete runs of all four parsers, each producing one
transaction, whose amounts the theorem certifies nonzero. -/
theorem C9_witness :
    ¬ JQ.eqv (JQ.mk' 1050 100) 0 ∧ ¬ JQ.eqv (JQ.mk' 500 100) 0 ∧
    ¬ JQ.eqv (JQ.mk' (-15025) 100) 0 ∧ ¬ JQ.eqv (JQ.mk' 112360 100) 0 :=
  ⟨C9_no_zero_amounts.1 2025 ["01/03/2024|pagamento teste|10,50".data] false
      [⟨"2024-03-01", "pagamento teste", none, some (JQ.mk' 1050 100), none, none,
        "otimiza", none, none, none, none⟩] [] (by decide)
      ⟨"2024-03-01", "pagamento teste", none, some (JQ.mk' 1050 100), none, none,
        "otimiza", none, none, none, none⟩ (by decide) (JQ.mk' 1050 100) rfl,
    C9_no_zero_amounts.2.1 2025 ["Data", "Descrição", "Valor"]
      [["01/03/2024", "pagamento x", "5,00"]] false
      [⟨"2024-03-01", "pagamento x", none, some (JQ.mk' 500 100), none, none,
        "mpds", none, none, none, none⟩] [] (by decide)
      ⟨"2024-03-01", "pagamento x", none, some (JQ.mk' 500 100), none, none,
        "mpds", none, none, none, none⟩ (by decide) (JQ.mk' 500 100) rfl,
    C9_no_zero_amounts.2.2.1 [⟨some "20240301", some "-150.25", none, none, none⟩] false
      [⟨"2024-03-01", "Transação sem descrição", none, some (JQ.mk' (-15025) 100),
        none, none, "mpds", none, none, none, none⟩] [] (by decide)
      ⟨"2024-03-01", "Transação sem descrição", none, some (JQ.mk' (-15025) 100),
        none, none, "mpds", none, none, none, none⟩ (by decide) (JQ.mk' (-15025) 100) rfl,
    C9_no_zero_amounts.2.2.2.1 "nubank" 2025 2025 none
      [⟨"16", "OUT", "2025", "Transferência recebida", "1.123,60"⟩] [] [] [] [] []
      ⟨"2025-10-16", "Transferência recebida", none, some (JQ.mk' 112360 100), none,
        none, "mpds", none, none, none, none⟩ (by decide) (JQ.mk' 112360 100) rfl⟩

theorem otGo_ns (refYear : ℕ) :
    ∀ (ls : List Str) (n : ℕ) (lancs : List RLanc) (iss : List String),
      ∃ L I, otGo refYear false n ls lancs iss = .ok (L, iss ++ I) ∧
        (exceptOk (otGo refYear true n ls lancs iss) = true ↔ I = [])
  | [], n, lancs, iss => ⟨lancs, [], by simp [otGo], by simp [otGo, exceptOk]⟩
  | linha :: rest, n, lancs, iss => by
    cases hline : otLine refYear n linha with
    | skip =>
      obtain ⟨L, I, h1, h2⟩ := otGo_ns refYear rest (n + 1) lancs iss
      exact ⟨L, I, by rw [otGo]; simp only [hline]; exact h1,
        by rw [otGo]; simp only [hline]; exact h2⟩
    | keep l0 =>
      obtain ⟨L, I, h1, h2⟩ := otGo_ns refYear rest (n + 1) (lancs ++ [l0]) iss
      exact ⟨L, I, by rw [otGo]; simp only [hline]; exact h1,
        by rw [otGo]; simp only [hline]; exact h2⟩
    | issue msg =>
      obtain ⟨L, I, h1, h2⟩ := otGo_ns refYear rest (n + 1) lancs (iss ++ [msg])
      refine ⟨L, msg :: I, ?_, ?_⟩
      · rw [otGo]
        simp only [hline, Bool.false_eq_true, if_false]
        rw [h1, List.append_assoc, List.singleton_append]
      · rw [otGo]
        simp only [hline, if_true, exceptOk]
        simp

theorem csvGo_ns (refYear headersLen colData colDesc : ℕ)
    (colValor colDeb colCred colDoc colSaldo : Option ℕ) :
    ∀ (rows : List (List String)) (n : ℕ) (lancs : List RLanc) (iss : List String),
      ∃ L I, csvGo refYear headersLen colData colDesc colValor colDeb colCred colDoc
          colSaldo false n rows lancs iss = .ok (L, iss ++ I) ∧
        (exceptOk (csvGo refYear headersLen colData colDesc colValor colDeb colCred
          colDoc colSaldo true n rows lancs iss) = true ↔ I = [])
  | [], n, lancs, iss => ⟨lancs, [], by simp [csvGo], by simp [csvGo, exceptOk]⟩
  | row :: rest, n, lancs, iss => by
    cases hline : csvRow refYear headersLen colData colDesc colValor colDeb colCred
        colDoc colSaldo n row with
    | skip =>
      obtain ⟨L, I, h1, h2⟩ := csvGo_ns refYear headersLen colData colDesc colValor
        colDeb colCred colDoc colSaldo rest (n + 1) lancs iss
      exact ⟨L, I, by rw [csvGo]; simp only [hline]; exact h1,
        by rw [csvGo]; simp only [hline]; exact h2⟩
    | keep l0 =>
      obtain ⟨L, I, h1, h2⟩ := csvGo_ns refYear headersLen colData colDesc colValor
        colDeb colCred colDoc colSaldo rest (n + 1) (lancs ++ [l0]) iss
      exact ⟨L, I, by rw [csvGo]; simp only [hline]; exact h1,
        by rw [csvGo]; simp only [hline]; exact h2⟩
    | issue msg =>
      obtain ⟨L, I, h1, h2⟩ := csvGo_ns refYear headersLen colData colDesc colValor
        colDeb colCred colDoc colSaldo rest (n + 1) lancs (iss ++ [msg])
      refine ⟨L, msg :: I, ?_, ?_⟩
      · rw [csvGo]
        simp only [hline, Bool.false_eq_true, if_false]
        rw [h1, List.append_assoc, List.singleton_append]
      · rw [csvGo]
        simp only [hline, if_true, exceptOk]
        simp

/-- C8 (amended semantics): for the TXT Otimiza parser, non-strict mode
never rejects, and strict mode rejects exactly when the non-strict run
records at least one issue; for the CSV parser the same equivalence holds
whenever the non-strict run succeeds at all, and a non-strict rejection
(header/column resolution failure) is the identical rejection in strict
mode.  (The claim's stronger reading — *every* record with an
empty/missing required field is recorded as an issue — is refuted by
`C8_counterexample`.) -/
theorem C8_issue_policy :
    (∀ refYear (linhas : List Str) L I,
      parseOtimizaTxt refYear linhas false = .ok (L, I) →
        (exceptOk (parseOtimizaTxt refYear linhas true) = true ↔ I = []))
    ∧ (∀ refYear (linhas : List Str),
      exceptOk (parseOtimizaTxt refYear linhas false) = true)
    ∧ (∀ refYear headers (rows : List (List String)) L I,
      parseMpdsCsv refYear headers rows false = .ok (L, I) →
        (exceptOk (parseMpdsCsv refYear headers rows true) = true ↔ I = []))
    ∧ (∀ refYear headers (rows : List (List String)) e,
      parseMpdsCsv refYear headers rows false = .error e →
        parseMpdsCsv refYear headers rows true = .error e) := by
  have csvSplit : ∀ refYear headers (rows : List (List String))
      (P : Except String (List RLanc × List String) → Prop),
      (∀ e, parseMpdsCsv refYear headers rows false = .error e →
        parseMpdsCsv refYear headers rows true = .error e → P (.error e)) →
      (∀ headersLen colData colDesc colValor colDeb colCred colDoc colSaldo,
        parseMpdsCsv refYear headers rows false =
          csvGo refYear headersLen colData colDesc colValor colDeb colCred colDoc
            colSaldo false 0 rows [] [] →
        parseMpdsCsv refYear headers rows true =
          csvGo refYear headersLen colData colDesc colValor colDeb colCred colDoc
            colSaldo true 0 rows [] [] →
        P (csvGo refYear headersLen colData colDesc colValor colDeb colCred colDoc
            colSaldo false 0 rows [] [])) →
      P (parseMpdsCsv refYear headers rows false) := by
    intro refYear headers rows P herr hgo
    by_cases h0 : headers.length = 0
    · rw [parseMpdsCsv, if_pos h0]
      exact herr _ (by rw [parseMpdsCsv, if_pos h0]) (by rw [parseMpdsCsv, if_pos h0])
    cases hc1 : findColumnIndex headers csvDataNames with
    | none =>
      rw [parseMpdsCsv, if_neg h0, hc1]
      exact herr _ (by rw [parseMpdsCsv, if_neg h0, hc1])
        (by rw [parseMpdsCsv, if_neg h0, hc1])
    | some colData =>
      cases hc2 : findColumnIndex headers csvDescNames with
      | none =>
        rw [parseMpdsCsv, if_neg h0, hc1, hc2]
        exact herr _ (by rw [parseMpdsCsv, if_neg h0, hc1, hc2])
          (by rw [parseMpdsCsv, if_neg h0, hc1, hc2])
      | some colDesc =>
        by_cases h3 : findColumnIndex headers csvValorNames = none ∧
            findColumnIndex headers csvDebNames = none ∧
            findColumnIndex headers csvCredNames = none
        · rw [parseMpdsCsv, if_neg h0, hc1, hc2]
          simp only [if_pos h3]
          refine herr _ ?_ ?_ <;>
            (rw [parseMpdsCsv, if_neg h0, hc1, hc2]; simp only [if_pos h3])
        · rw [parseMpdsCsv, if_neg h0, hc1, hc2]
          simp only [if_neg h3]
          refine hgo headers.length colData colDesc _ _ _ _ _ ?_ ?_ <;>
            (rw [parseMpdsCsv, if_neg h0, hc1, hc2]; simp only [if_neg h3])
  refine ⟨?_, ?_, ?_, ?_⟩
  · intro refYear linhas L I h
    obtain ⟨L', I', h1, h2⟩ := otGo_ns refYear linhas 0 [] []
    rw [parseOtimizaTxt] at h
    rw [h1] at h
    simp only [Except.ok.injEq, Prod.mk.injEq, List.nil_append] at h
    obtain ⟨rfl, rfl⟩ := h
    rw [parseOtimizaTxt]
    exact h2
  · intro refYear linhas
    obtain ⟨L', I', h1, _⟩ := otGo_ns refYear linhas 0 [] []
    rw [parseOtimizaTxt, h1]
    rfl
  · intro refYear headers rows L I h
    revert h
    refine csvSplit refYear headers rows
      (fun r => r = .ok (L, I) →
        (exceptOk (parseMpdsCsv refYear headers rows true) = true ↔ I = [])) ?_ ?_
    · intro e _ _ hok
      cases hok
    · intro headersLen colData colDesc colValor colDeb colCred colDoc colSaldo hns hs hok
      obtain ⟨L', I', h1, h2⟩ := csvGo_ns refYear headersLen colData colDesc colValor
        colDeb colCred colDoc colSaldo rows 0 [] []
      rw [h1] at hok
      simp only [Except.ok.injEq, Prod.mk.injEq, List.nil_append] at hok
      obtain ⟨rfl, rfl⟩ := hok
      rw [hs]
      exact h2
  · intro refYear headers rows e h
    revert h
    refine csvSplit refYear headers rows
      (fun r => r = .error e → parseMpdsCsv refYear headers rows true = .error e) ?_ ?_
    · intro e' he1 he2 heq
      rw [he2, ← heq]
    · intro headersLen colData colDesc colValor colDeb colCred colDoc colSaldo hns hs heq
      obtain ⟨L', I', h1, _⟩ := csvGo_ns refYear headersLen colData colDesc colValor
        colDeb colCred colDoc colSaldo rows 0 [] []
      rw [h1] at heq
      cases heq

/-- C8, counterexample to the claim's universal "recorded as a parsing
issue": a CSV row whose required description field is whitespace-only is
skipped with *no* issue recorded, and a delimited TXT line whose date
does not exist (`31/02/2024`) is likewise skipped silently. -/
theorem C8_counterexample :
    parseMpdsCsv 2025 ["Data", "Descrição", "Valor"] [["01/03/2024", " ", "10,50"]]
        false = .ok ([], [])
    ∧ parseOtimizaTxt 2025 ["31/02/2024|pagamento teste|10,50".data] false
        = .ok ([], []) :=
  ⟨by decide, by decide⟩

/-- C8, witness: runs that do record an issue — a delimited TXT line with
no value field and a CSV row with an empty date cell — where the theorem
yields that the strict run rejects (the iff against a nonempty issue
list). -/
theorem C8_witness :
    (exceptOk (parseOtimizaTxt 2025 ["01/03/2024|pagamento teste|xyz".data] true)
        = true ↔ (["Linha 1: Valor não encontrado"] : List String) = [])
    ∧ (exceptOk (parseMpdsCsv 2025 ["Data", "Descrição", "Valor"]
        [["", "pagamento", "10,50"]] true) = true
      ↔ (["Linha 2: Data não encontrada"] : List String) = []) :=
  ⟨C8_issue_policy.1 2025 ["01/03/2024|pagamento teste|xyz".data] []
      ["Linha 1: Valor não encontrado"] (by decide),
    C8_issue_policy.2.2.1 2025 ["Data", "Descrição", "Valor"]
      [["", "pagamento", "10,50"]] [] ["Linha 2: Data não encontrada"] (by decide)⟩

end CalObr
